import Mathlib

/-!
WebAuth token core: base64 codec and token engine.

A shallow embedding of `src/libwebauth/base64.c` and `src/libwebauth/token.c`
together with the properties of the specification that concern them.

Conventions of the embedding.

* A byte is a natural number below 256; a byte string is a `List Nat`.
* A C `int` result that is either a length/count or one of the negative
  `WA_ERR_*` codes is a value of `Ret`.
* Memory is a total map from addresses to bytes; a pointer is an address.
  Every store a routine performs is also recorded, in execution order, so
  that statements about where a routine writes can be made.
-/

namespace WebAuth

/-! ## Result codes -/

/-- Modelled from the spec: the `WA_ERR_*` codes that `base64.c` and `token.c`
return; they are declared in `webauth.h`, which is not under `src/` (the
spec lists them as `NoRoom, Corrupt, NoMem, BadKey, BadHmac`). -/
inductive WA_ERR where
  | NO_ROOM
  | CORRUPT
  | NO_MEM
  | BAD_HMAC
  | BAD_KEY
  deriving DecidableEq, Repr

/-- An `int` result: `len n` is the non-negative value `n`, `err e` is the
code `e`, which the callers tell from a length by the test `result < 0`. -/
inductive Ret where
  | len (n : Nat)
  | err (e : WA_ERR)
  deriving DecidableEq, Repr

/-! ## base64.c -/

/-- The macro `#define XX 127`. -/
def XX : Nat := 127

/-- The table `static const unsigned char index_64[256]`. -/
def index_64 : List Nat := [
    XX, XX, XX, XX, XX, XX, XX, XX, XX, XX, XX, XX, XX, XX, XX, XX,
    XX, XX, XX, XX, XX, XX, XX, XX, XX, XX, XX, XX, XX, XX, XX, XX,
    XX, XX, XX, XX, XX, XX, XX, XX, XX, XX, XX, 62, XX, XX, XX, 63,
    52, 53, 54, 55, 56, 57, 58, 59, 60, 61, XX, XX, XX, XX, XX, XX,
    XX,  0,  1,  2,  3,  4,  5,  6,  7,  8,  9, 10, 11, 12, 13, 14,
    15, 16, 17, 18, 19, 20, 21, 22, 23, 24, 25, XX, XX, XX, XX, XX,
    XX, 26, 27, 28, 29, 30, 31, 32, 33, 34, 35, 36, 37, 38, 39, 40,
    41, 42, 43, 44, 45, 46, 47, 48, 49, 50, 51, XX, XX, XX, XX, XX,
    XX, XX, XX, XX, XX, XX, XX, XX, XX, XX, XX, XX, XX, XX, XX, XX,
    XX, XX, XX, XX, XX, XX, XX, XX, XX, XX, XX, XX, XX, XX, XX, XX,
    XX, XX, XX, XX, XX, XX, XX, XX, XX, XX, XX, XX, XX, XX, XX, XX,
    XX, XX, XX, XX, XX, XX, XX, XX, XX, XX, XX, XX, XX, XX, XX, XX,
    XX, XX, XX, XX, XX, XX, XX, XX, XX, XX, XX, XX, XX, XX, XX, XX,
    XX, XX, XX, XX, XX, XX, XX, XX, XX, XX, XX, XX, XX, XX, XX, XX,
    XX, XX, XX, XX, XX, XX, XX, XX, XX, XX, XX, XX, XX, XX, XX, XX,
    XX, XX, XX, XX, XX, XX, XX, XX, XX, XX, XX, XX, XX, XX, XX, XX]

/-- The macro `#define CHAR64(c) (index_64[(unsigned char)(c)])`. -/
def CHAR64 (c : Nat) : Nat := index_64.getD (c % 256) 0

/-- The table `static char basis_64[]`, the characters as byte values. -/
def basis_64 : List Nat :=
  ("ABCDEFGHIJKLMNOPQRSTUVWXYZabcdefghijklmnopqrstuvwxyz0123456789+/".toList).map Char.toNat

/-- The character `'='`. -/
def EQ : Nat := 61

/-- The function `webauth_base64_encoded_length`: `none` is the failed `assert(length > 0)`
(a negative length fails it as 0 does). -/
def webauth_base64_encoded_length (length : Nat) : Option Nat :=
  if length > 0 then some ((length + 2) / 3 * 4) else none

/-- One store `output[idx] = val`. -/
structure Store where
  idx : Nat
  val : Nat
  deriving DecidableEq, Repr

/-- Outcome of a run of the encoder: the value returned and the stores made
to `output`, in execution order. -/
structure EncRun where
  ret : Ret
  stores : List Store
  deriving DecidableEq, Repr

/-- Record a store in front of the rest of a run. -/
def EncRun.after (s : Store) (r : EncRun) : EncRun := ⟨r.ret, s :: r.stores⟩

/-- The `while (input_len)` loop of `webauth_base64_encode`.  The list is the
input still to be read (`input` and `input_len` together); `out_len` is the
loop variable of that name.  Stores into `output` are `unsigned char` stores,
hence the `% 256`. -/
def encodeLoop (output_max : Nat) : List Nat → Nat → EncRun
  | [], out_len => ⟨.len out_len, []⟩
  | c1 :: rest, out_len =>
    if out_len = output_max then ⟨.err .NO_ROOM, []⟩ else
    EncRun.after ⟨out_len, basis_64.getD (c1 >>> 2) 0 % 256⟩ <|
    let c2 := match rest with
      | [] => 0
      | c2 :: _ => c2
    if out_len + 1 = output_max then ⟨.err .NO_ROOM, []⟩ else
    EncRun.after ⟨out_len + 1,
      basis_64.getD (((c1 &&& 0x3) <<< 4) ||| ((c2 &&& 0xF0) >>> 4)) 0 % 256⟩ <|
    match rest with
    | [] =>
      EncRun.after ⟨out_len + 2, EQ⟩ <| EncRun.after ⟨out_len + 3, EQ⟩ <|
        ⟨.len (out_len + 4), []⟩
    | _ :: rest2 =>
      let c3 := match rest2 with
        | [] => 0
        | c3 :: _ => c3
      if out_len + 2 = output_max then ⟨.err .NO_ROOM, []⟩ else
      EncRun.after ⟨out_len + 2,
        basis_64.getD (((c2 &&& 0xF) <<< 2) ||| ((c3 &&& 0xC0) >>> 6)) 0 % 256⟩ <|
      match rest2 with
      | [] =>
        EncRun.after ⟨out_len + 3, EQ⟩ <| ⟨.len (out_len + 4), []⟩
      | _ :: rest3 =>
        if out_len + 3 = output_max then ⟨.err .NO_ROOM, []⟩ else
        EncRun.after ⟨out_len + 3, basis_64.getD (c3 &&& 0x3F) 0 % 256⟩ <|
        encodeLoop output_max rest3 (out_len + 4)

/-- The call `webauth_base64_encode(input, input_len, output, output_max)` with
`input_len` the length of `input`; `none` is the failed `assert(input_len > 0)`. -/
def webauth_base64_encode (input : List Nat) (output_max : Nat) : Option EncRun :=
  if input.length > 0 then some (encodeLoop output_max input 0) else none

/-- Memory: a total map from addresses to bytes. -/
abbrev Mem := Nat → Nat

/-- The memory after the store `*(a) = v`. -/
def Mem.store (m : Mem) (a v : Nat) : Mem := fun x => if x = a then v else m x

/-- The `n` bytes of memory that start at address `a`. -/
def Mem.bytes (m : Mem) (a n : Nat) : List Nat := (List.range n).map (fun k => m (a + k))

/-- The memory that holds the byte string `s` from address `a` on, and `m`
elsewhere. -/
def Mem.place (m : Mem) (a : Nat) (s : List Nat) : Mem :=
  fun x => if a ≤ x ∧ x < a + s.length then s.getD (x - a) 0 else m x

/-- One store `output[idx] = val` of the decoder; `rd` is the value of the
read index `i` at the time of the store (the number of input bytes read). -/
structure DecStore where
  idx : Nat
  val : Nat
  rd : Nat
  deriving DecidableEq, Repr

/-- Outcome of a run of the decoder: the value returned, the stores made to
`output` in execution order, and the memory at return. -/
structure DecRun where
  ret : Ret
  stores : List DecStore
  mem : Mem

/-- Record a store in front of the rest of a run. -/
def DecRun.after (s : DecStore) (r : DecRun) : DecRun := ⟨r.ret, s :: r.stores, r.mem⟩

/-- The `while (i <= j)` loop of `webauth_base64_decode`, `j = input_len - 4`.
`input` and `output` are addresses, `i` and `out_len` the loop variables; the
stores into `output` are `unsigned char` stores, hence the `% 256`.  The
first argument bounds the number of times the loop condition is evaluated;
`none` means that the bound was reached. -/
def decodeLoop (input input_len output output_max : Nat) :
    Nat → Nat → Nat → Mem → Option DecRun
  | 0, _, _, _ => none
  | fuel + 1, i, out_len, mem =>
    if (i : Int) ≤ (input_len : Int) - 4 then
      let c1 := mem (input + i)
      if CHAR64 c1 = XX then some ⟨.err .CORRUPT, [], mem⟩ else
      let c2 := mem (input + (i + 1))
      if CHAR64 c2 = XX then some ⟨.err .CORRUPT, [], mem⟩ else
      let c3 := mem (input + (i + 2))
      if c3 ≠ EQ ∧ CHAR64 c3 = XX then some ⟨.err .CORRUPT, [], mem⟩ else
      let c4 := mem (input + (i + 3))
      if c4 ≠ EQ ∧ CHAR64 c4 = XX then some ⟨.err .CORRUPT, [], mem⟩ else
      if out_len = output_max then some ⟨.err .NO_ROOM, [], mem⟩ else
      let v1 := ((CHAR64 c1 <<< 2) ||| ((CHAR64 c2 &&& 0x30) >>> 4)) % 256
      let mem1 := mem.store (output + out_len) v1
      (DecRun.after ⟨out_len, v1, i + 4⟩) <$>
      if c3 = EQ then
        if c4 ≠ EQ then some ⟨.err .CORRUPT, [], mem1⟩
        else some ⟨.len (out_len + 1), [], mem1⟩
      else
      if out_len + 1 = output_max then some ⟨.err .NO_ROOM, [], mem1⟩ else
      let v2 := (((CHAR64 c2 &&& 0xf) <<< 4) ||| ((CHAR64 c3 &&& 0x3c) >>> 2)) % 256
      let mem2 := mem1.store (output + (out_len + 1)) v2
      (DecRun.after ⟨out_len + 1, v2, i + 4⟩) <$>
      if c4 = EQ then some ⟨.len (out_len + 2), [], mem2⟩ else
      if out_len + 2 = output_max then some ⟨.err .NO_ROOM, [], mem2⟩ else
      let v3 := (((CHAR64 c3 &&& 0x3) <<< 6) ||| CHAR64 c4) % 256
      let mem3 := mem2.store (output + (out_len + 2)) v3
      (DecRun.after ⟨out_len + 2, v3, i + 4⟩) <$>
      if i + 4 = input_len then some ⟨.len (out_len + 3), [], mem3⟩ else
      decodeLoop input input_len output output_max fuel (i + 4) (out_len + 3) mem3
    else some ⟨.err .NO_ROOM, [], mem⟩

/-- The call `webauth_base64_decode(input, input_len, output, output_max)` run on the
memory `mem`, `input` and `output` being addresses (equal when the call is in
place).  `none` is the failed `assert(input_len > 0 && input_len % 4 == 0)`;
the loop is given `input_len` condition evaluations, more than it can use. -/
def webauth_base64_decode (mem : Mem) (input input_len output output_max : Nat) :
    Option DecRun :=
  if input_len > 0 ∧ input_len % 4 = 0 then
    decodeLoop input input_len output output_max input_len 0 0 mem
  else none

/-! ## Reference definitions for the codec -/

/-- The stores `output[k] = v` for the values of a list, from index `k` on. -/
def storesOf : Nat → List Nat → List Store
  | _, [] => []
  | k, v :: vs => ⟨k, v⟩ :: storesOf (k + 1) vs

/-- The character of the alphabet `A-Za-z0-9+/` that stands for the 6-bit
value `d`. -/
def b64digit (d : Nat) : Nat :=
  if d < 26 then 65 + d
  else if d < 52 then 97 + (d - 26)
  else if d < 62 then 48 + (d - 52)
  else if d = 62 then 43
  else 47

/-- The base64 encoding of RFC 4648: each group of three bytes is a 24-bit
number written as four 6-bit digits; a final group of one byte gives two
digits and `==`, a final group of two bytes three digits and `=`. -/
def rfc4648_encode : List Nat → List Nat
  | [] => []
  | [a] => [b64digit (a / 4), b64digit (a % 4 * 16), EQ, EQ]
  | [a, b] =>
    [b64digit ((a * 256 + b) / 1024), b64digit ((a * 256 + b) / 16 % 64),
     b64digit ((a * 256 + b) % 16 * 4), EQ]
  | a :: b :: c :: rest =>
    b64digit ((a * 65536 + b * 256 + c) / 262144) ::
    b64digit ((a * 65536 + b * 256 + c) / 4096 % 64) ::
    b64digit ((a * 65536 + b * 256 + c) / 64 % 64) ::
    b64digit ((a * 65536 + b * 256 + c) % 64) :: rfc4648_encode rest

/-- The memory after a list of stores into the buffer at address `output`. -/
def applyStores (output : Nat) : Mem → List DecStore → Mem
  | mem, [] => mem
  | mem, s :: ss => applyStores output (mem.store (output + s.idx) s.val) ss

/-- What the decoding loop does with the characters `s` still to be read,
as a function of those characters alone: the value returned and the stores
made.  `i` and `out_len` are the loop variables on entry. -/
def decodeGroups (output_max : Nat) : List Nat → Nat → Nat → Ret × List DecStore
  | [], _, _ => (.err .NO_ROOM, [])
  | [_], _, _ => (.err .NO_ROOM, [])
  | [_, _], _, _ => (.err .NO_ROOM, [])
  | [_, _, _], _, _ => (.err .NO_ROOM, [])
  | c1 :: c2 :: c3 :: c4 :: rest, i, out_len =>
    if CHAR64 c1 = XX then (.err .CORRUPT, []) else
    if CHAR64 c2 = XX then (.err .CORRUPT, []) else
    if c3 ≠ EQ ∧ CHAR64 c3 = XX then (.err .CORRUPT, []) else
    if c4 ≠ EQ ∧ CHAR64 c4 = XX then (.err .CORRUPT, []) else
    if out_len = output_max then (.err .NO_ROOM, []) else
    let s1 : DecStore :=
      ⟨out_len, ((CHAR64 c1 <<< 2) ||| ((CHAR64 c2 &&& 0x30) >>> 4)) % 256, i + 4⟩
    if c3 = EQ then
      if c4 ≠ EQ then (.err .CORRUPT, [s1]) else (.len (out_len + 1), [s1])
    else
    if out_len + 1 = output_max then (.err .NO_ROOM, [s1]) else
    let s2 : DecStore :=
      ⟨out_len + 1, (((CHAR64 c2 &&& 0xf) <<< 4) ||| ((CHAR64 c3 &&& 0x3c) >>> 2)) % 256, i + 4⟩
    if c4 = EQ then (.len (out_len + 2), [s1, s2]) else
    if out_len + 2 = output_max then (.err .NO_ROOM, [s1, s2]) else
    let s3 : DecStore :=
      ⟨out_len + 2, (((CHAR64 c3 &&& 0x3) <<< 6) ||| CHAR64 c4) % 256, i + 4⟩
    if rest = [] then (.len (out_len + 3), [s1, s2, s3]) else
    ((decodeGroups output_max rest (i + 4) (out_len + 3)).1,
      s1 :: s2 :: s3 :: (decodeGroups output_max rest (i + 4) (out_len + 3)).2)

/-- The run of the decoder that makes the stores `p.2` on the memory `mem`
and returns `p.1`. -/
def runOf (output : Nat) (mem : Mem) (p : Ret × List DecStore) : DecRun :=
  ⟨p.1, p.2, applyStores output mem p.2⟩

/-- The memory after a list of stores of the encoder into the buffer at
address `output`. -/
def writeStores (output : Nat) : Mem → List Store → Mem
  | mem, [] => mem
  | mem, s :: ss => writeStores output (mem.store (output + s.idx) s.val) ss

/-- Whether `c` is one of the 64 characters `A-Za-z0-9+/`. -/
def isAlpha (c : Nat) : Bool := decide (c ∈ basis_64)

/-- Well-formed base64 text: whole groups of four characters, at least one,
all of them alphabet characters except that the final group may end in `=`
or in `==`. -/
def wellFormed : List Nat → Bool
  | [] => false
  | [_] => false
  | [_, _] => false
  | [_, _, _] => false
  | c1 :: c2 :: c3 :: c4 :: rest =>
    if rest = [] then
      isAlpha c1 && isAlpha c2 &&
        ((isAlpha c3 && (isAlpha c4 || decide (c4 = EQ))) || (decide (c3 = EQ) && decide (c4 = EQ)))
    else
      isAlpha c1 && isAlpha c2 && isAlpha c3 && isAlpha c4 && wellFormed rest

/-- The number of bytes that well-formed base64 text stands for: three for
each group, less one for each `=` at the end. -/
def decodedLength : List Nat → Nat
  | [] => 0
  | [_] => 0
  | [_, _] => 0
  | [_, _, _] => 0
  | _ :: _ :: c3 :: c4 :: rest =>
    if rest = [] then (if c3 = EQ then 1 else if c4 = EQ then 2 else 3)
    else 3 + decodedLength rest

/-! ## token.c -/

/-- The macro `#define T_HINT_S 4`. -/
def T_HINT_S : Nat := 4

/-- The macro `#define T_NONCE_S 16`. -/
def T_NONCE_S : Nat := 16

/-- The constant `SHA_DIGEST_LENGTH` of `openssl/sha.h`. -/
def SHA_DIGEST_LENGTH : Nat := 20

/-- The macro `#define T_HMAC_S (SHA_DIGEST_LENGTH)`. -/
def T_HMAC_S : Nat := SHA_DIGEST_LENGTH

/-- The macro `#define T_HINT_O 0`. -/
def T_HINT_O : Nat := 0

/-- The macro `#define T_NONCE_O (T_HINT_O+T_HINT_S)`. -/
def T_NONCE_O : Nat := T_HINT_O + T_HINT_S

/-- The macro `#define T_HMAC_O (T_NONCE_O+T_NONCE_S)`. -/
def T_HMAC_O : Nat := T_NONCE_O + T_NONCE_S

/-- The macro `#define T_ATTR_O (T_HMAC_O+T_HMAC_S)`. -/
def T_ATTR_O : Nat := T_HMAC_O + T_HMAC_S

/-- The constant `AES_BLOCK_SIZE` of `openssl/aes.h`. -/
def AES_BLOCK_SIZE : Nat := 16

/-- Modelled from the spec: the type `WEBAUTH_KEY` of `webauth.h`, which is not
under `src/`; a key is `{ type, data: opaque byte sequence, length: byte
count }`, of which `token.c` uses `data` and `length`. -/
structure WEBAUTH_KEY where
  data : List Nat
  length : Nat
  deriving DecidableEq, Repr

/-- Modelled from the spec: an entry of a key ring (`webauth.h`, not under
`src/`), `{ key, creation_time, expiration_time, hint }`. -/
structure WEBAUTH_KEY_RING_ENTRY where
  key : WEBAUTH_KEY
  creation_time : Nat
  expiration_time : Option Nat
  hint : Nat
  deriving DecidableEq, Repr

/-- Modelled from the spec: the type `WEBAUTH_KEY_RING` of `webauth.h`, an
ordered sequence of entries; `num_entries` is the length of `entries`. -/
structure WEBAUTH_KEY_RING where
  entries : List WEBAUTH_KEY_RING_ENTRY
  deriving DecidableEq, Repr

/-- The routines `token.c` calls and does not define, as parameters: the
OpenSSL primitives, the attribute-list codec, the key-ring lookup, `malloc`
and `time`.  `A` is the type `WEBAUTH_ATTR_LIST`.

* `AES_set_encrypt_key userKey bits` and `AES_set_decrypt_key userKey bits`
  give the `int` they return (0 on success).
* `AES_cbc_encrypt userKey bits ivec enc data` gives the bytes written over
  `data` when run with the key schedule set up from `userKey`, `bits`;
  `enc` is `true` for `AES_ENCRYPT` and `false` for `AES_DECRYPT`.
* `HMAC key data` gives the digest (`EVP_sha1()`).
* `webauth_attrs_encode list capacity` gives the error returned or the bytes
  written (their number is the `int` returned).
* `webauth_attrs_decode buffer` gives the `int` returned and the list stored
  through the `list` argument.
* `malloc n` gives `none` for `NULL`, else the initial contents of the block
  (addressed from 0).
* `uninitialized_key_null` tells whether the indeterminate value that
  `assert (key != NULL)` of `webauth_token_parse` reads from the local `key`,
  which has not been assigned, is `NULL`. -/
structure Externals (A : Type) where
  num_attrs : A → Nat
  webauth_attrs_encoded_length : A → Nat
  webauth_attrs_encode : A → Nat → WA_ERR ⊕ List Nat
  webauth_attrs_decode : List Nat → Ret × Option A
  webauth_key_ring_best_encryption_key : WEBAUTH_KEY_RING → Option WEBAUTH_KEY
  AES_set_encrypt_key : List Nat → Nat → Int
  AES_set_decrypt_key : List Nat → Nat → Int
  AES_cbc_encrypt : List Nat → Nat → List Nat → Bool → List Nat → List Nat
  HMAC : List Nat → List Nat → List Nat
  malloc : Nat → Option Mem
  time : Nat
  uninitialized_key_null : Bool

/-- The call `binary_encoded_length(list, &plen)`, the value returned and
`*plen`, on natural numbers: what the `int` arithmetic of the source gives as
long as it does not overflow, that is for an encoded length of the attributes
up to 2147483595 (see `binary_encoded_length_int` for the `int`s). -/
def binary_encoded_length {A : Type} (X : Externals A) (list : A) : Nat × Nat :=
  let len := X.webauth_attrs_encoded_length list
  let len := len + (T_NONCE_S + T_HMAC_S)
  let m := len % AES_BLOCK_SIZE
  let plen := if m ≠ 0 then AES_BLOCK_SIZE - m else AES_BLOCK_SIZE
  let len := len + plen
  let len := len + 4
  (len, plen)

/-- The call `webauth_token_encoded_length(list)`; `none` is a failed assertion. -/
def webauth_token_encoded_length {A : Type} (X : Externals A) (list : A) : Option Nat :=
  if X.num_attrs list = 0 then none
  else webauth_base64_encoded_length (binary_encoded_length X list).1

/-- The array `temp_nonce` of `webauth_token_create`. -/
def temp_nonce : List Nat := [1, 2, 3, 4, 5, 6, 7, 8, 9, 10, 11, 12, 13, 14, 15, 16]

/-- The array `aes_ivec`, all zero. -/
def aes_ivec : List Nat := [0, 0, 0, 0, 0, 0, 0, 0, 0, 0, 0, 0, 0, 0, 0, 0]

/-- The four bytes in memory of `htonl((uint32_t) t)`: `t` modulo `2^32`,
most significant byte first. -/
def htonl_bytes (t : Nat) : List Nat :=
  [t % 2 ^ 32 / 2 ^ 24, t % 2 ^ 32 / 2 ^ 16 % 256, t % 2 ^ 32 / 2 ^ 8 % 256, t % 2 ^ 32 % 256]

/-- A call of `webauth_token_create` or `webauth_token_parse` to one of the
external routines, with the length it passes. -/
inductive Call where
  | AES_set_decrypt_key (bits : Nat)
  | AES_cbc_encrypt (length : Int)
  | HMAC (data_len : Int)
  | webauth_attrs_decode (length : Int)
  deriving DecidableEq, Repr

/-- Outcome of `webauth_token_create`: the value returned, the stores made to
`output`, the contents of `ebuff` handed to the base64 encoder (empty when
the run ends before that), and the calls of `HMAC` and `AES_cbc_encrypt`
made, in order, with the lengths passed. -/
structure CreateRun where
  ret : Ret
  stores : List Store
  ebuff : List Nat
  calls : List Call
  deriving DecidableEq, Repr

/-- The call `webauth_token_create(list, output, max_output_len, ring)`; `none` is a
failed assertion.  `ebuff` is a memory of its own, addressed from 0. -/
def webauth_token_create {A : Type} (X : Externals A) (list : A) (max_output_len : Nat)
    (ring : WEBAUTH_KEY_RING) : Option CreateRun :=
  if X.num_attrs list = 0 ∨ max_output_len = 0 then none else
  match X.webauth_key_ring_best_encryption_key ring with
  | none => some ⟨.err .BAD_KEY, [], [], []⟩
  | some key =>
    if X.AES_set_encrypt_key key.data (key.length * 8) ≠ 0 then
      some ⟨.err .BAD_KEY, [], [], []⟩
    else
    let elen := (binary_encoded_length X list).1
    let plen := (binary_encoded_length X list).2
    match webauth_base64_encoded_length elen with
    | none => none
    | some blen =>
      if blen > max_output_len then some ⟨.err .NO_ROOM, [], [], []⟩ else
      match X.malloc elen with
      | none => some ⟨.err .NO_MEM, [], [], []⟩
      | some ebuff0 =>
        let n := 0
        let ebuff1 := ebuff0.place 0 (htonl_bytes X.time)
        let n := n + T_HINT_S
        let ebuff2 := ebuff1.place n temp_nonce
        let n := n + T_NONCE_S
        let n := n + T_HMAC_S
        match X.webauth_attrs_encode list (elen - n - plen) with
        | .inl e => some ⟨.err e, [], [], []⟩
        | .inr attrs =>
          let alen := attrs.length
          let ebuff3 := ebuff2.place T_ATTR_O attrs
          let n := n + alen
          let ebuff4 := ebuff3.place n (List.replicate plen (plen % 256))
          let ebuff5 := ebuff4.place T_HMAC_O
            (X.HMAC temp_nonce (ebuff4.bytes T_ATTR_O (alen + plen)))
          let ebuff6 := ebuff5.place T_NONCE_O
            (X.AES_cbc_encrypt key.data (key.length * 8) aes_ivec true
              (ebuff5.bytes T_NONCE_O (elen - T_HINT_S)))
          match webauth_base64_encode (ebuff6.bytes 0 elen) max_output_len with
          | none => none
          | some r => some ⟨r.ret, r.stores, ebuff6.bytes 0 elen,
              [.HMAC (((alen + plen : Nat) : Int)),
                .AES_cbc_encrypt ((elen : Int) - T_HINT_S)]⟩

/-- The calls recorded by a run of `webauth_token_create` that reaches the
base64 encoder, `attrs` being the attribute encoding. -/
def createCalls {A : Type} (X : Externals A) (list : A) (attrs : List Nat) : List Call :=
  [.HMAC (((attrs.length + (binary_encoded_length X list).2 : Nat) : Int)),
    .AES_cbc_encrypt (((binary_encoded_length X list).1 : Int) - T_HINT_S)]

/-- Outcome of `webauth_token_parse`: the value returned, the list stored
through `list` (if any), the external calls made, in order, and the memory
at return (the input buffer is modified in place). -/
structure ParseRun (A : Type) where
  ret : Ret
  list : Option A
  calls : List Call
  mem : Mem

/-- The padding loop `for (i=0; i < plen; i++)` of `webauth_token_parse`:
`true` when it finds a byte `*(input+elen-1-i)` that differs from `plen`. -/
def paddingMismatch (mem : Mem) (input elen plen : Nat) : Bool :=
  (List.range plen).any (fun i => decide (mem (input + (elen - 1 - i)) ≠ plen))

/-- The value of an `int` converted to a 64-bit `size_t` or `unsigned long`,
which is what happens to the lengths that `webauth_token_parse` passes to
`AES_cbc_encrypt` and to `HMAC`: a negative `int` becomes `2^64` more. -/
def size_t_of_int (x : Int) : Nat :=
  if x < 0 then (x + 18446744073709551616).toNat else x.toNat

/-- Lines 247-274 of `webauth_token_parse`: the part that follows the
decryption, run on the memory `mem` that holds the decrypted buffer of
`elen` bytes at address `input`.  `HMAC` reads as many bytes as the `size_t`
it receives says, also when that is a negative `elen - T_ATTR_O` converted;
`webauth_attrs_decode` receives its length as an `int`, and no bytes when
that is negative. -/
def token_parse_verify {A : Type} (X : Externals A) (mem : Mem) (input elen : Nat) :
    ParseRun A :=
  let computed_hmac := X.HMAC (mem.bytes (input + T_NONCE_O) T_NONCE_S)
    (mem.bytes (input + T_ATTR_O) (size_t_of_int ((elen : Int) - T_ATTR_O)))
  if mem.bytes (input + T_HMAC_O) T_HMAC_S ≠ computed_hmac then
    ⟨.err .BAD_HMAC, none, [.HMAC ((elen : Int) - T_ATTR_O)], mem⟩
  else
  let plen := mem (input + (elen - 1))
  if plen ≥ AES_BLOCK_SIZE ∨ plen > elen then
    ⟨.err .CORRUPT, none, [.HMAC ((elen : Int) - T_ATTR_O)], mem⟩
  else
  if paddingMismatch mem input elen plen then
    ⟨.err .CORRUPT, none, [.HMAC ((elen : Int) - T_ATTR_O)], mem⟩
  else
  let r := X.webauth_attrs_decode
    (mem.bytes (input + T_ATTR_O) ((elen : Int) - T_ATTR_O - plen).toNat)
  ⟨r.1, r.2, [.HMAC ((elen : Int) - T_ATTR_O),
    .webauth_attrs_decode ((elen : Int) - T_ATTR_O - plen)], mem⟩

/-- The memory after `AES_cbc_encrypt(input+T_NONCE_O, input+T_NONCE_O,
elen-T_HINT_S, &aes_key, aes_ivec, AES_DECRYPT)` of `webauth_token_parse`. -/
def token_parse_decrypt {A : Type} (X : Externals A) (key : WEBAUTH_KEY) (mem : Mem)
    (input elen : Nat) : Mem :=
  mem.place (input + T_NONCE_O)
    (X.AES_cbc_encrypt key.data (key.length * 8) aes_ivec false
      (mem.bytes (input + T_NONCE_O) (size_t_of_int ((elen : Int) - T_HINT_S))))

/-- The call `webauth_token_parse(input, input_len, list, ring)` run on the memory
`mem`, `input` being an address; `none` is a failed assertion: the
`assert (key != NULL)` that opens the function, which reads `key` before it
is assigned, or the assertion of the base64 decoder.  A length that the
function passes on is recorded in `calls` as the `int` it is, negative or
not; the routine that receives it as a `size_t` reads that many bytes of the
memory, inside the buffer or not. -/
def webauth_token_parse {A : Type} (X : Externals A) (mem : Mem) (input input_len : Nat)
    (ring : WEBAUTH_KEY_RING) : Option (ParseRun A) :=
  if X.uninitialized_key_null then none else
  match ring.entries with
  | [] => some ⟨.err .BAD_KEY, none, [], mem⟩
  | entry0 :: _ =>
    let key := entry0.key
    if X.AES_set_decrypt_key key.data (key.length * 8) ≠ 0 then
      some ⟨.err .BAD_KEY, none, [.AES_set_decrypt_key (key.length * 8)], mem⟩
    else
    match webauth_base64_decode mem input input_len input input_len with
    | none => none
    | some d =>
      match d.ret with
      | .err e => some ⟨.err e, none, [.AES_set_decrypt_key (key.length * 8)], d.mem⟩
      | .len elen =>
        let mem2 := token_parse_decrypt X key d.mem input elen
        let v : ParseRun A := token_parse_verify X mem2 input elen
        some ⟨v.ret, v.list, .AES_set_decrypt_key (key.length * 8) ::
          .AES_cbc_encrypt ((elen : Int) - T_HINT_S) :: v.calls, v.mem⟩

/-- What is asked of the external routines for a token to come back from
`webauth_token_parse`: the key sets up, CBC keeps the length, writes bytes,
and decrypts what it encrypted (on whole blocks of bytes), the digest is 20
bytes, and the attribute codec writes as many bytes as it announced and
decodes what it encoded; and of the run of `webauth_token_parse`, that the
value its opening assertion reads from the unassigned `key` is not `NULL`. -/
structure Lawful {A : Type} (X : Externals A) (key : WEBAUTH_KEY) : Prop where
  key_nonnull : X.uninitialized_key_null = false
  set_encrypt : X.AES_set_encrypt_key key.data (key.length * 8) = 0
  set_decrypt : X.AES_set_decrypt_key key.data (key.length * 8) = 0
  cbc_length : ∀ enc data,
    (X.AES_cbc_encrypt key.data (key.length * 8) aes_ivec enc data).length = data.length
  cbc_bytes : ∀ data, ∀ b ∈ X.AES_cbc_encrypt key.data (key.length * 8) aes_ivec true data,
    b < 256
  cbc_inverse : ∀ data, data.length % AES_BLOCK_SIZE = 0 → (∀ b ∈ data, b < 256) →
    X.AES_cbc_encrypt key.data (key.length * 8) aes_ivec false
      (X.AES_cbc_encrypt key.data (key.length * 8) aes_ivec true data) = data
  hmac_length : ∀ k d, (X.HMAC k d).length = SHA_DIGEST_LENGTH
  hmac_bytes : ∀ k d, ∀ b ∈ X.HMAC k d, b < 256
  attrs_length : ∀ list cap attrs, X.webauth_attrs_encode list cap = .inr attrs →
    attrs.length = X.webauth_attrs_encoded_length list ∧ ∀ b ∈ attrs, b < 256
  attrs_inverse : ∀ list cap attrs, X.webauth_attrs_encode list cap = .inr attrs →
    X.webauth_attrs_decode attrs = (.len (X.num_attrs list), some list)

/-- The contents of `ebuff` in `webauth_token_create` when the HMAC has been
stored and before the encryption, for the block `ebuff0` that `malloc` gave
and the attribute encoding `attrs`. -/
def plainBuffer {A : Type} (X : Externals A) (ebuff0 : Mem) (attrs : List Nat)
    (plen : Nat) : Mem :=
  ((((ebuff0.place 0 (htonl_bytes X.time)).place 4 temp_nonce).place 40 attrs).place
      (40 + attrs.length) (List.replicate plen (plen % 256))).place 20
    (X.HMAC temp_nonce
      (((((ebuff0.place 0 (htonl_bytes X.time)).place 4 temp_nonce).place 40 attrs).place
        (40 + attrs.length) (List.replicate plen (plen % 256))).bytes 40 (attrs.length + plen)))

/-- The contents of `ebuff` after the encryption in place of all but its
first four bytes. -/
def cipherBuffer {A : Type} (X : Externals A) (key : WEBAUTH_KEY) (P : Mem) (elen : Nat) :
    Mem :=
  P.place 4 (X.AES_cbc_encrypt key.data (key.length * 8) aes_ivec true (P.bytes 4 (elen - 4)))

/-- Stand-ins for the external routines, for concrete runs: an attribute
list is a list of bytes and is its own encoding, the cipher adds one to each
byte (and subtracts it to decrypt), the digest is twenty copies of the byte
sum of key and data. -/
def toyExternals : Externals (List (Fin 256)) where
  num_attrs := fun l => l.length
  webauth_attrs_encoded_length := fun l => l.length
  webauth_attrs_encode := fun l _ => .inr (l.map (fun x => x.val))
  webauth_attrs_decode := fun b =>
    (.len b.length, some (b.map (fun x => (⟨x % 256, Nat.mod_lt x (by decide)⟩ : Fin 256))))
  webauth_key_ring_best_encryption_key := fun ring => ring.entries.head?.map (·.key)
  AES_set_encrypt_key := fun _ _ => 0
  AES_set_decrypt_key := fun _ _ => 0
  AES_cbc_encrypt := fun _ _ _ enc data =>
    if enc then data.map (fun x => (x + 1) % 256) else data.map (fun x => (x + 255) % 256)
  HMAC := fun key data => List.replicate 20 ((key.sum + data.sum) % 256)
  malloc := fun _ => some (fun _ => 0)
  time := 1000000000
  uninitialized_key_null := false

/-- A ring of one 16-byte key. -/
def toyRing : WEBAUTH_KEY_RING :=
  ⟨[⟨⟨List.replicate 16 7, 16⟩, 0, none, 0⟩]⟩

/-- A decrypted buffer of 68 bytes at address 0: hint, nonce, tag, twelve
payload bytes and a full block of padding. -/
def fullBlockBuffer : Mem :=
  Mem.place (fun _ => 0) 0
    ([0, 0, 0, 1] ++ temp_nonce ++ List.replicate 20 136 ++ List.replicate 12 0
      ++ List.replicate 16 16)

/-- Stand-ins in which the cipher depends on the key (it adds the byte sum of
the key) and the best encryption key of a ring is the key of its last entry. -/
def keyedExternals : Externals (List (Fin 256)) :=
  { toyExternals with
    AES_cbc_encrypt := fun userKey _ _ enc data =>
      if enc then data.map (fun x => (x + userKey.sum) % 256)
      else data.map (fun x => (x + (256 - userKey.sum % 256)) % 256)
    webauth_key_ring_best_encryption_key := fun ring => ring.entries.getLast?.map (·.key) }

/-- A ring of two keys; the second is the one tokens are created with. -/
def twoKeyRing : WEBAUTH_KEY_RING :=
  ⟨[⟨⟨List.replicate 16 7, 16⟩, 0, none, 0⟩, ⟨⟨List.replicate 16 9, 16⟩, 1, none, 1⟩]⟩

/-- The ring that holds only the second key of `twoKeyRing`. -/
def secondKeyRing : WEBAUTH_KEY_RING :=
  ⟨[⟨⟨List.replicate 16 9, 16⟩, 1, none, 1⟩]⟩

/-- The value `webauth_token_parse` returns, with the ring `ringP`, on the text
that `webauth_token_create` stores with the ring `ringC`. -/
def parseCreated {A : Type} (X : Externals A) (list : A) (max_output_len : Nat)
    (ringC ringP : WEBAUTH_KEY_RING) : Option Ret :=
  match webauth_token_create X list max_output_len ringC with
  | none => none
  | some c =>
    match c.ret with
    | .err _ => none
    | .len n =>
      (webauth_token_parse X (writeStores 0 (fun _ => 0) c.stores) 0 n ringP).map (·.ret)

/-- A decrypted buffer of 52 bytes at address 0: hint, nonce, tag and twelve
payload bytes, the last of them zero. -/
def zeroPadBuffer : Mem :=
  Mem.place (fun _ => 0) 0
    ([0, 0, 0, 1] ++ temp_nonce ++ List.replicate 20 136 ++ List.replicate 12 0)

/-- A decrypted buffer of 52 bytes at address 0: hint, nonce, tag, eight
payload bytes and four bytes of padding. -/
def shortPadBuffer : Mem :=
  Mem.place (fun _ => 0) 0
    ([0, 0, 0, 1] ++ temp_nonce ++ List.replicate 20 152 ++ List.replicate 8 0
      ++ List.replicate 4 4)

/-- The buffer `shortPadBuffer` with one of its padding bytes changed (and the
tag that goes with it). -/
def badPadBuffer : Mem :=
  Mem.place (fun _ => 0) 0
    ([0, 0, 0, 1] ++ temp_nonce ++ List.replicate 20 153 ++ List.replicate 8 0
      ++ [4, 5, 4, 4])

/-! ## krb5.c -/

/-- Modelled from the spec: the codes of `webauth.h` (not under `src/`) that
the functions of `krb5.c` embedded here return: `WA_ERR_NONE`,
`WA_ERR_NO_MEM`, `WA_ERR_KRB5` and `WA_ERR_LOGIN_FAILED`. -/
inductive WA_STATUS where
  | NONE
  | NO_MEM
  | KRB5
  | LOGIN_FAILED
  deriving DecidableEq, Repr

/-- The calls into the Kerberos library whose `krb5_error_code` the embedded
functions receive, one name per call site (`krb5_parse_name` and
`krb5_copy_principal` are called at two sites each).  The calls that return
nothing (`krb5_free_principal`, `krb5_free_cred_contents`, ...) and
`krb5_auth_con_free` are left out. -/
inductive NativeCall where
  | krb5_kt_resolve
  | krb5_parse_name_server
  | krb5_kt_start_seq_get
  | krb5_kt_next_entry
  | krb5_copy_principal_entry
  | krb5_free_keytab_entry_contents
  | krb5_kt_end_seq_get
  | krb5_kt_close
  | krb5_copy_principal_server
  | krb5_cc_get_principal
  | krb5_get_credentials
  | krb5_mk_req_extended
  | krb5_rd_req
  | krb5_unparse_name
  | krb5_parse_name_user
  | krb5_cc_resolve
  | krb5_cc_initialize_cache
  | krb5_get_init_creds_password
  | krb5_get_init_creds_keytab
  | krb5_cc_store_cred
  deriving DecidableEq, Repr

/-- The calls whose code the source holds in `tcode`, or drops, and never
tests: closing the keytab, ending the keytab scan, freeing the keytab entry. -/
def NativeCall.cleanup : NativeCall → Bool
  | .krb5_kt_close => true
  | .krb5_kt_end_seq_get => true
  | .krb5_free_keytab_entry_contents => true
  | _ => false

/-- What the Kerberos library and libc answer during one run of a function of
`krb5.c`: the three error constants of `krb5.h` that the source names, the
code each call returns (no call site is reached twice in a run), the value
`krb5_unparse_name` leaves in `*server_principal_out`, and whether `strdup`
returns `NULL`. -/
structure Krb5Lib where
  KRB5KRB_AP_ERR_BAD_INTEGRITY : Int
  KRB5KDC_ERR_PREAUTH_FAILED : Int
  KRB5KDC_ERR_C_PRINCIPAL_UNKNOWN : Int
  code : NativeCall → Int
  unparsed : Option String
  strdup_null : Bool

/-- Outcome of a run: the value returned, `c->code` at return, the value of
`*server_principal_out` at return, and the native calls made, in order. -/
structure Krb5Run where
  ret : WA_STATUS
  code : Int
  server_principal_out : Option String
  calls : List NativeCall
  deriving DecidableEq, Repr

/-- The end of `open_keytab`, lines 139-146: `c->code == 0` gives
`WA_ERR_NONE`, else the keytab is closed and `WA_ERR_KRB5` returned. -/
def open_keytab_end (code : Int) (out : Option String) (calls : List NativeCall) : Krb5Run :=
  if code = 0 then ⟨.NONE, code, out, calls⟩
  else ⟨.KRB5, code, out, calls ++ [.krb5_kt_close]⟩

/-- The function `open_keytab(c, keytab_path, in_principal, out_principal, id_out)`;
`out` is the value of `*server_principal_out` of the caller, which it does
not touch. -/
def open_keytab (L : Krb5Lib) (in_principal : Option String) (out : Option String) :
    Krb5Run :=
  if L.code .krb5_kt_resolve ≠ 0 then
    ⟨.KRB5, L.code .krb5_kt_resolve, out, [.krb5_kt_resolve]⟩
  else
  match in_principal with
  | some _ =>
    open_keytab_end (L.code .krb5_parse_name_server) out
      [.krb5_kt_resolve, .krb5_parse_name_server]
  | none =>
    if L.code .krb5_kt_start_seq_get ≠ 0 then
      ⟨.KRB5, L.code .krb5_kt_start_seq_get, out,
        [.krb5_kt_resolve, .krb5_kt_start_seq_get, .krb5_kt_close]⟩
    else
    if L.code .krb5_kt_next_entry = 0 then
      open_keytab_end (L.code .krb5_copy_principal_entry) out
        [.krb5_kt_resolve, .krb5_kt_start_seq_get, .krb5_kt_next_entry,
          .krb5_copy_principal_entry, .krb5_free_keytab_entry_contents, .krb5_kt_end_seq_get]
    else
      open_keytab_end (L.code .krb5_kt_next_entry) out
        [.krb5_kt_resolve, .krb5_kt_start_seq_get, .krb5_kt_next_entry, .krb5_kt_end_seq_get]

/-- The function `mk_req_with_principal`: the `krb5_error_code` returned and
the native calls made. -/
def mk_req_with_principal (L : Krb5Lib) : Int × List NativeCall :=
  if L.code .krb5_copy_principal_server ≠ 0 then
    (L.code .krb5_copy_principal_server, [.krb5_copy_principal_server])
  else if L.code .krb5_cc_get_principal ≠ 0 then
    (L.code .krb5_cc_get_principal, [.krb5_copy_principal_server, .krb5_cc_get_principal])
  else if L.code .krb5_get_credentials ≠ 0 then
    (L.code .krb5_get_credentials,
      [.krb5_copy_principal_server, .krb5_cc_get_principal, .krb5_get_credentials])
  else
    (L.code .krb5_mk_req_extended,
      [.krb5_copy_principal_server, .krb5_cc_get_principal, .krb5_get_credentials,
        .krb5_mk_req_extended])

/-- The function `verify_tgt(c, keytab_path, server_principal, server_principal_out)`. -/
def verify_tgt (L : Krb5Lib) (server_principal : Option String) : Krb5Run :=
  let k := open_keytab L server_principal none
  if k.ret ≠ .NONE then k else
  let m := mk_req_with_principal L
  if m.1 ≠ 0 then ⟨.KRB5, m.1, none, k.calls ++ m.2⟩ else
  let calls := k.calls ++ m.2 ++ [.krb5_rd_req, .krb5_kt_close]
  if L.code .krb5_rd_req = 0 then
    ⟨if L.code .krb5_unparse_name = 0 then .NONE else .KRB5, L.code .krb5_unparse_name,
      L.unparsed, calls ++ [.krb5_unparse_name]⟩
  else
    ⟨.KRB5, L.code .krb5_rd_req, none, calls⟩

/-- The `switch (c->code)` of lines 357-365 and 534-542. -/
def classify (L : Krb5Lib) (code : Int) : WA_STATUS :=
  if code = L.KRB5KRB_AP_ERR_BAD_INTEGRITY ∨ code = L.KRB5KDC_ERR_PREAUTH_FAILED
      ∨ code = L.KRB5KDC_ERR_C_PRINCIPAL_UNKNOWN then .LOGIN_FAILED
  else .KRB5

/-- The function `webauth_krb5_init_via_password`; `out` is the value of
`*server_principal_out` on entry. -/
def webauth_krb5_init_via_password (L : Krb5Lib) (server_principal : Option String)
    (out : Option String) : Krb5Run :=
  if L.code .krb5_parse_name_user ≠ 0 then
    ⟨.KRB5, L.code .krb5_parse_name_user, out, [.krb5_parse_name_user]⟩
  else if L.code .krb5_cc_resolve ≠ 0 then
    ⟨.KRB5, L.code .krb5_cc_resolve, out, [.krb5_parse_name_user, .krb5_cc_resolve]⟩
  else if L.code .krb5_cc_initialize_cache ≠ 0 then
    ⟨.KRB5, L.code .krb5_cc_initialize_cache, out,
      [.krb5_parse_name_user, .krb5_cc_resolve, .krb5_cc_initialize_cache]⟩
  else if L.strdup_null then
    ⟨.NO_MEM, L.code .krb5_cc_initialize_cache, out,
      [.krb5_parse_name_user, .krb5_cc_resolve, .krb5_cc_initialize_cache]⟩
  else if L.code .krb5_get_init_creds_password ≠ 0 then
    ⟨classify L (L.code .krb5_get_init_creds_password), L.code .krb5_get_init_creds_password,
      out, [.krb5_parse_name_user, .krb5_cc_resolve, .krb5_cc_initialize_cache,
        .krb5_get_init_creds_password]⟩
  else if L.code .krb5_cc_store_cred ≠ 0 then
    ⟨.KRB5, L.code .krb5_cc_store_cred, out,
      [.krb5_parse_name_user, .krb5_cc_resolve, .krb5_cc_initialize_cache,
        .krb5_get_init_creds_password, .krb5_cc_store_cred]⟩
  else
    let v := verify_tgt L server_principal
    ⟨v.ret, v.code, v.server_principal_out,
      [.krb5_parse_name_user, .krb5_cc_resolve, .krb5_cc_initialize_cache,
        .krb5_get_init_creds_password, .krb5_cc_store_cred] ++ v.calls⟩

/-- The function `webauth_krb5_init_via_keytab`; it has no
`server_principal_out`, and that field of the outcome is `none`. -/
def webauth_krb5_init_via_keytab (L : Krb5Lib) (server_principal : Option String) : Krb5Run :=
  let k := open_keytab L server_principal none
  if k.ret ≠ .NONE then ⟨.KRB5, k.code, none, k.calls⟩
  else if L.code .krb5_cc_resolve ≠ 0 then
    ⟨.KRB5, L.code .krb5_cc_resolve, none, k.calls ++ [.krb5_cc_resolve, .krb5_kt_close]⟩
  else if L.code .krb5_cc_initialize_cache ≠ 0 then
    ⟨.KRB5, L.code .krb5_cc_initialize_cache, none,
      k.calls ++ [.krb5_cc_resolve, .krb5_cc_initialize_cache, .krb5_kt_close]⟩
  else if L.code .krb5_get_init_creds_keytab ≠ 0 then
    ⟨classify L (L.code .krb5_get_init_creds_keytab), L.code .krb5_get_init_creds_keytab,
      none, k.calls ++ [.krb5_cc_resolve, .krb5_cc_initialize_cache,
        .krb5_get_init_creds_keytab, .krb5_kt_close]⟩
  else if L.code .krb5_cc_store_cred ≠ 0 then
    ⟨.KRB5, L.code .krb5_cc_store_cred, none,
      k.calls ++ [.krb5_cc_resolve, .krb5_cc_initialize_cache,
        .krb5_get_init_creds_keytab, .krb5_kt_close, .krb5_cc_store_cred]⟩
  else
    ⟨.NONE, L.code .krb5_cc_store_cred, none,
      k.calls ++ [.krb5_cc_resolve, .krb5_cc_initialize_cache,
        .krb5_get_init_creds_keytab, .krb5_kt_close, .krb5_cc_store_cred]⟩

/-- A library in which every call succeeds except that closing the keytab
returns the code 1. -/
def closeFails : Krb5Lib :=
  ⟨-1765328353, -1765328360, -1765328378,
    fun s => if s = .krb5_kt_close then 1 else 0, some ("host/www@EXAMPLE.ORG"), false⟩

/-- A library in which every call succeeds except that the password request
returns `KRB5KDC_ERR_PREAUTH_FAILED`. -/
def preauthFails : Krb5Lib :=
  ⟨-1765328353, -1765328360, -1765328378,
    fun s => if s = .krb5_get_init_creds_password then -1765328360 else 0,
    some ("host/www@EXAMPLE.ORG"), false⟩

/-! ## The encoded length as an int -/

/-- The value a 32-bit two's-complement `int` holds when the mathematical
value of an expression is `x`. -/
def wrap32 (x : Int) : Int := (x + 2147483648) % 4294967296 - 2147483648

/-- The function `webauth_base64_encoded_length` on the 32-bit `int` of the
source: `(length+2)/3*4`, `/` truncating toward zero, the sum and the product
brought back to 32 bits (signed overflow is undefined in C; the
two's-complement value is taken); `none` is the failed `assert(length > 0)`. -/
def webauth_base64_encoded_length_int (length : Int) : Option Int :=
  if length > 0 then some (wrap32 (Int.tdiv (wrap32 (length + 2)) 3 * 4)) else none

/-- The call `binary_encoded_length(list, &plen)` on the 32-bit `int` of the
source, the value returned and `*plen`: each sum is brought back to 32 bits
(signed overflow is undefined in C; the two's-complement value is taken), and
`%` is the remainder of the division that truncates toward zero. -/
def binary_encoded_length_int {A : Type} (X : Externals A) (list : A) : Int × Int :=
  let len : Int := wrap32 (X.webauth_attrs_encoded_length list)
  let len := wrap32 (len + (T_NONCE_S + T_HMAC_S))
  let m := Int.tmod len AES_BLOCK_SIZE
  let plen : Int := if m ≠ 0 then AES_BLOCK_SIZE - m else AES_BLOCK_SIZE
  let len := wrap32 (len + plen)
  let len := wrap32 (len + 4)
  (len, plen)

/-- The stand-ins of `toyExternals` with an attribute encoder that announces
2147483596 bytes for every list. -/
def hugeExternals : Externals (List (Fin 256)) :=
  { toyExternals with webauth_attrs_encoded_length := fun _ => 2147483596 }

/-- The value a 64-bit two's-complement `time_t` holds when the mathematical
value of an expression is `x`. -/
def wrap64 (x : Int) : Int :=
  (x + 9223372036854775808) % 18446744073709551616 - 9223372036854775808

/-! ## service_token.c -/

/-- Modelled from the spec: the type `MWA_SERVICE_TOKEN` of `mod_webauth.h`
(not under `src/`), with the fields that `service_token.c` reads and writes:
`expires`, `token`, `last_renewal_attempt`, `key`, `key.type`, `app_state`
and `app_state_len` (`app_state` is `NULL` or a block of bytes). -/
structure MWA_SERVICE_TOKEN where
  expires : Int
  token : List Nat
  last_renewal_attempt : Int
  key_type : Nat
  key : WEBAUTH_KEY
  app_state : Option (List Nat)
  app_state_len : Int
  deriving DecidableEq, Repr

/-- What the functions that `mwa_get_service_token` calls find outside the
program during one call: the value of `time(NULL)`, the token that
`read_service_token_cache` returns (`none` for `NULL`: the file is absent,
unreadable or does not decode), the token that `request_service_token`
returns (`none` for `NULL`: the WebKDC request failed), and, for
`get_app_state`, whether `webauth_attr_list_new` returns `NULL`, the value of
`webauth_token_encoded_length` and the status and bytes of the six-argument
`webauth_token_create` that `service_token.c` calls (0 is `WA_ERR_NONE`). -/
structure ServiceEnv where
  time : Int
  read_service_token_cache : Option MWA_SERVICE_TOKEN
  request_service_token : Option MWA_SERVICE_TOKEN
  webauth_attr_list_new_null : Bool
  webauth_token_encoded_length : MWA_SERVICE_TOKEN → Int
  webauth_token_create : MWA_SERVICE_TOKEN → Int → Int × List Nat

/-- What `mwa_get_service_token` does outside its own variables, in order. -/
inductive ServiceEvent where
  | read_service_token_cache
  | request_service_token
  | write_service_token_cache (token : MWA_SERVICE_TOKEN)
  | get_app_state (token : MWA_SERVICE_TOKEN)
  deriving DecidableEq, Repr

/-- Outcome of `mwa_get_service_token`: the token returned (`none` for `NULL`),
the global `mwa_g_service_token` at return, and the events. -/
structure ServiceRun where
  ret : Option MWA_SERVICE_TOKEN
  mwa_g_service_token : Option MWA_SERVICE_TOKEN
  events : List ServiceEvent
  deriving DecidableEq, Repr

/-- The function `get_app_state(rc, token, curr)`: the token after the call
(it writes `app_state` and `app_state_len` only). -/
def get_app_state (E : ServiceEnv) (token : MWA_SERVICE_TOKEN) (curr : Int) :
    MWA_SERVICE_TOKEN :=
  let token := { token with app_state := none, app_state_len := 0 }
  if E.webauth_attr_list_new_null then token
  else
    let tlen := E.webauth_token_encoded_length token
    let r := E.webauth_token_create token curr
    if r.1 ≠ 0 then token
    else { token with app_state := some r.2, app_state_len := tlen }

/-- The condition `mwa_g_service_token != NULL &&
(mwa_g_service_token->expires-3600 > curr)` of `mwa_get_service_token`; the
subtraction is that of a 64-bit `time_t` (signed overflow is undefined in C;
the two's-complement value is taken). -/
def serviceTokenFresh (g : Option MWA_SERVICE_TOKEN) (curr : Int) : Bool :=
  match g with
  | some t => decide (wrap64 (t.expires - 3600) > curr)
  | none => false

/-- The function `mwa_get_service_token(rc)`, `g` being the value of the
global `mwa_g_service_token` on entry.  A token is a value here, so the token
returned is the one held after `get_app_state` has written into it.  The
logging is left out. -/
def mwa_get_service_token (E : ServiceEnv) (g : Option MWA_SERVICE_TOKEN) : ServiceRun :=
  let curr := E.time
  if serviceTokenFresh g curr then ⟨g, g, []⟩
  else
  match E.read_service_token_cache with
  | some token =>
    ⟨some (get_app_state E token curr), some (get_app_state E token curr),
      [.read_service_token_cache, .get_app_state token]⟩
  | none =>
    match E.request_service_token with
    | some token =>
      ⟨some (get_app_state E token curr), some (get_app_state E token curr),
        [.read_service_token_cache, .request_service_token, .write_service_token_cache token,
          .get_app_state token]⟩
    | none => ⟨none, g, [.read_service_token_cache, .request_service_token]⟩

/-- Modelled from the spec: the type `MWA_STRING` of `mod_webauth.h` (not under
`src/`), with the fields `service_token.c` uses other than `pool`: `data` is
`NULL` or the block it points to, given by the byte at each offset (offsets
at or beyond `capacity` are outside the block), `size` and `capacity`. -/
structure MWA_STRING where
  data : Option Mem
  size : Nat
  capacity : Nat

/-- The macro `#define CHUNK_SIZE 4096`. -/
def CHUNK_SIZE : Nat := 4096

/-- The function `init_string`: the `memset` to zero. -/
def init_string : MWA_STRING := ⟨none, 0, 0⟩

/-- The loop `while (string->capacity < needed_size+1) string->capacity +=
CHUNK_SIZE;` of `append_string`: the capacity at exit.  The first argument
bounds the number of times the condition is evaluated; `none` means that the
bound was reached. -/
def growCapacity : Nat → Nat → Nat → Option Nat
  | 0, _, _ => none
  | fuel + 1, capacity, needed_size =>
    if capacity < needed_size + 1 then growCapacity fuel (capacity + CHUNK_SIZE) needed_size
    else some capacity

/-- The function `strlen` on the bytes from a pointer on. -/
def strlen (s : List Nat) : Nat := (s.takeWhile (fun c => c ≠ 0)).length

/-- Outcome of `append_string`: the string at return and the stores made
through `string->data`, by offset, in order (the copy of `in_data`, then the
terminating NUL). -/
structure AppendRun where
  string : MWA_STRING
  stores : List Store

/-- The function `append_string(string, in_data, in_size)`; `apr_palloc` gives
the contents of the block it returns for a size, and `in_data` is the bytes
from the pointer on.  `none` is the loop running out of its bound of
`needed_size + 2` evaluations, which does not happen.  The `int`s are natural
numbers. -/
def append_string (apr_palloc : Nat → Mem) (string : MWA_STRING) (in_data : List Nat)
    (in_size : Nat) : Option AppendRun :=
  let in_size := if in_size = 0 then strlen in_data else in_size
  let needed_size := string.size + in_size
  let grown : Option (Mem × Nat) :=
    match string.data with
    | none =>
      (growCapacity (needed_size + 2) string.capacity needed_size).map
        (fun capacity => (apr_palloc capacity, capacity))
    | some data =>
      if needed_size > string.capacity then
        (growCapacity (needed_size + 2) string.capacity needed_size).map
          (fun capacity =>
            ((apr_palloc capacity).place 0 (data.bytes 0 string.size), capacity))
      else some (data, string.capacity)
  match grown with
  | none => none
  | some (data, capacity) =>
    let copied := (List.range in_size).map (fun k => in_data.getD k 0)
    some ⟨⟨some ((data.place string.size copied).store needed_size 0), needed_size, capacity⟩,
      storesOf string.size copied ++ [⟨needed_size, 0⟩]⟩

/-- The string after a sequence of `append_string` calls, each given by its
`in_data` and `in_size`. -/
def appendAll (apr_palloc : Nat → Mem) : MWA_STRING → List (List Nat × Nat) → Option MWA_STRING
  | s, [] => some s
  | s, (in_data, in_size) :: rest =>
    match append_string apr_palloc s in_data in_size with
    | none => none
    | some r => appendAll apr_palloc r.string rest

/-- A service token that expires at time 10000. -/
def sampleToken : MWA_SERVICE_TOKEN :=
  ⟨10000, [116], 0, 1, ⟨List.replicate 16 7, 16⟩, none, 0⟩

/-- The token `sampleToken` with an expiry time 100 seconds after the least
value of a 64-bit `time_t`. -/
def wrappedToken : MWA_SERVICE_TOKEN :=
  { sampleToken with expires := -9223372036854775808 + 100 }

/-- An environment at time 9000 whose cache file holds `sampleToken` and whose
WebKDC does not answer. -/
def cacheEnv : ServiceEnv :=
  ⟨9000, some sampleToken, none, false, fun _ => 4, fun _ _ => (0, [65, 65, 65, 65])⟩

/-- A library in which every call succeeds and `krb5_unparse_name` stores a
name. -/
def allSucceed : Krb5Lib :=
  ⟨-1765328353, -1765328360, -1765328378, fun _ => 0, some ("host/www@EXAMPLE.ORG"), false⟩

/-- The stand-ins of `toyExternals` with a digest that does not depend on its
input. -/
def constMacExternals : Externals (List (Fin 256)) :=
  { toyExternals with HMAC := fun _ _ => List.replicate 20 0 }

/-- What `webauth_token_parse` returns and stores through `list` on the text
of a token made by `webauth_token_create` in which bit `bit` of the byte at
offset `k` of the binary token has been flipped. -/
def parseTampered {A : Type} (X : Externals A) (list : A) (max_output_len : Nat)
    (ring : WEBAUTH_KEY_RING) (k bit : Nat) : Option (Ret × Option A) :=
  match webauth_token_create X list max_output_len ring with
  | none => none
  | some c =>
    let tampered := c.ebuff.set k (c.ebuff.getD k 0 ^^^ (1 <<< bit))
    match webauth_base64_encode tampered max_output_len with
    | none => none
    | some e =>
      match e.ret with
      | .err _ => none
      | .len n =>
        (webauth_token_parse X (writeStores 0 (fun _ => 0) e.stores) 0 n ring).map
          (fun p => (p.ret, p.list))

theorem shr2_eq (c : Nat) : c >>> 2 = c / 4 := by
  simp [Nat.shiftRight_eq_div_pow]

set_option maxRecDepth 1000000 in
theorem enc_digit2 : ∀ c1, c1 < 256 → ∀ k, k < 16 →
    ((c1 &&& 0x3) <<< 4) ||| k = c1 % 4 * 16 + k := by decide

set_option maxRecDepth 1000000 in
theorem hi_nibble : ∀ c, c < 256 → (c &&& 0xF0) >>> 4 = c / 16 := by decide

set_option maxRecDepth 1000000 in
theorem enc_digit3 : ∀ c2, c2 < 256 → ∀ k, k < 4 →
    ((c2 &&& 0xF) <<< 2) ||| k = c2 % 16 * 4 + k := by decide

set_option maxRecDepth 1000000 in
theorem hi_two : ∀ c, c < 256 → (c &&& 0xC0) >>> 6 = c / 64 := by decide

set_option maxRecDepth 1000000 in
theorem lo_six : ∀ c, c < 256 → c &&& 0x3F = c % 64 := by decide

set_option maxRecDepth 1000000 in
theorem basis_digit : ∀ d, d < 64 → basis_64.getD d 0 % 256 = b64digit d := by decide

set_option maxRecDepth 1000000 in
theorem CHAR64_digit : ∀ d, d < 64 → CHAR64 (b64digit d) = d := by decide

set_option maxRecDepth 1000000 in
theorem b64digit_ne_EQ : ∀ d, d < 64 → b64digit d ≠ EQ := by decide

set_option maxRecDepth 1000000 in
theorem dec_byte1 : ∀ a, a < 64 → ∀ b, b < 64 →
    ((a <<< 2) ||| ((b &&& 0x30) >>> 4)) % 256 = a * 4 + b / 16 := by decide

set_option maxRecDepth 1000000 in
theorem dec_byte2 : ∀ b, b < 64 → ∀ c, c < 64 →
    (((b &&& 0xf) <<< 4) ||| ((c &&& 0x3c) >>> 2)) % 256 = b % 16 * 16 + c / 4 := by decide

set_option maxRecDepth 1000000 in
theorem dec_byte3 : ∀ c, c < 64 → ∀ d, d < 64 →
    (((c &&& 0x3) <<< 6) ||| d) % 256 = c % 4 * 64 + d := by decide

/-! ## The encoder -/

theorem enc_idx2 (c1 c2 : Nat) (h1 : c1 < 256) (h2 : c2 < 256) :
    ((c1 &&& 0x3) <<< 4) ||| ((c2 &&& 0xF0) >>> 4) = c1 % 4 * 16 + c2 / 16 := by
  rw [hi_nibble c2 h2]
  exact enc_digit2 c1 h1 (c2 / 16) (by omega)

theorem enc_idx3 (c2 c3 : Nat) (h2 : c2 < 256) (h3 : c3 < 256) :
    ((c2 &&& 0xF) <<< 2) ||| ((c3 &&& 0xC0) >>> 6) = c2 % 16 * 4 + c3 / 64 := by
  rw [hi_two c3 h3]
  exact enc_digit3 c2 h2 (c3 / 64) (by omega)

theorem rfc4648_encode_length : ∀ (input : List Nat),
    (rfc4648_encode input).length = (input.length + 2) / 3 * 4
  | [] => by simp [rfc4648_encode]
  | [_] => by simp [rfc4648_encode]
  | [_, _] => by simp [rfc4648_encode]
  | _ :: _ :: _ :: rest => by
    have ih := rfc4648_encode_length rest
    simp only [rfc4648_encode, List.length_cons, ih]
    omega

/-- With room for the whole encoding, the loop returns the number of
characters written so far plus the encoded length and stores exactly the
RFC 4648 encoding, one character per index. -/
theorem encodeLoop_ok (output_max : Nat) : ∀ (input : List Nat) (out_len : Nat),
    (∀ b ∈ input, b < 256) → out_len + (input.length + 2) / 3 * 4 ≤ output_max →
    encodeLoop output_max input out_len =
      ⟨.len (out_len + (input.length + 2) / 3 * 4), storesOf out_len (rfc4648_encode input)⟩
  | [], out_len, _, _ => by simp [encodeLoop, rfc4648_encode, storesOf]
  | [a], out_len, hb, h => by
    have ha : a < 256 := hb a (by simp)
    simp only [List.length_cons, List.length_nil] at h
    have e1 : basis_64.getD (a >>> 2) 0 % 256 = b64digit (a / 4) := by
      rw [shr2_eq]; exact basis_digit _ (by omega)
    have e2 : basis_64.getD (((a &&& 0x3) <<< 4) ||| (((0 : Nat) &&& 0xF0) >>> 4)) 0 % 256
        = b64digit (a % 4 * 16) := by
      rw [enc_idx2 a 0 ha (by omega)]; exact basis_digit _ (by omega)
    have n1 : out_len ≠ output_max := by omega
    have n2 : out_len + 1 ≠ output_max := by omega
    simp only [encodeLoop, n1, n2, if_false, e1, e2, EncRun.after, rfc4648_encode, storesOf,
      List.length_cons, List.length_nil]
  | [a, b], out_len, hb, h => by
    have ha : a < 256 := hb a (by simp)
    have hb2 : b < 256 := hb b (by simp)
    simp only [List.length_cons, List.length_nil] at h
    have e1 : basis_64.getD (a >>> 2) 0 % 256 = b64digit ((a * 256 + b) / 1024) := by
      rw [shr2_eq, basis_digit _ (by omega)]; congr 1; omega
    have e2 : basis_64.getD (((a &&& 0x3) <<< 4) ||| ((b &&& 0xF0) >>> 4)) 0 % 256
        = b64digit ((a * 256 + b) / 16 % 64) := by
      rw [enc_idx2 a b ha hb2, basis_digit _ (by omega)]; congr 1; omega
    have e3 : basis_64.getD (((b &&& 0xF) <<< 2) ||| (((0 : Nat) &&& 0xC0) >>> 6)) 0 % 256
        = b64digit ((a * 256 + b) % 16 * 4) := by
      rw [enc_idx3 b 0 hb2 (by omega), basis_digit _ (by omega)]; congr 1; omega
    have n1 : out_len ≠ output_max := by omega
    have n2 : out_len + 1 ≠ output_max := by omega
    have n3 : out_len + 2 ≠ output_max := by omega
    simp only [encodeLoop, n1, n2, n3, if_false, e1, e2, e3, EncRun.after, rfc4648_encode,
      storesOf, List.length_cons, List.length_nil]
  | a :: b :: c :: rest, out_len, hb, h => by
    have ha : a < 256 := hb a (by simp)
    have hb2 : b < 256 := hb b (by simp)
    have hc : c < 256 := hb c (by simp)
    have hrest : ∀ x ∈ rest, x < 256 := fun x hx => hb x (by simp [hx])
    simp only [List.length_cons] at h
    have ih := encodeLoop_ok output_max rest (out_len + 4) hrest (by omega)
    have e1 : basis_64.getD (a >>> 2) 0 % 256
        = b64digit ((a * 65536 + b * 256 + c) / 262144) := by
      rw [shr2_eq, basis_digit _ (by omega)]; congr 1; omega
    have e2 : basis_64.getD (((a &&& 0x3) <<< 4) ||| ((b &&& 0xF0) >>> 4)) 0 % 256
        = b64digit ((a * 65536 + b * 256 + c) / 4096 % 64) := by
      rw [enc_idx2 a b ha hb2, basis_digit _ (by omega)]; congr 1; omega
    have e3 : basis_64.getD (((b &&& 0xF) <<< 2) ||| ((c &&& 0xC0) >>> 6)) 0 % 256
        = b64digit ((a * 65536 + b * 256 + c) / 64 % 64) := by
      rw [enc_idx3 b c hb2 hc, basis_digit _ (by omega)]; congr 1; omega
    have e4 : basis_64.getD (c &&& 0x3F) 0 % 256
        = b64digit ((a * 65536 + b * 256 + c) % 64) := by
      rw [lo_six c hc, basis_digit _ (by omega)]; congr 1; omega
    have n1 : out_len ≠ output_max := by omega
    have n2 : out_len + 1 ≠ output_max := by omega
    have n3 : out_len + 2 ≠ output_max := by omega
    have n4 : out_len + 3 ≠ output_max := by omega
    simp only [encodeLoop, n1, n2, n3, n4, if_false, e1, e2, e3, e4, EncRun.after, ih,
      rfc4648_encode, storesOf, List.length_cons]
    congr 2
    omega

/-- With room for the encoding the encoder returns the encoded length and
stores the RFC 4648 encoding. -/
theorem webauth_base64_encode_ok (input : List Nat) (output_max L : Nat)
    (hb : ∀ b ∈ input, b < 256)
    (hL : webauth_base64_encoded_length input.length = some L)
    (hcap : L ≤ output_max) :
    webauth_base64_encode input output_max
        = some ⟨.len L, storesOf 0 (rfc4648_encode input)⟩
      ∧ (rfc4648_encode input).length = L := by
  unfold webauth_base64_encoded_length at hL
  split at hL
  · rename_i hpos
    have hL2 : (input.length + 2) / 3 * 4 = L := by simpa using hL
    have h := encodeLoop_ok output_max input 0 hb (by omega)
    simp only [webauth_base64_encode, hpos, if_true, h, rfc4648_encode_length, hL2]
    simp
  · simp at hL

/-- C5. With a non-empty input of bytes and an output capacity of at least
`webauth_base64_encoded_length(n)`, `webauth_base64_encode` returns exactly
that length and stores, at the indices `0, 1, ...` in turn, the RFC 4648
encoding of the input (alphabet `A-Za-z0-9+/`, `=` padding). -/
theorem encode_eq_rfc4648 (input : List Nat) (output_max L : Nat)
    (hb : ∀ b ∈ input, b < 256)
    (hL : webauth_base64_encoded_length input.length = some L)
    (hcap : L ≤ output_max) :
    webauth_base64_encode input output_max
        = some ⟨.len L, storesOf 0 (rfc4648_encode input)⟩
      ∧ (rfc4648_encode input).length = L := by
  have hpos : input.length > 0 := by
    unfold webauth_base64_encoded_length at hL
    split at hL
    · assumption
    · simp at hL
  have hL2 : (input.length + 2) / 3 * 4 = L := by
    simpa [webauth_base64_encoded_length, hpos] using hL
  have h := encodeLoop_ok output_max input 0 hb (by omega)
  refine ⟨?_, by rw [rfc4648_encode_length, hL2]⟩
  simp only [webauth_base64_encode, hpos, if_true, h, hL2, Nat.zero_add]

theorem encode_eq_rfc4648_witness :
    webauth_base64_encode [77, 97, 110, 1, 2] 8
        = some ⟨.len 8, storesOf 0 (rfc4648_encode [77, 97, 110, 1, 2])⟩
      ∧ (rfc4648_encode [77, 97, 110, 1, 2]).length = 8 :=
  encode_eq_rfc4648 [77, 97, 110, 1, 2] 8 8 (by decide) (by decide) (by decide)

/-- C4. With input `[0]` and `output_max = 2`, less than the encoded length 4,
`webauth_base64_encode` does not return `WA_ERR_NO_ROOM`: it returns 4 after
storing the two `=` at the output indices 2 and 3, beyond the capacity.  The
same happens for the single `=` of a two-byte input with `output_max = 3`. -/
theorem encode_pad_overflow :
    webauth_base64_encoded_length [0].length = some 4 ∧
    webauth_base64_encode [0] 2
      = some ⟨.len 4, [⟨0, 65⟩, ⟨1, 65⟩, ⟨2, EQ⟩, ⟨3, EQ⟩]⟩ ∧
    webauth_base64_encode [0, 0] 3
      = some ⟨.len 4, [⟨0, 65⟩, ⟨1, 65⟩, ⟨2, 65⟩, ⟨3, EQ⟩]⟩ := by
  decide

/-! ## The decoder: from the loop on memory to the characters read -/

theorem Mem.store_ne (m : Mem) (a v x : Nat) (h : x ≠ a) : (m.store a v) x = m x := by
  simp [Mem.store, h]

theorem Mem.store_eq (m : Mem) (a v : Nat) : (m.store a v) a = v := by
  simp [Mem.store]

/-- The loop on memory does what `decodeGroups` says of the characters that
are in the input buffer on entry, when the output buffer is the input buffer
itself (and no more has been written than read) or is disjoint from it. -/
theorem decodeLoop_eq (input input_len output output_max : Nat) :
    ∀ (fuel : Nat) (s : List Nat) (i out_len : Nat) (mem : Mem),
      s.length < 4 * fuel →
      input_len = i + s.length →
      (∀ k, k < s.length → mem (input + (i + k)) = s.getD k 0) →
      out_len ≤ output_max →
      ((output = input ∧ out_len ≤ i) ∨ input + input_len ≤ output
        ∨ output + output_max ≤ input) →
      decodeLoop input input_len output output_max fuel i out_len mem
        = some (runOf output mem (decodeGroups output_max s i out_len))
  | 0, s, _, _, _, hf, _, _, _, _ => by omega
  | fuel + 1, [], i, out_len, mem, _, hlen, _, _, _ => by
    have hc : ¬ ((i : Int) ≤ (input_len : Int) - 4) := by
      simp only [List.length_nil] at hlen; omega
    simp [decodeLoop, hc, decodeGroups, runOf, applyStores]
  | fuel + 1, [_], i, out_len, mem, _, hlen, _, _, _ => by
    have hc : ¬ ((i : Int) ≤ (input_len : Int) - 4) := by
      simp only [List.length_cons, List.length_nil] at hlen; omega
    simp [decodeLoop, hc, decodeGroups, runOf, applyStores]
  | fuel + 1, [_, _], i, out_len, mem, _, hlen, _, _, _ => by
    have hc : ¬ ((i : Int) ≤ (input_len : Int) - 4) := by
      simp only [List.length_cons, List.length_nil] at hlen; omega
    simp [decodeLoop, hc, decodeGroups, runOf, applyStores]
  | fuel + 1, [_, _, _], i, out_len, mem, _, hlen, _, _, _ => by
    have hc : ¬ ((i : Int) ≤ (input_len : Int) - 4) := by
      simp only [List.length_cons, List.length_nil] at hlen; omega
    simp [decodeLoop, hc, decodeGroups, runOf, applyStores]
  | fuel + 1, c1 :: c2 :: c3 :: c4 :: rest, i, out_len, mem, hf, hlen, hmem, hout, hlay => by
    simp only [List.length_cons] at hlen hf
    have hc : (i : Int) ≤ (input_len : Int) - 4 := by omega
    have h1 : mem (input + i) = c1 := by simpa using hmem 0 (by simp)
    have h2 : mem (input + (i + 1)) = c2 := by simpa using hmem 1 (by simp)
    have h3 : mem (input + (i + 2)) = c3 := by simpa using hmem 2 (by simp)
    have h4 : mem (input + (i + 3)) = c4 := by simpa using hmem 3 (by simp)
    simp only [decodeLoop, hc, if_true, h1, h2, h3, h4, decodeGroups, runOf]
    by_cases a1 : CHAR64 c1 = XX
    · simp [a1, applyStores]
    by_cases a2 : CHAR64 c2 = XX
    · simp [a1, a2, applyStores]
    by_cases a3 : c3 ≠ EQ ∧ CHAR64 c3 = XX
    · simp [a1, a2, a3, applyStores]
    by_cases a4 : c4 ≠ EQ ∧ CHAR64 c4 = XX
    · simp [a1, a2, a3, a4, applyStores]
    by_cases a5 : out_len = output_max
    · simp [a1, a2, a3, a4, a5, applyStores]
    simp only [a1, a2, a3, a4, a5, if_false]
    by_cases b3 : c3 = EQ
    · by_cases b4 : c4 = EQ
      · simp [b3, b4, applyStores, DecRun.after]
      · simp [b3, b4, applyStores, DecRun.after]
    by_cases a6 : out_len + 1 = output_max
    · simp [b3, a6, applyStores, DecRun.after]
    by_cases b4 : c4 = EQ
    · simp [b3, a6, b4, applyStores, DecRun.after]
    by_cases a7 : out_len + 2 = output_max
    · simp [b3, a6, b4, a7, applyStores, DecRun.after]
    by_cases hr : rest = []
    · have hi : i + 4 = input_len := by simp [hr] at hlen; omega
      simp [b3, a6, b4, a7, hr, hi, applyStores, DecRun.after]
    · have hi : i + 4 ≠ input_len := by
        have : 0 < rest.length := List.length_pos.mpr hr
        omega
      have ih := decodeLoop_eq input input_len output output_max fuel rest (i + 4)
        (out_len + 3)
        (((mem.store (output + out_len)
            (((CHAR64 c1 <<< 2) ||| ((CHAR64 c2 &&& 0x30) >>> 4)) % 256)).store
          (output + (out_len + 1))
            ((((CHAR64 c2 &&& 0xf) <<< 4) ||| ((CHAR64 c3 &&& 0x3c) >>> 2)) % 256)).store
          (output + (out_len + 2)) ((((CHAR64 c3 &&& 0x3) <<< 6) ||| CHAR64 c4) % 256))
        (by omega) (by omega)
        (by
          intro k hk
          have hk4 := hmem (k + 4) (by simp; omega)
          rw [Mem.store_ne, Mem.store_ne, Mem.store_ne]
          · rw [show input + (i + 4 + k) = input + (i + (k + 4)) by omega, hk4]
            simp
          all_goals omega)
        (by omega)
        (by omega)
      simp [b3, a6, b4, a7, hr, hi, ih, applyStores, DecRun.after, runOf]

/-- The decoder on memory, as a function of the characters of the input
buffer: for an input length that is a positive multiple of 4, and an output
buffer that is the input buffer or is disjoint from it. -/
theorem webauth_base64_decode_eq (mem : Mem) (input input_len output output_max : Nat)
    (hlen : 0 < input_len ∧ input_len % 4 = 0)
    (hlay : output = input ∨ input + input_len ≤ output ∨ output + output_max ≤ input) :
    webauth_base64_decode mem input input_len output output_max
      = some (runOf output mem (decodeGroups output_max (mem.bytes input input_len) 0 0)) := by
  have hl : (mem.bytes input input_len).length = input_len := by simp [Mem.bytes]
  have h := decodeLoop_eq input input_len output output_max input_len
    (mem.bytes input input_len) 0 0 mem (by omega) (by omega)
    (by
      intro k hk
      rw [hl] at hk
      simp [Mem.bytes, List.getD_eq_getElem?_getD, hk])
    (by omega)
    (by rcases hlay with h | h | h
        · exact Or.inl ⟨h, le_refl _⟩
        · exact Or.inr (Or.inl h)
        · exact Or.inr (Or.inr h))
  simp only [webauth_base64_decode, gt_iff_lt, hlen, and_self, if_true, h]

/-! ## Where the decoder stores -/

/-- The shapes the outcome of the loop can take on a first whole group. -/
theorem decodeGroups_cases (om c1 c2 c3 c4 : Nat) (rest : List Nat) (i o : Nat) :
    ∃ v1 v2 v3 : Nat,
      decodeGroups om (c1 :: c2 :: c3 :: c4 :: rest) i o = (.err .CORRUPT, []) ∨
      decodeGroups om (c1 :: c2 :: c3 :: c4 :: rest) i o = (.err .NO_ROOM, []) ∨
      (o ≠ om ∧ ∃ r, decodeGroups om (c1 :: c2 :: c3 :: c4 :: rest) i o
        = (r, [⟨o, v1, i + 4⟩]) ∧ (r = .err .CORRUPT ∨ r = .len (o + 1) ∨ r = .err .NO_ROOM)) ∨
      (o ≠ om ∧ o + 1 ≠ om ∧ ∃ r, decodeGroups om (c1 :: c2 :: c3 :: c4 :: rest) i o
        = (r, [⟨o, v1, i + 4⟩, ⟨o + 1, v2, i + 4⟩]) ∧ (r = .len (o + 2) ∨ r = .err .NO_ROOM)) ∨
      (o ≠ om ∧ o + 1 ≠ om ∧ o + 2 ≠ om ∧
        decodeGroups om (c1 :: c2 :: c3 :: c4 :: rest) i o
          = (.len (o + 3), [⟨o, v1, i + 4⟩, ⟨o + 1, v2, i + 4⟩, ⟨o + 2, v3, i + 4⟩])) ∨
      (o ≠ om ∧ o + 1 ≠ om ∧ o + 2 ≠ om ∧
        decodeGroups om (c1 :: c2 :: c3 :: c4 :: rest) i o
          = ((decodeGroups om rest (i + 4) (o + 3)).1,
              ⟨o, v1, i + 4⟩ :: ⟨o + 1, v2, i + 4⟩ :: ⟨o + 2, v3, i + 4⟩ ::
                (decodeGroups om rest (i + 4) (o + 3)).2)) := by
  refine ⟨((CHAR64 c1 <<< 2) ||| ((CHAR64 c2 &&& 0x30) >>> 4)) % 256,
    (((CHAR64 c2 &&& 0xf) <<< 4) ||| ((CHAR64 c3 &&& 0x3c) >>> 2)) % 256,
    (((CHAR64 c3 &&& 0x3) <<< 6) ||| CHAR64 c4) % 256, ?_⟩
  by_cases a1 : CHAR64 c1 = XX
  · simp [decodeGroups, a1]
  by_cases a2 : CHAR64 c2 = XX
  · simp [decodeGroups, a1, a2]
  by_cases a3 : c3 ≠ EQ ∧ CHAR64 c3 = XX
  · simp [decodeGroups, a1, a2, a3]
  by_cases a4 : c4 ≠ EQ ∧ CHAR64 c4 = XX
  · simp [decodeGroups, a1, a2, a3, a4]
  by_cases a5 : o = om
  · simp [decodeGroups, a1, a2, a3, a4, a5]
  simp only [decodeGroups, a1, a2, a3, a4, a5, if_false]
  by_cases b3 : c3 = EQ
  · by_cases b4 : c4 = EQ
    · simp [b3, b4, a5]
    · simp [b3, b4, a5]
  by_cases a6 : o + 1 = om
  · simp [b3, a6, a5]
  by_cases b4 : c4 = EQ
  · simp [b3, a6, b4, a5]
  by_cases a7 : o + 2 = om
  · simp [b3, a6, b4, a7, a5]
  by_cases hr : rest = []
  · simp [b3, a6, b4, a7, hr, a5]
  · simp [b3, a6, b4, a7, hr, a5]

/-- The stores of the loop go to consecutive indices from `out_len` on, all
below `output_max`, each made after the input index has passed it; a
returned length is the number of stores made. -/
theorem decodeGroups_stores (om : Nat) : ∀ (s : List Nat) (i out_len : Nat),
    out_len ≤ om →
    (∀ st ∈ (decodeGroups om s i out_len).2,
      st.idx < om ∧ st.idx + i < st.rd + out_len ∧ st.rd ≤ i + s.length) ∧
    (decodeGroups om s i out_len).2.map (·.idx)
      = List.range' out_len (decodeGroups om s i out_len).2.length ∧
    (∀ n, (decodeGroups om s i out_len).1 = .len n →
      n = out_len + (decodeGroups om s i out_len).2.length)
  | [], _, _, _ => by simp [decodeGroups]
  | [_], _, _, _ => by simp [decodeGroups]
  | [_, _], _, _, _ => by simp [decodeGroups]
  | [_, _, _], _, _, _ => by simp [decodeGroups]
  | c1 :: c2 :: c3 :: c4 :: rest, i, out_len, hout => by
    obtain ⟨v1, v2, v3, h⟩ := decodeGroups_cases om c1 c2 c3 c4 rest i out_len
    rcases h with h | h | ⟨n1, r, h, hr⟩ | ⟨n1, n2, r, h, hr⟩ | ⟨n1, n2, n3, h⟩ | ⟨n1, n2, n3, h⟩
    · simp [h]
    · simp [h]
    · rw [h]
      refine ⟨?_, by simp [List.range'], ?_⟩
      · intro st hst
        simp only [List.mem_singleton] at hst
        subst hst; simp; omega
      · intro n hn
        rcases hr with hr | hr | hr <;> simp_all
    · rw [h]
      refine ⟨?_, by simp [List.range'], ?_⟩
      · intro st hst
        simp only [List.mem_cons, List.mem_singleton, List.not_mem_nil, or_false] at hst
        rcases hst with hst | hst <;> (subst hst; simp; omega)
      · intro n hn
        rcases hr with hr | hr <;> simp_all
    · rw [h]
      refine ⟨?_, by simp [List.range'], ?_⟩
      · intro st hst
        simp only [List.mem_cons, List.mem_singleton, List.not_mem_nil, or_false] at hst
        rcases hst with hst | hst | hst <;> (subst hst; simp; omega)
      · intro n hn
        simp_all
    · have ih := decodeGroups_stores om rest (i + 4) (out_len + 3) (by omega)
      obtain ⟨ih1, ih2, ih3⟩ := ih
      rw [h]
      refine ⟨?_, ?_, ?_⟩
      · intro st hst
        simp only [List.mem_cons] at hst
        rcases hst with hst | hst | hst | hst
        · subst hst; simp; omega
        · subst hst; simp; omega
        · subst hst; simp; omega
        · have := ih1 st hst
          simp only [List.length_cons]
          omega
      · simp only [List.map_cons, ih2, List.length_cons, List.range']
      · intro n hn
        have := ih3 n hn
        simp only [List.length_cons]
        omega



/-! ## The memory after the decoder's stores -/

theorem Mem.bytes_length (m : Mem) (a n : Nat) : (m.bytes a n).length = n := by
  simp [Mem.bytes]

theorem Mem.bytes_succ (m : Mem) (a n : Nat) :
    m.bytes a (n + 1) = m a :: m.bytes (a + 1) n := by
  simp only [Mem.bytes, List.range_succ_eq_map, List.map_cons, List.map_map, Nat.add_zero]
  congr 1
  apply List.map_congr_left
  intro k _
  simp only [Function.comp, Nat.succ_eq_add_one]
  congr 1
  omega

theorem Mem.bytes_congr (m m2 : Mem) (a n : Nat) (h : ∀ k, k < n → m (a + k) = m2 (a + k)) :
    m.bytes a n = m2.bytes a n := by
  simp only [Mem.bytes]
  apply List.map_congr_left
  intro k hk
  exact h k (List.mem_range.mp hk)

theorem applyStores_other (output : Nat) : ∀ (ss : List DecStore) (mem : Mem) (x : Nat),
    (∀ st ∈ ss, output + st.idx ≠ x) → applyStores output mem ss x = mem x
  | [], _, _, _ => rfl
  | s :: t, mem, x, h => by
    simp only [applyStores]
    rw [applyStores_other output t _ x (fun st hst => h st (List.mem_cons_of_mem _ hst))]
    exact Mem.store_ne _ _ _ _ (fun e => h s (List.mem_cons_self _ _) e.symm)

/-- After stores to consecutive indices from `o` on, the output buffer holds
the stored values from index `o` on. -/
theorem applyStores_bytes (output : Nat) : ∀ (ss : List DecStore) (mem : Mem) (o : Nat),
    ss.map (·.idx) = List.range' o ss.length →
    (applyStores output mem ss).bytes (output + o) ss.length = ss.map (·.val)
  | [], _, _, _ => by simp [Mem.bytes]
  | s :: t, mem, o, h => by
    simp only [List.map_cons, List.length_cons, List.range', List.cons.injEq] at h
    obtain ⟨hs, ht⟩ := h
    have ih := applyStores_bytes output t (mem.store (output + s.idx) s.val) (o + 1) ht
    simp only [List.length_cons, Mem.bytes_succ, applyStores, List.map_cons]
    congr 1
    · rw [applyStores_other]
      · rw [hs]; exact Mem.store_eq _ _ _
      · intro st hst
        have : st.idx ∈ List.range' (o + 1) t.length := by
          rw [← ht]; exact List.mem_map_of_mem _ hst
        rw [List.mem_range'_1] at this
        omega


/-- C9. For an input whose length is a positive multiple of 4, the run of
`webauth_base64_decode` with the output buffer being the input buffer and the
run with a separate output buffer of the same capacity return the same value,
make the same stores (same indices, same bytes, in the same order) and leave
the same decoded bytes in their output buffers; in the in-place run every
store goes to an index below the number of input bytes already read. -/
theorem decode_in_place (mem : Mem) (input input_len output output_max : Nat)
    (hlen : 0 < input_len ∧ input_len % 4 = 0)
    (hsep : input + input_len ≤ output ∨ output + output_max ≤ input) :
    ∃ a s : DecRun,
      webauth_base64_decode mem input input_len input output_max = some a ∧
      webauth_base64_decode mem input input_len output output_max = some s ∧
      a.ret = s.ret ∧ a.stores = s.stores ∧
      a.mem.bytes input a.stores.length = s.mem.bytes output s.stores.length ∧
      (∀ n, a.ret = .len n → n = a.stores.length) ∧
      (∀ st ∈ a.stores, st.idx < st.rd ∧ st.rd ≤ input_len) := by
  have ha := webauth_base64_decode_eq mem input input_len input output_max hlen (Or.inl rfl)
  have hs := webauth_base64_decode_eq mem input input_len output output_max hlen (Or.inr hsep)
  obtain ⟨h1, h2, h3⟩ :=
    decodeGroups_stores output_max (mem.bytes input input_len) 0 0 (Nat.zero_le _)
  refine ⟨_, _, ha, hs, rfl, rfl, ?_, ?_, ?_⟩
  · have ba := applyStores_bytes input _ mem 0 h2
    have bs := applyStores_bytes output _ mem 0 h2
    simp only [Nat.add_zero] at ba bs
    simp only [runOf]
    rw [ba, bs]
  · intro n hn
    have := h3 n hn
    simpa using this
  · intro st hst
    have := h1 st hst
    rw [Mem.bytes_length] at this
    omega


/-! ## Decoding what the encoder produces -/

theorem CHAR64_digit_ne (d : Nat) (h : d < 64) : CHAR64 (b64digit d) ≠ XX := by
  rw [CHAR64_digit d h]; simp only [XX]; omega

theorem decodeGroups_digits2 (om d1 d2 : Nat) (h1 : d1 < 64) (h2 : d2 < 64)
    (rest : List Nat) (i o : Nat) (h : o + 1 ≤ om) :
    decodeGroups om (b64digit d1 :: b64digit d2 :: EQ :: EQ :: rest) i o
      = (.len (o + 1), [⟨o, d1 * 4 + d2 / 16, i + 4⟩]) := by
  have n1 : o ≠ om := by omega
  have x1 : d1 ≠ XX := by simp only [XX]; omega
  have x2 : d2 ≠ XX := by simp only [XX]; omega
  simp [decodeGroups, CHAR64_digit_ne, h1, h2, n1, CHAR64_digit, dec_byte1, x1, x2]

theorem decodeGroups_digits3 (om d1 d2 d3 : Nat) (h1 : d1 < 64) (h2 : d2 < 64) (h3 : d3 < 64)
    (rest : List Nat) (i o : Nat) (h : o + 2 ≤ om) :
    decodeGroups om (b64digit d1 :: b64digit d2 :: b64digit d3 :: EQ :: rest) i o
      = (.len (o + 2), [⟨o, d1 * 4 + d2 / 16, i + 4⟩, ⟨o + 1, d2 % 16 * 16 + d3 / 4, i + 4⟩]) := by
  have n1 : o ≠ om := by omega
  have n2 : o + 1 ≠ om := by omega
  have x1 : d1 ≠ XX := by simp only [XX]; omega
  have x2 : d2 ≠ XX := by simp only [XX]; omega
  have x3 : d3 ≠ XX := by simp only [XX]; omega
  simp [decodeGroups, CHAR64_digit_ne, h1, h2, h3, n1, n2, CHAR64_digit, dec_byte1, dec_byte2,
    b64digit_ne_EQ, x1, x2, x3]

theorem decodeGroups_digits4 (om d1 d2 d3 d4 : Nat) (h1 : d1 < 64) (h2 : d2 < 64)
    (h3 : d3 < 64) (h4 : d4 < 64) (rest : List Nat) (i o : Nat) (h : o + 3 ≤ om) :
    decodeGroups om (b64digit d1 :: b64digit d2 :: b64digit d3 :: b64digit d4 :: rest) i o
      = if rest = [] then
          (.len (o + 3), [⟨o, d1 * 4 + d2 / 16, i + 4⟩, ⟨o + 1, d2 % 16 * 16 + d3 / 4, i + 4⟩,
            ⟨o + 2, d3 % 4 * 64 + d4, i + 4⟩])
        else
          ((decodeGroups om rest (i + 4) (o + 3)).1,
            ⟨o, d1 * 4 + d2 / 16, i + 4⟩ :: ⟨o + 1, d2 % 16 * 16 + d3 / 4, i + 4⟩ ::
              ⟨o + 2, d3 % 4 * 64 + d4, i + 4⟩ :: (decodeGroups om rest (i + 4) (o + 3)).2) := by
  have n1 : o ≠ om := by omega
  have n2 : o + 1 ≠ om := by omega
  have n3 : o + 2 ≠ om := by omega
  have x1 : d1 ≠ XX := by simp only [XX]; omega
  have x2 : d2 ≠ XX := by simp only [XX]; omega
  have x3 : d3 ≠ XX := by simp only [XX]; omega
  have x4 : d4 ≠ XX := by simp only [XX]; omega
  simp [decodeGroups, CHAR64_digit_ne, h1, h2, h3, h4, n1, n2, n3, CHAR64_digit, dec_byte1,
    dec_byte2, dec_byte3, b64digit_ne_EQ, x1, x2, x3, x4]

theorem rfc4648_encode_eq_nil (b : List Nat) : rfc4648_encode b = [] ↔ b = [] := by
  constructor
  · intro h
    have := rfc4648_encode_length b
    rw [h] at this
    simp only [List.length_nil] at this
    cases b with
    | nil => rfl
    | cons _ _ => simp only [List.length_cons] at this; omega
  · intro h; subst h; rfl

/-- The loop, run on the RFC 4648 encoding of a non-empty byte string with
room for its bytes, returns their number and stores them in order. -/
theorem decodeGroups_rfc (om : Nat) : ∀ (b : List Nat) (i o : Nat),
    b ≠ [] → (∀ x ∈ b, x < 256) → o + b.length ≤ om →
    (decodeGroups om (rfc4648_encode b) i o).1 = .len (o + b.length) ∧
    (decodeGroups om (rfc4648_encode b) i o).2.map (·.val) = b
  | [], _, _, h, _, _ => absurd rfl h
  | [a], i, o, _, hb, h => by
    have ha : a < 256 := hb a (by simp)
    simp only [List.length_cons, List.length_nil] at h
    rw [rfc4648_encode, decodeGroups_digits2 om _ _ (by omega) (by omega) [] i o (by omega)]
    simp
    omega
  | [a, b], i, o, _, hb, h => by
    have ha : a < 256 := hb a (by simp)
    have hb2 : b < 256 := hb b (by simp)
    simp only [List.length_cons, List.length_nil] at h
    rw [rfc4648_encode, decodeGroups_digits3 om _ _ _ (by omega) (by omega) (by omega) [] i o
      (by omega)]
    simp
    omega
  | a :: b :: c :: rest, i, o, _, hb, h => by
    have ha : a < 256 := hb a (by simp)
    have hb2 : b < 256 := hb b (by simp)
    have hc : c < 256 := hb c (by simp)
    have hrest : ∀ x ∈ rest, x < 256 := fun x hx => hb x (by simp [hx])
    simp only [List.length_cons] at h
    rw [rfc4648_encode, decodeGroups_digits4 om _ _ _ _ (by omega) (by omega) (by omega)
      (by omega) _ i o (by omega)]
    by_cases hr : rest = []
    · subst hr
      simp [rfc4648_encode]
      omega
    · have ih := decodeGroups_rfc om rest (i + 4) (o + 3) hr hrest (by omega)
      have hne : rfc4648_encode rest ≠ [] := fun e => hr ((rfc4648_encode_eq_nil rest).mp e)
      simp only [hne, if_false, ih, List.map_cons, List.length_cons]
      refine ⟨by congr 1; omega, ?_⟩
      congr 1
      · omega
      congr 1
      · omega
      congr 1
      omega


theorem writeStores_other (output : Nat) : ∀ (ss : List Store) (mem : Mem) (x : Nat),
    (∀ st ∈ ss, output + st.idx ≠ x) → writeStores output mem ss x = mem x
  | [], _, _, _ => rfl
  | s :: t, mem, x, h => by
    simp only [writeStores]
    rw [writeStores_other output t _ x (fun st hst => h st (List.mem_cons_of_mem _ hst))]
    exact Mem.store_ne _ _ _ _ (fun e => h s (List.mem_cons_self _ _) e.symm)

theorem storesOf_idx : ∀ (vs : List Nat) (o : Nat) (st : Store), st ∈ storesOf o vs → o ≤ st.idx
  | [], _, _, h => by simp [storesOf] at h
  | v :: vs, o, st, h => by
    simp only [storesOf, List.mem_cons] at h
    rcases h with h | h
    · subst h; exact le_refl _
    · have := storesOf_idx vs (o + 1) st h; omega

/-- After the stores of the values `vs` at the indices `o, o + 1, ...` the
buffer holds `vs` from index `o` on. -/
theorem writeStores_bytes (output : Nat) : ∀ (vs : List Nat) (mem : Mem) (o : Nat),
    (writeStores output mem (storesOf o vs)).bytes (output + o) vs.length = vs
  | [], _, _ => by simp [Mem.bytes]
  | v :: vs, mem, o => by
    have ih := writeStores_bytes output vs (mem.store (output + o) v) (o + 1)
    simp only [List.length_cons, Mem.bytes_succ, storesOf, writeStores]
    congr 1
    rw [writeStores_other]
    · exact Mem.store_eq _ _ _
    · intro st hst
      have := storesOf_idx vs (o + 1) st hst
      omega

/-- Decoding the RFC 4648 encoding of `b`, held in memory at `buf`, into a
buffer of capacity at least `b.length` that is `buf` itself or is disjoint
from the encoding, returns `b.length` and leaves `b` in the output buffer. -/
theorem webauth_base64_decode_rfc (b : List Nat) (mem : Mem) (buf output output_max : Nat)
    (hne : b ≠ []) (hb : ∀ x ∈ b, x < 256) (hcap : b.length ≤ output_max)
    (hin : mem.bytes buf (rfc4648_encode b).length = rfc4648_encode b)
    (hlay : output = buf ∨ buf + (rfc4648_encode b).length ≤ output
      ∨ output + output_max ≤ buf) :
    ∃ d, webauth_base64_decode mem buf (rfc4648_encode b).length output output_max = some d ∧
      d.ret = .len b.length ∧ d.mem.bytes output b.length = b ∧
      (∀ x, (∀ k, k < b.length → x ≠ output + k) → d.mem x = mem x) := by
  have hpos : 0 < b.length := List.length_pos.mpr hne
  have hlen : 0 < (rfc4648_encode b).length ∧ (rfc4648_encode b).length % 4 = 0 := by
    rw [rfc4648_encode_length]; omega
  have hd := webauth_base64_decode_eq mem buf _ output output_max hlen hlay
  rw [hin] at hd
  obtain ⟨r1, r2⟩ := decodeGroups_rfc output_max b 0 0 hne hb (by omega)
  obtain ⟨s1, s2, _⟩ := decodeGroups_stores output_max (rfc4648_encode b) 0 0 (Nat.zero_le _)
  have hcount : (decodeGroups output_max (rfc4648_encode b) 0 0).2.length = b.length := by
    have := congrArg List.length r2
    simpa using this
  refine ⟨_, hd, ?_, ?_, ?_⟩
  · simpa [runOf] using r1
  · have := applyStores_bytes output _ mem 0 s2
    simp only [Nat.add_zero, hcount, r2] at this
    exact this
  · intro x hx
    simp only [runOf]
    apply applyStores_other
    intro st hst
    obtain ⟨_, h2, _⟩ := s1 st hst
    have h3 : st.idx ∈ List.range' 0 (decodeGroups output_max (rfc4648_encode b) 0 0).2.length := by
      rw [← s2]; exact List.mem_map_of_mem _ hst
    rw [List.mem_range'_1, hcount] at h3
    exact fun e => hx st.idx (by omega) e.symm

/-- C3. For a byte string `b` of length `n >= 1`: `webauth_base64_encode` into
a buffer of capacity `webauth_base64_encoded_length(n)` returns that length,
and `webauth_base64_decode` of the encoded buffer into a buffer of capacity
`n` (the same buffer, or one disjoint from it) returns `n` and leaves exactly
`b` in the output buffer. -/
theorem base64_roundtrip (b : List Nat) (L : Nat) (mem : Mem) (buf output : Nat)
    (hb : ∀ x ∈ b, x < 256)
    (hL : webauth_base64_encoded_length b.length = some L)
    (hlay : output = buf ∨ buf + L ≤ output ∨ output + b.length ≤ buf) :
    ∃ e d, webauth_base64_encode b L = some e ∧ e.ret = .len L ∧
      webauth_base64_decode (writeStores buf mem e.stores) buf L output b.length = some d ∧
      d.ret = .len b.length ∧ d.mem.bytes output b.length = b := by
  obtain ⟨he, hl⟩ := webauth_base64_encode_ok b L L hb hL (le_refl _)
  have hne : b ≠ [] := by
    intro e; subst e; simp [webauth_base64_encoded_length] at hL
  have hin : (writeStores buf mem (storesOf 0 (rfc4648_encode b))).bytes buf
      (rfc4648_encode b).length = rfc4648_encode b := by
    simpa using writeStores_bytes buf (rfc4648_encode b) mem 0
  obtain ⟨d, hd, hr, hbytes, _⟩ := webauth_base64_decode_rfc b _ buf output b.length hne hb
    (le_refl _) hin (by rw [hl]; exact hlay)
  rw [hl] at hd
  exact ⟨_, d, he, rfl, hd, hr, hbytes⟩


/-! ## Well-formed input and capacity -/

set_option maxRecDepth 1000000 in
theorem alpha_valid : ∀ c ∈ basis_64, CHAR64 c ≠ XX ∧ c ≠ EQ := by decide

theorem isAlpha_valid (c : Nat) (h : isAlpha c = true) : CHAR64 c ≠ XX ∧ c ≠ EQ :=
  alpha_valid c (by simpa [isAlpha] using h)

/-- On well-formed text the loop returns the decoded length when the capacity
allows it and `WA_ERR_NO_ROOM` otherwise. -/
theorem decodeGroups_wellFormed (om : Nat) : ∀ (s : List Nat) (i o : Nat),
    wellFormed s = true → o ≤ om →
    (decodeGroups om s i o).1
      = if o + decodedLength s ≤ om then .len (o + decodedLength s) else .err .NO_ROOM
  | [], _, _, h, _ => by simp [wellFormed] at h
  | [_], _, _, h, _ => by simp [wellFormed] at h
  | [_, _], _, _, h, _ => by simp [wellFormed] at h
  | [_, _, _], _, _, h, _ => by simp [wellFormed] at h
  | c1 :: c2 :: c3 :: c4 :: rest, i, o, h, ho => by
    by_cases hr : rest = []
    · subst hr
      simp only [wellFormed, if_true, Bool.and_eq_true, Bool.or_eq_true, decide_eq_true_eq] at h
      obtain ⟨⟨h1, h2⟩, h34⟩ := h
      have v1 := isAlpha_valid c1 h1
      have v2 := isAlpha_valid c2 h2
      rcases h34 with ⟨h3, h4⟩ | ⟨h3, h4⟩
      · have v3 := isAlpha_valid c3 h3
        rcases h4 with h4 | h4
        · have v4 := isAlpha_valid c4 h4
          have hdl : decodedLength [c1, c2, c3, c4] = 3 := by simp [decodedLength, v3, v4]
          rw [hdl]
          by_cases n1 : o = om
          · rw [if_neg (by omega)]; simp [decodeGroups, v1, v2, v3, v4, n1]
          by_cases n2 : o + 1 = om
          · rw [if_neg (by omega)]; simp [decodeGroups, v1, v2, v3, v4, n1, n2]
          by_cases n3 : o + 2 = om
          · rw [if_neg (by omega)]; simp [decodeGroups, v1, v2, v3, v4, n1, n2, n3]
          rw [if_pos (by omega)]; simp [decodeGroups, v1, v2, v3, v4, n1, n2, n3]
        · subst h4
          have hdl : decodedLength [c1, c2, c3, EQ] = 2 := by simp [decodedLength, v3]
          rw [hdl]
          by_cases n1 : o = om
          · rw [if_neg (by omega)]; simp [decodeGroups, v1, v2, v3, n1]
          by_cases n2 : o + 1 = om
          · rw [if_neg (by omega)]; simp [decodeGroups, v1, v2, v3, n1, n2]
          rw [if_pos (by omega)]; simp [decodeGroups, v1, v2, v3, n1, n2]
      · subst h3; subst h4
        have hdl : decodedLength [c1, c2, EQ, EQ] = 1 := by simp [decodedLength]
        rw [hdl]
        by_cases n1 : o = om
        · rw [if_neg (by omega)]; simp [decodeGroups, v1, v2, n1]
        rw [if_pos (by omega)]; simp [decodeGroups, v1, v2, n1]
    · simp only [wellFormed, hr, if_false, Bool.and_eq_true] at h
      obtain ⟨⟨⟨⟨h1, h2⟩, h3⟩, h4⟩, hw⟩ := h
      have v1 := isAlpha_valid c1 h1
      have v2 := isAlpha_valid c2 h2
      have v3 := isAlpha_valid c3 h3
      have v4 := isAlpha_valid c4 h4
      have hdl : decodedLength (c1 :: c2 :: c3 :: c4 :: rest) = 3 + decodedLength rest := by
        simp [decodedLength, hr]
      rw [hdl]
      by_cases n1 : o = om
      · rw [if_neg (by omega)]; simp [decodeGroups, v1, v2, v3, v4, n1]
      by_cases n2 : o + 1 = om
      · rw [if_neg (by omega)]; simp [decodeGroups, v1, v2, v3, v4, n1, n2]
      by_cases n3 : o + 2 = om
      · rw [if_neg (by omega)]; simp [decodeGroups, v1, v2, v3, v4, n1, n2, n3]
      have ih := decodeGroups_wellFormed om rest (i + 4) (o + 3) hw (by omega)
      have e : o + 3 + decodedLength rest = o + (3 + decodedLength rest) := by omega
      rw [e] at ih
      simp [decodeGroups, v1, v2, v3, v4, n1, n2, n3, hr, ih]

/-- C8. For well-formed base64 text of decoded length `d` in the input buffer,
`webauth_base64_decode` returns `WA_ERR_NO_ROOM` if `output_max < d` and `d`
if `output_max >= d`, and in either case every store it makes goes to an
output index below `output_max`. -/
theorem decode_capacity (mem : Mem) (input input_len output output_max : Nat)
    (hlen : 0 < input_len ∧ input_len % 4 = 0)
    (hlay : output = input ∨ input + input_len ≤ output ∨ output + output_max ≤ input)
    (hwf : wellFormed (mem.bytes input input_len) = true) :
    ∃ r, webauth_base64_decode mem input input_len output output_max = some r ∧
      (output_max < decodedLength (mem.bytes input input_len) → r.ret = .err .NO_ROOM) ∧
      (decodedLength (mem.bytes input input_len) ≤ output_max →
        r.ret = .len (decodedLength (mem.bytes input input_len))) ∧
      (∀ st ∈ r.stores, st.idx < output_max) := by
  have hd := webauth_base64_decode_eq mem input input_len output output_max hlen hlay
  have hw := decodeGroups_wellFormed output_max _ 0 0 hwf (Nat.zero_le _)
  obtain ⟨s1, _, _⟩ :=
    decodeGroups_stores output_max (mem.bytes input input_len) 0 0 (Nat.zero_le _)
  refine ⟨_, hd, ?_, ?_, ?_⟩
  · intro h
    simp only [runOf, hw, Nat.zero_add]
    rw [if_neg (by omega)]
  · intro h
    simp only [runOf, hw, Nat.zero_add]
    rw [if_pos h]
  · intro st hst
    exact (s1 st hst).1


/-! ## Rejected input -/

theorem getD_cons4 (c1 c2 c3 c4 : Nat) (rest : List Nat) (j : Nat) :
    (c1 :: c2 :: c3 :: c4 :: rest).getD (j + 4) 0 = rest.getD j 0 := by
  simp [List.getD_cons_succ]

theorem Mem.bytes_getD (m : Mem) (a n k : Nat) (h : k < n) :
    (m.bytes a n).getD k 0 = m (a + k) := by
  simp [Mem.bytes, List.getD_eq_getElem?_getD, h]

/-- The loop returns `WA_ERR_CORRUPT` at the first group that holds a
character outside the alphabet (other than `=` in the third or fourth place),
or `=` in the third place followed by another character, when no group before
it holds a `=` and there is room for the bytes of the groups before it. -/
theorem decodeGroups_corrupt (om : Nat) : ∀ (g : Nat) (s : List Nat) (i o : Nat),
    4 * g + 4 ≤ s.length → o + 3 * g < om →
    (∀ j, j < 4 * g → s.getD j 0 ≠ EQ) →
    (CHAR64 (s.getD (4 * g) 0) = XX ∨ CHAR64 (s.getD (4 * g + 1) 0) = XX ∨
      (s.getD (4 * g + 2) 0 ≠ EQ ∧ CHAR64 (s.getD (4 * g + 2) 0) = XX) ∨
      (s.getD (4 * g + 3) 0 ≠ EQ ∧ CHAR64 (s.getD (4 * g + 3) 0) = XX) ∨
      (s.getD (4 * g + 2) 0 = EQ ∧ s.getD (4 * g + 3) 0 ≠ EQ)) →
    (decodeGroups om s i o).1 = .err .CORRUPT
  | _, [], _, _, hl, _, _, _ => by simp at hl
  | _, [_], _, _, hl, _, _, _ => by
    simp only [List.length_cons, List.length_nil] at hl; omega
  | _, [_, _], _, _, hl, _, _, _ => by
    simp only [List.length_cons, List.length_nil] at hl; omega
  | _, [_, _, _], _, _, hl, _, _, _ => by
    simp only [List.length_cons, List.length_nil] at hl; omega
  | 0, c1 :: c2 :: c3 :: c4 :: rest, i, o, _, ho, _, hrej => by
    simp only [Nat.mul_zero, Nat.zero_add, List.getD_cons_zero, List.getD_cons_succ] at hrej
    by_cases a1 : CHAR64 c1 = XX
    · simp [decodeGroups, a1]
    by_cases a2 : CHAR64 c2 = XX
    · simp [decodeGroups, a1, a2]
    by_cases a3 : c3 ≠ EQ ∧ CHAR64 c3 = XX
    · simp [decodeGroups, a1, a2, a3]
    by_cases a4 : c4 ≠ EQ ∧ CHAR64 c4 = XX
    · simp [decodeGroups, a1, a2, a3, a4]
    have h5 : c3 = EQ ∧ c4 ≠ EQ := by tauto
    have n1 : o ≠ om := by omega
    by_cases x4 : CHAR64 c4 = XX
    · simp [decodeGroups, a1, a2, x4, n1, h5.1, h5.2]
    · simp [decodeGroups, a1, a2, x4, n1, h5.1, h5.2]
  | g + 1, c1 :: c2 :: c3 :: c4 :: rest, i, o, hl, ho, hclean, hrej => by
    simp only [List.length_cons] at hl
    have q1 : c1 ≠ EQ := by simpa using hclean 0 (by omega)
    have q2 : c2 ≠ EQ := by simpa using hclean 1 (by omega)
    have q3 : c3 ≠ EQ := by simpa using hclean 2 (by omega)
    have q4 : c4 ≠ EQ := by simpa using hclean 3 (by omega)
    by_cases a1 : CHAR64 c1 = XX
    · simp [decodeGroups, a1]
    by_cases a2 : CHAR64 c2 = XX
    · simp [decodeGroups, a1, a2]
    by_cases a3 : CHAR64 c3 = XX
    · simp [decodeGroups, a1, a2, a3, q3]
    by_cases a4 : CHAR64 c4 = XX
    · simp [decodeGroups, a1, a2, a3, a4, q4]
    have n1 : o ≠ om := by omega
    have n2 : o + 1 ≠ om := by omega
    have n3 : o + 2 ≠ om := by omega
    have hr : rest ≠ [] := by
      intro e; subst e; simp only [List.length_nil] at hl; omega
    have e0 : 4 * (g + 1) = 4 * g + 4 := by omega
    have e1 : 4 * (g + 1) + 1 = 4 * g + 1 + 4 := by omega
    have e2 : 4 * (g + 1) + 2 = 4 * g + 2 + 4 := by omega
    have e3 : 4 * (g + 1) + 3 = 4 * g + 3 + 4 := by omega
    rw [e1, e2, e3, e0] at hrej
    simp only [getD_cons4] at hrej
    have ih := decodeGroups_corrupt om g rest (i + 4) (o + 3) (by omega) (by omega)
      (by
        intro j hj
        have := hclean (j + 4) (by omega)
        rwa [getD_cons4] at this)
      hrej
    simp [decodeGroups, a1, a2, a3, a4, q3, q4, n1, n2, n3, hr, ih]

/-- The decoder returns `WA_ERR_CORRUPT` when group `g` of the input is one
the loop rejects, no earlier group holds a `=`, and the capacity has room for
the bytes of the earlier groups and one more. -/
theorem webauth_base64_decode_corrupt (mem : Mem) (input input_len output output_max g : Nat)
    (hlen : 0 < input_len ∧ input_len % 4 = 0)
    (hlay : output = input ∨ input + input_len ≤ output ∨ output + output_max ≤ input)
    (hg : 4 * g + 4 ≤ input_len) (hcap : 3 * g < output_max)
    (hclean : ∀ j, j < 4 * g → mem (input + j) ≠ EQ)
    (hrej : CHAR64 (mem (input + 4 * g)) = XX ∨ CHAR64 (mem (input + (4 * g + 1))) = XX ∨
      (mem (input + (4 * g + 2)) ≠ EQ ∧ CHAR64 (mem (input + (4 * g + 2))) = XX) ∨
      (mem (input + (4 * g + 3)) ≠ EQ ∧ CHAR64 (mem (input + (4 * g + 3))) = XX) ∨
      (mem (input + (4 * g + 2)) = EQ ∧ mem (input + (4 * g + 3)) ≠ EQ)) :
    ∃ r, webauth_base64_decode mem input input_len output output_max = some r ∧
      r.ret = .err .CORRUPT := by
  have hd := webauth_base64_decode_eq mem input input_len output output_max hlen hlay
  refine ⟨_, hd, ?_⟩
  simp only [runOf]
  apply decodeGroups_corrupt output_max g
  · rw [Mem.bytes_length]; exact hg
  · omega
  · intro j hj
    rw [Mem.bytes_getD _ _ _ _ (by omega)]
    exact hclean j hj
  · rw [Mem.bytes_getD _ _ _ _ (by omega), Mem.bytes_getD _ _ _ _ (by omega),
      Mem.bytes_getD _ _ _ _ (by omega), Mem.bytes_getD _ _ _ _ (by omega)]
    exact hrej

set_option maxRecDepth 1000000 in
theorem CHAR64_invalid : ∀ c, c < 256 → c ∉ basis_64 → c ≠ EQ → CHAR64 c = XX := by decide

theorem CHAR64_EQ : CHAR64 EQ = XX := by decide

/-- C6 (as amended). For an input whose length is a positive multiple of 4,
with capacity for three bytes per group, `webauth_base64_decode` returns
`WA_ERR_CORRUPT` when the input holds a `=` at a position `k` that is the
first or second character of its group, or the third with the fourth not
`=`, and no earlier group holds a `=`. -/
theorem decode_rejects_misplaced_padding (mem : Mem)
    (input input_len output output_max k : Nat)
    (hlen : 0 < input_len ∧ input_len % 4 = 0)
    (hlay : output = input ∨ input + input_len ≤ output ∨ output + output_max ≤ input)
    (hcap : input_len / 4 * 3 ≤ output_max)
    (hk : k < input_len) (heq : mem (input + k) = EQ)
    (hfirst : ∀ j, j < 4 * (k / 4) → mem (input + j) ≠ EQ)
    (hpos : k % 4 = 0 ∨ k % 4 = 1 ∨ (k % 4 = 2 ∧ mem (input + (k + 1)) ≠ EQ)) :
    ∃ r, webauth_base64_decode mem input input_len output output_max = some r ∧
      r.ret = .err .CORRUPT := by
  apply webauth_base64_decode_corrupt mem input input_len output output_max (k / 4) hlen hlay
    (by omega) (by omega) hfirst
  rcases hpos with h | h | ⟨h, h2⟩
  · left
    have e : 4 * (k / 4) = k := by omega
    rw [e, heq]; exact CHAR64_EQ
  · right; left
    have e : 4 * (k / 4) + 1 = k := by omega
    rw [e, heq]; exact CHAR64_EQ
  · right; right; right; right
    have e : 4 * (k / 4) + 2 = k := by omega
    have e2 : 4 * (k / 4) + 3 = k + 1 := by omega
    rw [e, e2]
    exact ⟨heq, h2⟩

/-- C7 (as amended). For an input whose length is a positive multiple of 4,
with capacity for three bytes per group, `webauth_base64_decode` returns
`WA_ERR_CORRUPT` when the input holds at a position `k` a byte that is
neither in the alphabet nor `=`, and no group before the group of `k` holds
a `=`. -/
theorem decode_rejects_invalid_char (mem : Mem)
    (input input_len output output_max k : Nat)
    (hlen : 0 < input_len ∧ input_len % 4 = 0)
    (hlay : output = input ∨ input + input_len ≤ output ∨ output + output_max ≤ input)
    (hcap : input_len / 4 * 3 ≤ output_max)
    (hk : k < input_len)
    (hbyte : mem (input + k) < 256)
    (hinv : mem (input + k) ∉ basis_64 ∧ mem (input + k) ≠ EQ)
    (hfirst : ∀ j, j < 4 * (k / 4) → mem (input + j) ≠ EQ) :
    ∃ r, webauth_base64_decode mem input input_len output output_max = some r ∧
      r.ret = .err .CORRUPT := by
  have hx := CHAR64_invalid _ hbyte hinv.1 hinv.2
  apply webauth_base64_decode_corrupt mem input input_len output output_max (k / 4) hlen hlay
    (by omega) (by omega) hfirst
  have h4 : k % 4 = 0 ∨ k % 4 = 1 ∨ k % 4 = 2 ∨ k % 4 = 3 := by omega
  rcases h4 with h | h | h | h
  · left
    have e : 4 * (k / 4) = k := by omega
    rw [e]; exact hx
  · right; left
    have e : 4 * (k / 4) + 1 = k := by omega
    rw [e]; exact hx
  · right; right; left
    have e : 4 * (k / 4) + 2 = k := by omega
    rw [e]; exact ⟨hinv.2, hx⟩
  · right; right; right; left
    have e : 4 * (k / 4) + 3 = k := by omega
    rw [e]; exact ⟨hinv.2, hx⟩


/-! ## Byte strings in memory -/

theorem Mem.place_outside (m : Mem) (a : Nat) (s : List Nat) (x : Nat)
    (h : x < a ∨ a + s.length ≤ x) : (m.place a s) x = m x := by
  have : ¬ (a ≤ x ∧ x < a + s.length) := by omega
  simp [Mem.place, this]

theorem Mem.place_at (m : Mem) (a : Nat) (s : List Nat) (k : Nat) (h : k < s.length) :
    (m.place a s) (a + k) = s.getD k 0 := by
  have : a ≤ a + k ∧ a + k < a + s.length := by omega
  simp [Mem.place, this]

theorem Mem.bytes_eq_of_pointwise (m m2 : Mem) (a a2 n : Nat)
    (h : ∀ k, k < n → m (a + k) = m2 (a2 + k)) : m.bytes a n = m2.bytes a2 n := by
  simp only [Mem.bytes]
  apply List.map_congr_left
  intro k hk
  exact h k (List.mem_range.mp hk)

theorem Mem.pointwise_of_bytes_eq (m m2 : Mem) (a a2 n : Nat)
    (h : m.bytes a n = m2.bytes a2 n) (k : Nat) (hk : k < n) : m (a + k) = m2 (a2 + k) := by
  rw [← Mem.bytes_getD m a n k hk, ← Mem.bytes_getD m2 a2 n k hk, h]

theorem Mem.bytes_eq_list (m : Mem) (a : Nat) (s : List Nat)
    (h : ∀ k, k < s.length → m (a + k) = s.getD k 0) : m.bytes a s.length = s := by
  apply List.ext_getElem
  · exact Mem.bytes_length _ _ _
  · intro i h1 h2
    have := h i h2
    simp only [Mem.bytes, List.getElem_map, List.getElem_range]
    rw [this, List.getD_eq_getElem _ _ h2]

theorem Mem.bytes_place (m : Mem) (a : Nat) (s : List Nat) :
    (m.place a s).bytes a s.length = s :=
  Mem.bytes_eq_list _ _ _ (fun k hk => Mem.place_at m a s k hk)

theorem Mem.bytes_place_disjoint (m : Mem) (a : Nat) (s : List Nat) (b n : Nat)
    (h : b + n ≤ a ∨ a + s.length ≤ b) : (m.place a s).bytes b n = m.bytes b n :=
  Mem.bytes_eq_of_pointwise _ _ _ _ _ (fun k hk => Mem.place_outside m a s (b + k) (by omega))

theorem Mem.bytes_sub (m m2 : Mem) (a a2 n k j : Nat) (h : m.bytes a n = m2.bytes a2 n)
    (hk : k + j ≤ n) : m.bytes (a + k) j = m2.bytes (a2 + k) j := by
  apply Mem.bytes_eq_of_pointwise
  intro i hi
  have := Mem.pointwise_of_bytes_eq m m2 a a2 n h (k + i) (by omega)
  rw [Nat.add_assoc, Nat.add_assoc]
  exact this

theorem Mem.mem_bytes (m : Mem) (a n b : Nat) (h : b ∈ m.bytes a n) :
    ∃ k, k < n ∧ m (a + k) = b := by
  simp only [Mem.bytes, List.mem_map, List.mem_range] at h
  exact h

theorem Mem.bytes_list_at (m : Mem) (a : Nat) (s : List Nat) (n k : Nat)
    (h : m.bytes a n = s) (hk : k < n) : m (a + k) = s.getD k 0 := by
  rw [← h, Mem.bytes_getD m a n k hk]


theorem T_offsets : T_HINT_S = 4 ∧ T_NONCE_S = 16 ∧ T_HMAC_S = 20 ∧ T_NONCE_O = 4 ∧
    T_HMAC_O = 20 ∧ T_ATTR_O = 40 ∧ AES_BLOCK_SIZE = 16 ∧ T_HINT_O = 0 ∧
    SHA_DIGEST_LENGTH = 20 := by decide

/-- The padding length is between 1 and 16 and brings nonce, tag, payload and
padding to a whole number of blocks; the binary length adds the 4-byte hint. -/
theorem binary_encoded_length_spec {A : Type} (X : Externals A) (list : A) :
    1 ≤ (binary_encoded_length X list).2 ∧ (binary_encoded_length X list).2 ≤ 16 ∧
    (X.webauth_attrs_encoded_length list + 36 + (binary_encoded_length X list).2) % 16 = 0 ∧
    (binary_encoded_length X list).1
      = X.webauth_attrs_encoded_length list + 40 + (binary_encoded_length X list).2 ∧
    ((X.webauth_attrs_encoded_length list + 36) % 16 = 0 →
      (binary_encoded_length X list).2 = 16) ∧
    ((X.webauth_attrs_encoded_length list + 36) % 16 ≠ 0 →
      (binary_encoded_length X list).2 < 16) := by
  simp only [binary_encoded_length, T_NONCE_S, T_HMAC_S, SHA_DIGEST_LENGTH, AES_BLOCK_SIZE]
  split_ifs with h <;> omega

theorem getD_mem_of_lt (l : List Nat) (k : Nat) (h : k < l.length) : l.getD k 0 ∈ l := by
  rw [List.getD_eq_getElem _ _ h]
  exact List.getElem_mem h

theorem plainBuffer_hint {A : Type} (X : Externals A) (ebuff0 : Mem) (attrs : List Nat)
    (plen k : Nat) (hk : k < 4) :
    plainBuffer X ebuff0 attrs plen k = (htonl_bytes X.time).getD k 0 := by
  unfold plainBuffer
  rw [Mem.place_outside _ _ _ _ (by omega), Mem.place_outside _ _ _ _ (by omega),
    Mem.place_outside _ _ _ _ (by omega), Mem.place_outside _ _ _ _ (by omega)]
  have := Mem.place_at ebuff0 0 (htonl_bytes X.time) k (by simpa [htonl_bytes] using hk)
  simpa using this

theorem plainBuffer_nonce {A : Type} (X : Externals A) (ebuff0 : Mem) (attrs : List Nat)
    (plen k : Nat) (hk : k < 16) :
    plainBuffer X ebuff0 attrs plen (4 + k) = temp_nonce.getD k 0 := by
  unfold plainBuffer
  rw [Mem.place_outside _ _ _ _ (by omega), Mem.place_outside _ _ _ _ (by omega),
    Mem.place_outside _ _ _ _ (by omega)]
  exact Mem.place_at _ 4 temp_nonce k (by simpa [temp_nonce] using hk)

theorem plainBuffer_attrs {A : Type} (X : Externals A) (ebuff0 : Mem) (attrs : List Nat)
    (plen k : Nat) (hlen : ∀ k d, (X.HMAC k d).length = SHA_DIGEST_LENGTH)
    (hk : k < attrs.length) :
    plainBuffer X ebuff0 attrs plen (40 + k) = attrs.getD k 0 := by
  have h20 : ∀ k d, (X.HMAC k d).length = 20 := hlen
  unfold plainBuffer
  rw [Mem.place_outside _ _ _ _ (by rw [h20]; omega), Mem.place_outside _ _ _ _ (by omega)]
  exact Mem.place_at _ 40 attrs k hk

theorem plainBuffer_pad {A : Type} (X : Externals A) (ebuff0 : Mem) (attrs : List Nat)
    (plen k : Nat) (hlen : ∀ k d, (X.HMAC k d).length = SHA_DIGEST_LENGTH)
    (hk : k < plen) :
    plainBuffer X ebuff0 attrs plen (40 + attrs.length + k) = plen % 256 := by
  have h20 : ∀ k d, (X.HMAC k d).length = 20 := hlen
  unfold plainBuffer
  rw [Mem.place_outside _ _ _ _ (by rw [h20]; omega)]
  rw [Mem.place_at _ (40 + attrs.length) _ k (by simpa using hk)]
  simp [List.getD_eq_getElem?_getD, hk]

theorem plainBuffer_tag {A : Type} (X : Externals A) (ebuff0 : Mem) (attrs : List Nat)
    (plen : Nat) (hlen : ∀ k d, (X.HMAC k d).length = SHA_DIGEST_LENGTH) :
    (plainBuffer X ebuff0 attrs plen).bytes 20 20
      = X.HMAC temp_nonce ((plainBuffer X ebuff0 attrs plen).bytes 40 (attrs.length + plen)) := by
  have h20 : ∀ k d, (X.HMAC k d).length = 20 := hlen
  have hd : (plainBuffer X ebuff0 attrs plen).bytes 40 (attrs.length + plen)
      = ((((ebuff0.place 0 (htonl_bytes X.time)).place 4 temp_nonce).place 40 attrs).place
        (40 + attrs.length) (List.replicate plen (plen % 256))).bytes 40 (attrs.length + plen) := by
    unfold plainBuffer
    exact Mem.bytes_place_disjoint _ _ _ _ _ (Or.inr (by rw [h20]))
  rw [hd]
  unfold plainBuffer
  have := Mem.bytes_place
    ((((ebuff0.place 0 (htonl_bytes X.time)).place 4 temp_nonce).place 40 attrs).place
        (40 + attrs.length) (List.replicate plen (plen % 256))) 20
    (X.HMAC temp_nonce
      (((((ebuff0.place 0 (htonl_bytes X.time)).place 4 temp_nonce).place 40 attrs).place
        (40 + attrs.length) (List.replicate plen (plen % 256))).bytes 40 (attrs.length + plen)))
  rw [h20] at this
  exact this

set_option maxRecDepth 100000 in
theorem temp_nonce_bytes : ∀ k, k < 16 → temp_nonce.getD k 0 < 256 := by decide

theorem htonl_bytes_lt (t k : Nat) : (htonl_bytes t).getD k 0 < 256 := by
  have h4 : k = 0 ∨ k = 1 ∨ k = 2 ∨ k = 3 ∨ 4 ≤ k := by omega
  rcases h4 with h | h | h | h | h
  · subst h; simp [htonl_bytes]; omega
  · subst h; simp [htonl_bytes]; omega
  · subst h; simp [htonl_bytes]; omega
  · subst h; simp [htonl_bytes]; omega
  · have : (htonl_bytes t).length ≤ k := by simpa [htonl_bytes] using h
    simp [List.getD_eq_getElem?_getD, List.getElem?_eq_none this]

/-- Every byte of the plain buffer from the nonce to the end of the padding
is below 256. -/
theorem plainBuffer_bytes {A : Type} (X : Externals A) (key : WEBAUTH_KEY) (hX : Lawful X key)
    (ebuff0 : Mem) (attrs : List Nat) (plen : Nat) (hab : ∀ b ∈ attrs, b < 256) (x : Nat)
    (h4 : 4 ≤ x) (hx : x < 40 + attrs.length + plen) :
    plainBuffer X ebuff0 attrs plen x < 256 := by
  by_cases c1 : x < 20
  · have e : x = 4 + (x - 4) := by omega
    rw [e, plainBuffer_nonce X ebuff0 attrs plen (x - 4) (by omega)]
    exact temp_nonce_bytes _ (by omega)
  by_cases c2 : x < 40
  · have ht := plainBuffer_tag X ebuff0 attrs plen hX.hmac_length
    have := Mem.bytes_list_at _ 20 _ 20 (x - 20) ht (by omega)
    have e : 20 + (x - 20) = x := by omega
    rw [e] at this
    rw [this]
    apply hX.hmac_bytes temp_nonce _ _
    apply getD_mem_of_lt
    rw [hX.hmac_length]; simp only [SHA_DIGEST_LENGTH]; omega
  by_cases c3 : x < 40 + attrs.length
  · have e : x = 40 + (x - 40) := by omega
    rw [e, plainBuffer_attrs X ebuff0 attrs plen (x - 40) hX.hmac_length (by omega)]
    exact hab _ (getD_mem_of_lt _ _ (by omega))
  · have e : x = 40 + attrs.length + (x - 40 - attrs.length) := by omega
    rw [e, plainBuffer_pad X ebuff0 attrs plen _ hX.hmac_length (by omega)]
    omega

/-- Every byte of the encrypted buffer is below 256. -/
theorem cipherBuffer_bytes {A : Type} (X : Externals A) (key : WEBAUTH_KEY) (hX : Lawful X key)
    (ebuff0 : Mem) (attrs : List Nat) (plen elen : Nat) (h4 : 4 ≤ elen) :
    ∀ b ∈ (cipherBuffer X key (plainBuffer X ebuff0 attrs plen) elen).bytes 0 elen, b < 256 := by
  intro b hb
  obtain ⟨k, hk, rfl⟩ := Mem.mem_bytes _ _ _ _ hb
  rw [Nat.zero_add]
  have hl := hX.cbc_length true ((plainBuffer X ebuff0 attrs plen).bytes 4 (elen - 4))
  rw [Mem.bytes_length] at hl
  unfold cipherBuffer
  by_cases c : k < 4
  · rw [Mem.place_outside _ _ _ _ (Or.inl c), plainBuffer_hint X ebuff0 attrs plen k c]
    exact htonl_bytes_lt _ _
  · have e : k = 4 + (k - 4) := by omega
    rw [e, Mem.place_at _ 4 _ (k - 4) (by rw [hl]; omega)]
    exact hX.cbc_bytes _ _ (getD_mem_of_lt _ _ (by rw [hl]; omega))

/-- The run of `webauth_token_create` when the key is found and sets up, the output has
room, `malloc` succeeds and the attributes encode: it returns the base64
length and stores the RFC 4648 encoding of the encrypted buffer. -/
theorem webauth_token_create_ok {A : Type} (X : Externals A) (key : WEBAUTH_KEY)
    (hX : Lawful X key) (list : A) (attrs : List Nat) (ring : WEBAUTH_KEY_RING)
    (ebuff0 : Mem) (blen max_output_len : Nat)
    (hbest : X.webauth_key_ring_best_encryption_key ring = some key)
    (hmalloc : X.malloc (binary_encoded_length X list).1 = some ebuff0)
    (henc : X.webauth_attrs_encode list (X.webauth_attrs_encoded_length list) = .inr attrs)
    (hblen : webauth_token_encoded_length X list = some blen)
    (hcap : blen ≤ max_output_len) :
    webauth_token_create X list max_output_len ring
      = some ⟨.len blen,
          storesOf 0 (rfc4648_encode ((cipherBuffer X key
            (plainBuffer X ebuff0 attrs (binary_encoded_length X list).2)
            (binary_encoded_length X list).1).bytes 0 (binary_encoded_length X list).1)),
          (cipherBuffer X key (plainBuffer X ebuff0 attrs (binary_encoded_length X list).2)
            (binary_encoded_length X list).1).bytes 0 (binary_encoded_length X list).1,
          createCalls X list attrs⟩ := by
  obtain ⟨hp1, hp16, halign, hel, _, _⟩ := binary_encoded_length_spec X list
  obtain ⟨hal, hab⟩ := hX.attrs_length list _ attrs henc
  have hnum : X.num_attrs list ≠ 0 := by
    intro e; simp [webauth_token_encoded_length, e] at hblen
  have hb : webauth_base64_encoded_length (binary_encoded_length X list).1 = some blen := by
    simpa [webauth_token_encoded_length, hnum] using hblen
  have hbpos : 0 < blen := by
    simp only [webauth_base64_encoded_length] at hb
    split at hb
    · have := Option.some.inj hb; omega
    · simp at hb
  have hmax : max_output_len ≠ 0 := by omega
  have hcapn : (binary_encoded_length X list).1 - (0 + T_HINT_S + T_NONCE_S + T_HMAC_S)
      - (binary_encoded_length X list).2 = X.webauth_attrs_encoded_length list := by
    simp only [T_offsets]; omega
  have hngt : ¬ (blen > max_output_len) := by omega
  have hE := webauth_base64_encode_ok
    ((cipherBuffer X key (plainBuffer X ebuff0 attrs (binary_encoded_length X list).2)
      (binary_encoded_length X list).1).bytes 0 (binary_encoded_length X list).1)
    max_output_len blen
    (cipherBuffer_bytes X key hX ebuff0 attrs _ _ (by omega))
    (by rw [Mem.bytes_length]; exact hb) hcap
  have hcreate : webauth_token_create X list max_output_len ring
      = (match webauth_base64_encode
            ((cipherBuffer X key (plainBuffer X ebuff0 attrs (binary_encoded_length X list).2)
              (binary_encoded_length X list).1).bytes 0 (binary_encoded_length X list).1)
            max_output_len with
        | none => none
        | some r => some ⟨r.ret, r.stores,
            (cipherBuffer X key (plainBuffer X ebuff0 attrs (binary_encoded_length X list).2)
              (binary_encoded_length X list).1).bytes 0 (binary_encoded_length X list).1,
            createCalls X list attrs⟩) := by
    simp only [webauth_token_create, hnum, hmax, or_self, if_false, hbest, hX.set_encrypt,
      ne_eq, not_true_eq_false, hb, hngt, hmalloc, hcapn, henc]
    rfl
  rw [hcreate, hE.1]

/-! ## The token engine -/

theorem toNat_sub_cast (a b : Nat) : ((a : Int) - (b : Int)).toNat = a - b := by omega

theorem size_t_of_int_sub_cast (a b : Nat) (h : b ≤ a) :
    size_t_of_int ((a : Int) - (b : Int)) = a - b := by
  unfold size_t_of_int
  rw [if_neg (by omega)]
  omega

theorem toNat_sub_cast2 (a b c : Nat) : ((a : Int) - (b : Int) - (c : Int)).toNat = a - b - c := by
  omega

/-- The part of `webauth_token_parse` that follows the decryption, on a
memory that holds from offset 4 on what `webauth_token_create` had in `ebuff`
before encrypting: the MAC verifies; a padding length of 16 is rejected as
`WA_ERR_CORRUPT`, a shorter one is accepted and the attributes are decoded. -/
theorem token_parse_verify_plain {A : Type} (X : Externals A) (key : WEBAUTH_KEY)
    (hX : Lawful X key) (list : A) (cap : Nat) (ebuff0 : Mem) (attrs : List Nat)
    (plen elen : Nat) (M : Mem) (input : Nat)
    (henc : X.webauth_attrs_encode list cap = .inr attrs)
    (helen : elen = 40 + attrs.length + plen) (hp1 : 1 ≤ plen) (hp16 : plen ≤ 16)
    (hM : ∀ x, 4 ≤ x → x < elen → M (input + x) = plainBuffer X ebuff0 attrs plen x) :
    token_parse_verify X M input elen
      = if plen = 16 then ⟨.err .CORRUPT, none, [.HMAC ((elen : Int) - T_ATTR_O)], M⟩
        else ⟨.len (X.num_attrs list), some list,
          [.HMAC ((elen : Int) - T_ATTR_O),
            .webauth_attrs_decode ((elen : Int) - T_ATTR_O - plen)], M⟩ := by
  have hnonce : M.bytes (input + T_NONCE_O) T_NONCE_S = temp_nonce := by
    have := Mem.bytes_eq_list M (input + 4) temp_nonce (by
      intro k hk
      have hk16 : k < 16 := by simpa [temp_nonce] using hk
      rw [Nat.add_assoc, hM (4 + k) (by omega) (by omega)]
      exact plainBuffer_nonce X ebuff0 attrs plen k hk16)
    simpa [T_offsets, temp_nonce] using this
  have hdata : M.bytes (input + T_ATTR_O) (size_t_of_int ((elen : Int) - T_ATTR_O))
      = (plainBuffer X ebuff0 attrs plen).bytes 40 (attrs.length + plen) := by
    rw [size_t_of_int_sub_cast _ _ (by simp only [T_offsets]; omega)]
    simp only [T_offsets]
    have e : elen - 40 = attrs.length + plen := by omega
    rw [e]
    apply Mem.bytes_eq_of_pointwise
    intro k hk
    rw [Nat.add_assoc]
    exact hM (40 + k) (by omega) (by omega)
  have htag : M.bytes (input + T_HMAC_O) T_HMAC_S
      = (plainBuffer X ebuff0 attrs plen).bytes 20 20 := by
    simp only [T_offsets]
    apply Mem.bytes_eq_of_pointwise
    intro k hk
    rw [Nat.add_assoc]
    exact hM (20 + k) (by omega) (by omega)
  have hmac : M.bytes (input + T_HMAC_O) T_HMAC_S
      = X.HMAC (M.bytes (input + T_NONCE_O) T_NONCE_S)
          (M.bytes (input + T_ATTR_O) (size_t_of_int ((elen : Int) - T_ATTR_O))) := by
    rw [htag, hnonce, hdata]
    exact plainBuffer_tag X ebuff0 attrs plen hX.hmac_length
  have hpadat : ∀ i, i < plen → M (input + (elen - 1 - i)) = plen := by
    intro i hi
    rw [hM (elen - 1 - i) (by omega) (by omega)]
    have e : elen - 1 - i = 40 + attrs.length + (plen - 1 - i) := by omega
    rw [e, plainBuffer_pad X ebuff0 attrs plen _ hX.hmac_length (by omega)]
    omega
  have hlast : M (input + (elen - 1)) = plen := by simpa using hpadat 0 (by omega)
  by_cases h16 : plen = 16
  · have hge : M (input + (elen - 1)) ≥ AES_BLOCK_SIZE ∨ M (input + (elen - 1)) > elen :=
      Or.inl (by rw [hlast, h16]; decide)
    simp only [token_parse_verify, hmac, ne_eq, not_true_eq_false, if_false, hge, if_true, h16]
  · have hlt : ¬ (plen ≥ AES_BLOCK_SIZE ∨ plen > elen) := by
      simp only [T_offsets]; omega
    have hpm : paddingMismatch M input elen plen = false := by
      simp only [paddingMismatch, List.any_eq_false, List.mem_range, decide_eq_true_eq,
        ne_eq, not_not]
      exact hpadat
    have hattrs : M.bytes (input + T_ATTR_O)
        ((elen : Int) - T_ATTR_O - (plen : Nat)).toNat = attrs := by
      rw [toNat_sub_cast2]
      simp only [T_offsets]
      have e : elen - 40 - plen = attrs.length := by omega
      rw [e]
      apply Mem.bytes_eq_list
      intro k hk
      rw [Nat.add_assoc, hM (40 + k) (by omega) (by omega)]
      exact plainBuffer_attrs X ebuff0 attrs plen k hX.hmac_length hk
    simp only [token_parse_verify, hmac, ne_eq, not_true_eq_false, if_false, hlast, hlt, hpm,
      hattrs, hX.attrs_inverse list cap attrs henc, h16, Bool.false_eq_true]


/-- The run of `webauth_token_parse` on the base64 text of the encrypted buffer that
`webauth_token_create` builds, with the creating key first in the ring:
`WA_ERR_CORRUPT` when the padding is a full block, else the attribute list. -/
theorem webauth_token_parse_created {A : Type} (X : Externals A) (key : WEBAUTH_KEY)
    (hX : Lawful X key) (list : A) (cap : Nat) (ebuff0 : Mem) (attrs : List Nat)
    (plen elen : Nat) (ring : WEBAUTH_KEY_RING) (entry0 : WEBAUTH_KEY_RING_ENTRY)
    (rest : List WEBAUTH_KEY_RING_ENTRY) (mem : Mem) (input : Nat)
    (henc : X.webauth_attrs_encode list cap = .inr attrs)
    (helen : elen = 40 + attrs.length + plen) (hp1 : 1 ≤ plen) (hp16 : plen ≤ 16)
    (halign : (elen - 4) % 16 = 0)
    (hring : ring.entries = entry0 :: rest) (hk0 : entry0.key = key)
    (hin : mem.bytes input
        (rfc4648_encode ((cipherBuffer X key (plainBuffer X ebuff0 attrs plen) elen).bytes
          0 elen)).length
      = rfc4648_encode ((cipherBuffer X key (plainBuffer X ebuff0 attrs plen) elen).bytes
          0 elen)) :
    ∃ M : Mem, webauth_token_parse X mem input
        (rfc4648_encode ((cipherBuffer X key (plainBuffer X ebuff0 attrs plen) elen).bytes
          0 elen)).length ring
      = some (if plen = 16 then
          ⟨.err .CORRUPT, none,
            [.AES_set_decrypt_key (key.length * 8), .AES_cbc_encrypt ((elen : Int) - T_HINT_S),
              .HMAC ((elen : Int) - T_ATTR_O)], M⟩
        else
          ⟨.len (X.num_attrs list), some list,
            [.AES_set_decrypt_key (key.length * 8), .AES_cbc_encrypt ((elen : Int) - T_HINT_S),
              .HMAC ((elen : Int) - T_ATTR_O),
              .webauth_attrs_decode ((elen : Int) - T_ATTR_O - plen)], M⟩) := by
  subst hk0
  obtain ⟨_, hab⟩ := hX.attrs_length list cap attrs henc
  have hElen : ((cipherBuffer X entry0.key (plainBuffer X ebuff0 attrs plen) elen).bytes
      0 elen).length = elen := Mem.bytes_length _ _ _
  have hne : (cipherBuffer X entry0.key (plainBuffer X ebuff0 attrs plen) elen).bytes 0 elen
      ≠ [] := by
    intro e
    rw [e] at hElen
    simp only [List.length_nil] at hElen
    omega
  obtain ⟨d, hd, hret, hbytes, _⟩ := webauth_base64_decode_rfc _ mem input input
    (rfc4648_encode ((cipherBuffer X entry0.key (plainBuffer X ebuff0 attrs plen) elen).bytes
      0 elen)).length
    hne (cipherBuffer_bytes X entry0.key hX ebuff0 attrs plen elen (by omega))
    (by rw [rfc4648_encode_length]; omega) hin (Or.inl rfl)
  rw [hElen] at hret hbytes
  -- the bytes that are decrypted
  have hPl : ((plainBuffer X ebuff0 attrs plen).bytes 4 (elen - 4)).length = elen - 4 :=
    Mem.bytes_length _ _ _
  have hcl := hX.cbc_length true ((plainBuffer X ebuff0 attrs plen).bytes 4 (elen - 4))
  rw [hPl] at hcl
  have hC : d.mem.bytes (input + T_NONCE_O) (size_t_of_int ((elen : Int) - T_HINT_S))
      = X.AES_cbc_encrypt entry0.key.data (entry0.key.length * 8) aes_ivec true
          ((plainBuffer X ebuff0 attrs plen).bytes 4 (elen - 4)) := by
    rw [size_t_of_int_sub_cast _ _ (by simp only [T_offsets]; omega)]
    simp only [T_offsets]
    have h1 := Mem.bytes_sub _ _ input 0 elen 4 (elen - 4) hbytes (by omega)
    rw [h1, Nat.zero_add]
    unfold cipherBuffer
    have h2 := Mem.bytes_place (plainBuffer X ebuff0 attrs plen) 4
      (X.AES_cbc_encrypt entry0.key.data (entry0.key.length * 8) aes_ivec true
        ((plainBuffer X ebuff0 attrs plen).bytes 4 (elen - 4)))
    rw [hcl] at h2
    exact h2
  have hinv := hX.cbc_inverse ((plainBuffer X ebuff0 attrs plen).bytes 4 (elen - 4))
    (by rw [hPl]; simp only [T_offsets]; exact halign)
    (by
      intro b hb
      obtain ⟨k, hk, rfl⟩ := Mem.mem_bytes _ _ _ _ hb
      exact plainBuffer_bytes X entry0.key hX ebuff0 attrs plen hab (4 + k) (by omega)
        (by omega))
  have hM : ∀ x, 4 ≤ x → x < elen →
      token_parse_decrypt X entry0.key d.mem input elen (input + x)
        = plainBuffer X ebuff0 attrs plen x := by
    intro x h4 hx
    unfold token_parse_decrypt
    rw [hC, hinv]
    simp only [T_offsets]
    have e : input + x = input + 4 + (x - 4) := by omega
    rw [e, Mem.place_at _ _ _ _ (by rw [hPl]; omega), Mem.bytes_getD _ _ _ _ (by omega)]
    congr 1
    omega
  have hv := token_parse_verify_plain X entry0.key hX list cap ebuff0 attrs plen elen
    (token_parse_decrypt X entry0.key d.mem input elen) input henc helen hp1 hp16 hM
  refine ⟨token_parse_decrypt X entry0.key d.mem input elen, ?_⟩
  simp only [webauth_token_parse, hX.key_nonnull, Bool.false_eq_true, hring, hX.set_decrypt,
    ne_eq, not_true_eq_false, if_false, hd, hret, hv]
  split_ifs <;> rfl


/-- A token created and then parsed with the same ring, the creating key
being the key of ring entry 0: creation returns the base64 length, and
parsing the text it stored returns `WA_ERR_CORRUPT` when the padding is a
full block and the attribute list otherwise. -/
theorem token_create_then_parse {A : Type} (X : Externals A) (key : WEBAUTH_KEY)
    (hX : Lawful X key) (list : A) (attrs : List Nat) (ring : WEBAUTH_KEY_RING)
    (entry0 : WEBAUTH_KEY_RING_ENTRY) (rest : List WEBAUTH_KEY_RING_ENTRY) (ebuff0 : Mem)
    (blen max_output_len : Nat) (mem : Mem) (input : Nat)
    (hring : ring.entries = entry0 :: rest) (hk0 : entry0.key = key)
    (hbest : X.webauth_key_ring_best_encryption_key ring = some key)
    (hmalloc : X.malloc (binary_encoded_length X list).1 = some ebuff0)
    (henc : X.webauth_attrs_encode list (X.webauth_attrs_encoded_length list) = .inr attrs)
    (hblen : webauth_token_encoded_length X list = some blen)
    (hcap : blen ≤ max_output_len) :
    ∃ (c : CreateRun) (p : ParseRun A),
      webauth_token_create X list max_output_len ring = some c ∧ c.ret = .len blen ∧
      webauth_token_parse X (writeStores input mem c.stores) input blen ring = some p ∧
      ((binary_encoded_length X list).2 = 16 → p.ret = .err .CORRUPT ∧ p.list = none) ∧
      ((binary_encoded_length X list).2 ≠ 16 →
        p.ret = .len (X.num_attrs list) ∧ p.list = some list) := by
  obtain ⟨hp1, hp16, halign, hel, _, _⟩ := binary_encoded_length_spec X list
  obtain ⟨hal, _⟩ := hX.attrs_length list _ attrs henc
  have hc := webauth_token_create_ok X key hX list attrs ring ebuff0 blen max_output_len
    hbest hmalloc henc hblen hcap
  have hnum : X.num_attrs list ≠ 0 := by
    intro e; simp [webauth_token_encoded_length, e] at hblen
  have hb : webauth_base64_encoded_length (binary_encoded_length X list).1 = some blen := by
    simpa [webauth_token_encoded_length, hnum] using hblen
  have hbl : (rfc4648_encode ((cipherBuffer X key
      (plainBuffer X ebuff0 attrs (binary_encoded_length X list).2)
      (binary_encoded_length X list).1).bytes 0 (binary_encoded_length X list).1)).length
      = blen := by
    rw [rfc4648_encode_length, Mem.bytes_length]
    simp only [webauth_base64_encoded_length] at hb
    split at hb
    · exact Option.some.inj hb
    · simp at hb
  have hin := writeStores_bytes input (rfc4648_encode ((cipherBuffer X key
      (plainBuffer X ebuff0 attrs (binary_encoded_length X list).2)
      (binary_encoded_length X list).1).bytes 0 (binary_encoded_length X list).1)) mem 0
  rw [Nat.add_zero] at hin
  obtain ⟨M, hparse⟩ := webauth_token_parse_created X key hX list _ ebuff0 attrs
    (binary_encoded_length X list).2 (binary_encoded_length X list).1 ring entry0 rest
    _ input henc (by omega) hp1 hp16 (by omega) hring hk0 hin
  rw [hbl] at hparse
  refine ⟨_, _, hc, rfl, hparse, ?_, ?_⟩
  · intro h16
    simp only [h16, if_true, and_self]
  · intro h16
    simp only [h16, if_false, and_self]

/-- C1. A token that `webauth_token_create` builds for an attribute list whose
encoded length plus 36 is a multiple of 16 does not come back: creation
succeeds, and `webauth_token_parse` of the created text with the same ring
returns `WA_ERR_CORRUPT` and no list. -/
theorem token_roundtrip_fails_on_full_block {A : Type} (X : Externals A) (key : WEBAUTH_KEY)
    (hX : Lawful X key) (list : A) (attrs : List Nat) (ring : WEBAUTH_KEY_RING)
    (entry0 : WEBAUTH_KEY_RING_ENTRY) (rest : List WEBAUTH_KEY_RING_ENTRY) (ebuff0 : Mem)
    (blen max_output_len : Nat) (mem : Mem) (input : Nat)
    (hring : ring.entries = entry0 :: rest) (hk0 : entry0.key = key)
    (hbest : X.webauth_key_ring_best_encryption_key ring = some key)
    (hmalloc : X.malloc (binary_encoded_length X list).1 = some ebuff0)
    (henc : X.webauth_attrs_encode list (X.webauth_attrs_encoded_length list) = .inr attrs)
    (hblen : webauth_token_encoded_length X list = some blen)
    (hcap : blen ≤ max_output_len)
    (hfull : (X.webauth_attrs_encoded_length list + 36) % 16 = 0) :
    ∃ (c : CreateRun) (p : ParseRun A),
      webauth_token_create X list max_output_len ring = some c ∧ c.ret = .len blen ∧
      webauth_token_parse X (writeStores input mem c.stores) input blen ring = some p ∧
      p.ret = .err .CORRUPT ∧ p.list = none := by
  obtain ⟨c, p, h1, h2, h3, h4, _⟩ := token_create_then_parse X key hX list attrs ring entry0
    rest ebuff0 blen max_output_len mem input hring hk0 hbest hmalloc henc hblen hcap
  obtain ⟨_, _, _, _, h16, _⟩ := binary_encoded_length_spec X list
  exact ⟨c, p, h1, h2, h3, h4 (h16 hfull)⟩

/-- The round trip of a token whose padding is shorter than a block: when the
encoded length of the attribute list plus 36 is not a multiple of 16 and the
creating key is the key of ring entry 0, `webauth_token_parse` of the text
that `webauth_token_create` stored returns the number of attributes and the
original list. -/
theorem token_roundtrip_short_padding {A : Type} (X : Externals A) (key : WEBAUTH_KEY)
    (hX : Lawful X key) (list : A) (attrs : List Nat) (ring : WEBAUTH_KEY_RING)
    (entry0 : WEBAUTH_KEY_RING_ENTRY) (rest : List WEBAUTH_KEY_RING_ENTRY) (ebuff0 : Mem)
    (blen max_output_len : Nat) (mem : Mem) (input : Nat)
    (hring : ring.entries = entry0 :: rest) (hk0 : entry0.key = key)
    (hbest : X.webauth_key_ring_best_encryption_key ring = some key)
    (hmalloc : X.malloc (binary_encoded_length X list).1 = some ebuff0)
    (henc : X.webauth_attrs_encode list (X.webauth_attrs_encoded_length list) = .inr attrs)
    (hblen : webauth_token_encoded_length X list = some blen)
    (hcap : blen ≤ max_output_len)
    (hshort : (X.webauth_attrs_encoded_length list + 36) % 16 ≠ 0) :
    ∃ (c : CreateRun) (p : ParseRun A),
      webauth_token_create X list max_output_len ring = some c ∧ c.ret = .len blen ∧
      webauth_token_parse X (writeStores input mem c.stores) input blen ring = some p ∧
      p.ret = .len (X.num_attrs list) ∧ p.list = some list := by
  obtain ⟨c, p, h1, h2, h3, _, h5⟩ := token_create_then_parse X key hX list attrs ring entry0
    rest ebuff0 blen max_output_len mem input hring hk0 hbest hmalloc henc hblen hcap
  obtain ⟨_, _, _, _, _, hlt⟩ := binary_encoded_length_spec X list
  exact ⟨c, p, h1, h2, h3, h5 (by have := hlt hshort; omega)⟩

/-- C2. On a decrypted buffer whose MAC verifies and whose last 16 bytes all
equal 16, the part of `webauth_token_parse` that follows the decryption
returns `WA_ERR_CORRUPT` and does not call the attribute decoder. -/
theorem full_block_padding_rejected {A : Type} (X : Externals A) (mem : Mem)
    (input elen : Nat)
    (hmac : mem.bytes (input + T_HMAC_O) T_HMAC_S
      = X.HMAC (mem.bytes (input + T_NONCE_O) T_NONCE_S)
          (mem.bytes (input + T_ATTR_O) (size_t_of_int ((elen : Int) - T_ATTR_O))))
    (hpad : ∀ i, i < 16 → mem (input + (elen - 1 - i)) = 16) :
    (token_parse_verify X mem input elen).ret = .err .CORRUPT ∧
    (token_parse_verify X mem input elen).list = none ∧
    (token_parse_verify X mem input elen).calls = [.HMAC ((elen : Int) - T_ATTR_O)] := by
  have hlast : mem (input + (elen - 1)) = 16 := by simpa using hpad 0 (by omega)
  have hge : mem (input + (elen - 1)) ≥ AES_BLOCK_SIZE ∨ mem (input + (elen - 1)) > elen :=
    Or.inl (by rw [hlast]; decide)
  simp only [token_parse_verify, hmac, ne_eq, not_true_eq_false, if_false, hge, if_true,
    and_self]

/-- The buffer that `webauth_token_create` hands to the base64 encoder is
empty (the run ended before) or has `binary_encoded_length` bytes. -/
theorem webauth_token_create_ebuff {A : Type} (X : Externals A) (list : A)
    (max_output_len : Nat) (ring : WEBAUTH_KEY_RING) (c : CreateRun)
    (h : webauth_token_create X list max_output_len ring = some c) :
    c.ebuff = [] ∨ c.ebuff.length = (binary_encoded_length X list).1 := by
  unfold webauth_token_create at h
  split at h
  · simp at h
  split at h
  · simp only [Option.some.injEq] at h; subst h; exact Or.inl rfl
  split at h
  · simp only [Option.some.injEq] at h; subst h; exact Or.inl rfl
  simp only at h
  split at h
  · simp at h
  split at h
  · simp only [Option.some.injEq] at h; subst h; exact Or.inl rfl
  split at h
  · simp only [Option.some.injEq] at h; subst h; exact Or.inl rfl
  split at h
  · simp only [Option.some.injEq] at h; subst h; exact Or.inl rfl
  split at h
  · simp at h
  · simp only [Option.some.injEq] at h; subst h
    exact Or.inr (Mem.bytes_length _ _ _)

/-! ## Padding validation and key-ring exhaustion -/

/-- C11. On a decrypted buffer whose MAC verifies, with final byte `p`, the
part of `webauth_token_parse` that follows the decryption returns
`WA_ERR_CORRUPT` when `p` exceeds 16 and when `p` exceeds the buffer length
`elen`; when `p` is zero it does not reject the buffer: it calls the
attribute decoder on all `elen - 40` bytes from offset 40 and returns what the
decoder returns. -/
theorem padding_length_check {A : Type} (X : Externals A) (mem : Mem) (input elen : Nat)
    (hmac : mem.bytes (input + T_HMAC_O) T_HMAC_S
      = X.HMAC (mem.bytes (input + T_NONCE_O) T_NONCE_S)
          (mem.bytes (input + T_ATTR_O) (size_t_of_int ((elen : Int) - T_ATTR_O)))) :
    (AES_BLOCK_SIZE < mem (input + (elen - 1)) →
      (token_parse_verify X mem input elen).ret = .err .CORRUPT) ∧
    (elen < mem (input + (elen - 1)) →
      (token_parse_verify X mem input elen).ret = .err .CORRUPT) ∧
    (mem (input + (elen - 1)) = 0 →
      (token_parse_verify X mem input elen).ret
        = (X.webauth_attrs_decode
            (mem.bytes (input + T_ATTR_O) ((elen : Int) - T_ATTR_O).toNat)).1 ∧
      (token_parse_verify X mem input elen).calls
        = [.HMAC ((elen : Int) - T_ATTR_O), .webauth_attrs_decode ((elen : Int) - T_ATTR_O)]) := by
  refine ⟨?_, ?_, ?_⟩
  · intro h
    have hge : mem (input + (elen - 1)) ≥ AES_BLOCK_SIZE ∨ mem (input + (elen - 1)) > elen :=
      Or.inl (by omega)
    simp only [token_parse_verify, hmac, ne_eq, not_true_eq_false, if_false, hge, if_true]
  · intro h
    have hge : mem (input + (elen - 1)) ≥ AES_BLOCK_SIZE ∨ mem (input + (elen - 1)) > elen :=
      Or.inr h
    simp only [token_parse_verify, hmac, ne_eq, not_true_eq_false, if_false, hge, if_true]
  · intro h0
    have hlt : ¬ ((0 : Nat) ≥ AES_BLOCK_SIZE ∨ (0 : Nat) > elen) := by
      simp only [T_offsets]; omega
    have hpm : paddingMismatch mem input elen 0 = false := by
      simp [paddingMismatch]
    simp only [token_parse_verify, hmac, ne_eq, not_true_eq_false, if_false, h0, hlt, hpm,
      Bool.false_eq_true, Nat.cast_zero, sub_zero, and_self]

/-- C12. On a decrypted buffer whose MAC verifies, with final byte `p`: when
`1 <= p <= 15` and `p <= elen`, the part of `webauth_token_parse` that follows
the decryption returns `WA_ERR_CORRUPT` if one of the last `p` bytes differs
from `p`, and otherwise returns what the attribute decoder returns on exactly
the `elen - 40 - p` bytes from offset 40; when `p` is 16 and the last 16
bytes all equal 16 it returns `WA_ERR_CORRUPT` and does not call the decoder. -/
theorem padding_content_check {A : Type} (X : Externals A) (mem : Mem) (input elen : Nat)
    (hmac : mem.bytes (input + T_HMAC_O) T_HMAC_S
      = X.HMAC (mem.bytes (input + T_NONCE_O) T_NONCE_S)
          (mem.bytes (input + T_ATTR_O) (size_t_of_int ((elen : Int) - T_ATTR_O)))) :
    (1 ≤ mem (input + (elen - 1)) → mem (input + (elen - 1)) < AES_BLOCK_SIZE →
      mem (input + (elen - 1)) ≤ elen →
      ((∃ i, i < mem (input + (elen - 1)) ∧
          mem (input + (elen - 1 - i)) ≠ mem (input + (elen - 1))) →
        (token_parse_verify X mem input elen).ret = .err .CORRUPT ∧
        (token_parse_verify X mem input elen).calls = [.HMAC ((elen : Int) - T_ATTR_O)]) ∧
      ((∀ i, i < mem (input + (elen - 1)) →
          mem (input + (elen - 1 - i)) = mem (input + (elen - 1))) →
        (token_parse_verify X mem input elen).ret
          = (X.webauth_attrs_decode (mem.bytes (input + T_ATTR_O)
              ((elen : Int) - T_ATTR_O - (mem (input + (elen - 1)) : Nat)).toNat)).1 ∧
        (token_parse_verify X mem input elen).list
          = (X.webauth_attrs_decode (mem.bytes (input + T_ATTR_O)
              ((elen : Int) - T_ATTR_O - (mem (input + (elen - 1)) : Nat)).toNat)).2 ∧
        (token_parse_verify X mem input elen).calls
          = [.HMAC ((elen : Int) - T_ATTR_O),
              .webauth_attrs_decode
                ((elen : Int) - T_ATTR_O - (mem (input + (elen - 1)) : Nat))])) ∧
    (mem (input + (elen - 1)) = AES_BLOCK_SIZE →
      (∀ i, i < AES_BLOCK_SIZE → mem (input + (elen - 1 - i)) = AES_BLOCK_SIZE) →
      (token_parse_verify X mem input elen).ret = .err .CORRUPT ∧
      (token_parse_verify X mem input elen).calls = [.HMAC ((elen : Int) - T_ATTR_O)]) := by
  refine ⟨?_, ?_⟩
  · intro h1 h16 hle
    have hlt : ¬ (mem (input + (elen - 1)) ≥ AES_BLOCK_SIZE ∨ mem (input + (elen - 1)) > elen) := by
      omega
    refine ⟨?_, ?_⟩
    · intro hbad
      have hpm : paddingMismatch mem input elen (mem (input + (elen - 1))) = true := by
        simp only [paddingMismatch, List.any_eq_true, List.mem_range, decide_eq_true_eq]
        exact hbad
      simp only [token_parse_verify, hmac, ne_eq, not_true_eq_false, if_false, hlt, hpm,
        if_true, and_self]
    · intro hgood
      have hpm : paddingMismatch mem input elen (mem (input + (elen - 1))) = false := by
        simp only [paddingMismatch, List.any_eq_false, List.mem_range, decide_eq_true_eq,
          ne_eq, not_not]
        exact hgood
      simp only [token_parse_verify, hmac, ne_eq, not_true_eq_false, if_false, hlt, hpm,
        Bool.false_eq_true, and_self]
  · intro h16 _
    have hge : mem (input + (elen - 1)) ≥ AES_BLOCK_SIZE ∨ mem (input + (elen - 1)) > elen :=
      Or.inl (by omega)
    simp only [token_parse_verify, hmac, ne_eq, not_true_eq_false, if_false, hge, if_true,
      and_self]

/-- C14. With a ring of zero entries `webauth_token_parse` returns
`WA_ERR_BAD_KEY`, calls nothing and leaves the memory, the input buffer
included, as it was, provided its opening `assert (key != NULL)` passes; the
assertion reads the local `key` before anything is assigned to it, and when
the value found there is `NULL` the function aborts and returns nothing.
`webauth_token_create`, for a non-empty list and a non-zero `max_output_len`,
returns `WA_ERR_BAD_KEY`, stores nothing to the output and calls neither
`HMAC` nor `AES_cbc_encrypt` when the ring yields no encryption key and when
the AES key setup returns non-zero. -/
theorem key_ring_exhaustion {A : Type} (X : Externals A) :
    (∀ (mem : Mem) (input input_len : Nat) (ring : WEBAUTH_KEY_RING),
      ring.entries.length = 0 →
      (X.uninitialized_key_null = false →
        ∃ p, webauth_token_parse X mem input input_len ring = some p ∧
          p.ret = .err .BAD_KEY ∧ p.list = none ∧ p.calls = [] ∧ p.mem = mem) ∧
      (X.uninitialized_key_null = true →
        webauth_token_parse X mem input input_len ring = none)) ∧
    (∀ (list : A) (max_output_len : Nat) (ring : WEBAUTH_KEY_RING),
      X.num_attrs list ≠ 0 → max_output_len ≠ 0 →
      (X.webauth_key_ring_best_encryption_key ring = none ∨
        ∃ key, X.webauth_key_ring_best_encryption_key ring = some key ∧
          X.AES_set_encrypt_key key.data (key.length * 8) ≠ 0) →
      webauth_token_create X list max_output_len ring = some ⟨.err .BAD_KEY, [], [], []⟩) := by
  refine ⟨?_, ?_⟩
  · intro mem input input_len ring h
    have he : ring.entries = [] := List.length_eq_zero.mp h
    refine ⟨?_, ?_⟩
    · intro hk
      exact ⟨⟨.err .BAD_KEY, none, [], mem⟩,
        by simp only [webauth_token_parse, hk, Bool.false_eq_true, if_false, he], rfl, rfl,
        rfl, rfl⟩
    · intro hk
      simp only [webauth_token_parse, hk, if_true]
  · intro list max_output_len ring hn hm h
    rcases h with h | ⟨key, h, hk⟩
    · simp only [webauth_token_create, hn, hm, or_self, if_false, h]
    · simp only [webauth_token_create, hn, hm, or_self, if_false, h, hk, ne_eq,
        not_false_eq_true, if_true]

/-! ## Capacity, layout and determinism of token creation -/

/-- With room for the whole encoding the loop of the encoder returns the
encoded length, whatever the input holds. -/
theorem encodeLoop_ret (output_max : Nat) : ∀ (input : List Nat) (out_len : Nat),
    out_len + (input.length + 2) / 3 * 4 ≤ output_max →
    (encodeLoop output_max input out_len).ret = .len (out_len + (input.length + 2) / 3 * 4)
  | [], out_len, _ => by simp [encodeLoop]
  | [a], out_len, h => by
    simp only [List.length_cons, List.length_nil] at h
    have n1 : out_len ≠ output_max := by omega
    have n2 : out_len + 1 ≠ output_max := by omega
    simp only [encodeLoop, n1, n2, if_false, EncRun.after, List.length_cons, List.length_nil]
  | [a, b], out_len, h => by
    simp only [List.length_cons, List.length_nil] at h
    have n1 : out_len ≠ output_max := by omega
    have n2 : out_len + 1 ≠ output_max := by omega
    have n3 : out_len + 2 ≠ output_max := by omega
    simp only [encodeLoop, n1, n2, n3, if_false, EncRun.after, List.length_cons,
      List.length_nil]
  | a :: b :: c :: rest, out_len, h => by
    simp only [List.length_cons] at h
    have ih := encodeLoop_ret output_max rest (out_len + 4) (by omega)
    have n1 : out_len ≠ output_max := by omega
    have n2 : out_len + 1 ≠ output_max := by omega
    have n3 : out_len + 2 ≠ output_max := by omega
    have n4 : out_len + 3 ≠ output_max := by omega
    simp only [encodeLoop, n1, n2, n3, n4, if_false, EncRun.after, ih, List.length_cons]
    congr 1
    omega

/-- The run of `webauth_token_create` up to the call of the base64 encoder,
when the key is found and sets up, the output has room, `malloc` succeeds and
the attributes encode. -/
theorem webauth_token_create_eq {A : Type} (X : Externals A) (key : WEBAUTH_KEY)
    (list : A) (attrs : List Nat) (ring : WEBAUTH_KEY_RING)
    (ebuff0 : Mem) (blen max_output_len : Nat)
    (hbest : X.webauth_key_ring_best_encryption_key ring = some key)
    (hset : X.AES_set_encrypt_key key.data (key.length * 8) = 0)
    (hmalloc : X.malloc (binary_encoded_length X list).1 = some ebuff0)
    (henc : X.webauth_attrs_encode list (X.webauth_attrs_encoded_length list) = .inr attrs)
    (hblen : webauth_token_encoded_length X list = some blen)
    (hcap : blen ≤ max_output_len) :
    webauth_token_create X list max_output_len ring
      = (match webauth_base64_encode
            ((cipherBuffer X key (plainBuffer X ebuff0 attrs (binary_encoded_length X list).2)
              (binary_encoded_length X list).1).bytes 0 (binary_encoded_length X list).1)
            max_output_len with
        | none => none
        | some r => some ⟨r.ret, r.stores,
            (cipherBuffer X key (plainBuffer X ebuff0 attrs (binary_encoded_length X list).2)
              (binary_encoded_length X list).1).bytes 0 (binary_encoded_length X list).1,
            createCalls X list attrs⟩) := by
  obtain ⟨hp1, hp16, halign, hel, _, _⟩ := binary_encoded_length_spec X list
  have hnum : X.num_attrs list ≠ 0 := by
    intro e; simp [webauth_token_encoded_length, e] at hblen
  have hb : webauth_base64_encoded_length (binary_encoded_length X list).1 = some blen := by
    simpa [webauth_token_encoded_length, hnum] using hblen
  have hbpos : 0 < blen := by
    simp only [webauth_base64_encoded_length] at hb
    split at hb
    · have := Option.some.inj hb; omega
    · simp at hb
  have hmax : max_output_len ≠ 0 := by omega
  have hcapn : (binary_encoded_length X list).1 - (0 + T_HINT_S + T_NONCE_S + T_HMAC_S)
      - (binary_encoded_length X list).2 = X.webauth_attrs_encoded_length list := by
    simp only [T_offsets]; omega
  have hngt : ¬ (blen > max_output_len) := by omega
  simp only [webauth_token_create, hnum, hmax, or_self, if_false, hbest, hset,
    ne_eq, not_true_eq_false, hb, hngt, hmalloc, hcapn, henc]
  rfl

/-- The value `webauth_token_create` returns and the buffer it encodes, when
the key is found and sets up, the output has room, `malloc` succeeds and the
attributes encode. -/
theorem webauth_token_create_ret {A : Type} (X : Externals A) (key : WEBAUTH_KEY)
    (list : A) (attrs : List Nat) (ring : WEBAUTH_KEY_RING)
    (ebuff0 : Mem) (blen max_output_len : Nat)
    (hbest : X.webauth_key_ring_best_encryption_key ring = some key)
    (hset : X.AES_set_encrypt_key key.data (key.length * 8) = 0)
    (hmalloc : X.malloc (binary_encoded_length X list).1 = some ebuff0)
    (henc : X.webauth_attrs_encode list (X.webauth_attrs_encoded_length list) = .inr attrs)
    (hblen : webauth_token_encoded_length X list = some blen)
    (hcap : blen ≤ max_output_len) :
    ∃ c, webauth_token_create X list max_output_len ring = some c ∧ c.ret = .len blen ∧
      c.ebuff = (cipherBuffer X key
        (plainBuffer X ebuff0 attrs (binary_encoded_length X list).2)
        (binary_encoded_length X list).1).bytes 0 (binary_encoded_length X list).1 := by
  have hc := webauth_token_create_eq X key list attrs ring ebuff0 blen max_output_len hbest
    hset hmalloc henc hblen hcap
  have hnum : X.num_attrs list ≠ 0 := by
    intro e; simp [webauth_token_encoded_length, e] at hblen
  have hb : webauth_base64_encoded_length (binary_encoded_length X list).1 = some blen := by
    simpa [webauth_token_encoded_length, hnum] using hblen
  have hpos : 0 < (binary_encoded_length X list).1 ∧
      ((binary_encoded_length X list).1 + 2) / 3 * 4 = blen := by
    simp only [webauth_base64_encoded_length] at hb
    split at hb
    · rename_i hp; exact ⟨hp, Option.some.inj hb⟩
    · simp at hb
  have hr := encodeLoop_ret max_output_len
    ((cipherBuffer X key (plainBuffer X ebuff0 attrs (binary_encoded_length X list).2)
      (binary_encoded_length X list).1).bytes 0 (binary_encoded_length X list).1) 0
    (by rw [Mem.bytes_length]; omega)
  rw [Mem.bytes_length, Nat.zero_add, hpos.2] at hr
  have hl : ((cipherBuffer X key (plainBuffer X ebuff0 attrs (binary_encoded_length X list).2)
      (binary_encoded_length X list).1).bytes 0 (binary_encoded_length X list).1).length > 0 := by
    rw [Mem.bytes_length]; exact hpos.1
  simp only [webauth_base64_encode, hl, if_true] at hc
  exact ⟨_, hc, hr, rfl⟩

/-- C13. For a non-empty attribute list and a ring whose best encryption key
sets up, with `blen = webauth_token_encoded_length(list)`:
`webauth_token_create` returns `WA_ERR_NO_ROOM`, storing nothing, when
`max_output_len = blen - 1`, and returns exactly `blen` when
`max_output_len = blen` (given that `malloc` and the attribute encoder
succeed): the inner base64 encoder does not report `WA_ERR_NO_ROOM`. -/
theorem create_capacity_boundary {A : Type} (X : Externals A) (key : WEBAUTH_KEY)
    (list : A) (ring : WEBAUTH_KEY_RING) (blen : Nat)
    (hbest : X.webauth_key_ring_best_encryption_key ring = some key)
    (hset : X.AES_set_encrypt_key key.data (key.length * 8) = 0)
    (hblen : webauth_token_encoded_length X list = some blen) :
    webauth_token_create X list (blen - 1) ring = some ⟨.err .NO_ROOM, [], [], []⟩ ∧
    ∀ (ebuff0 : Mem) (attrs : List Nat),
      X.malloc (binary_encoded_length X list).1 = some ebuff0 →
      X.webauth_attrs_encode list (X.webauth_attrs_encoded_length list) = .inr attrs →
      ∃ c, webauth_token_create X list blen ring = some c ∧ c.ret = .len blen := by
  obtain ⟨hp1, hp16, halign, hel, _, _⟩ := binary_encoded_length_spec X list
  have hnum : X.num_attrs list ≠ 0 := by
    intro e; simp [webauth_token_encoded_length, e] at hblen
  have hb : webauth_base64_encoded_length (binary_encoded_length X list).1 = some blen := by
    simpa [webauth_token_encoded_length, hnum] using hblen
  have hbig : 4 ≤ blen := by
    simp only [webauth_base64_encoded_length] at hb
    split at hb
    · have := Option.some.inj hb; omega
    · simp at hb
  refine ⟨?_, ?_⟩
  · have hm : blen - 1 ≠ 0 := by omega
    have hgt : blen > blen - 1 := by omega
    simp only [webauth_token_create, hnum, hm, or_self, if_false, hbest, hset, ne_eq,
      not_true_eq_false, hb, hgt, if_true]
  · intro ebuff0 attrs hmalloc henc
    obtain ⟨c, hc, hr, _⟩ := webauth_token_create_ret X key list attrs ring ebuff0 blen blen
      hbest hset hmalloc henc hblen (le_refl _)
    exact ⟨c, hc, hr⟩


theorem Mem.bytes_append (m : Mem) : ∀ (n1 a n2 : Nat),
    m.bytes a (n1 + n2) = m.bytes a n1 ++ m.bytes (a + n1) n2
  | 0, a, n2 => by simp [Mem.bytes]
  | n + 1, a, n2 => by
    have e : n + 1 + n2 = (n + n2) + 1 := by omega
    rw [e, Mem.bytes_succ, Mem.bytes_succ, Mem.bytes_append m n (a + 1) n2]
    have e2 : a + 1 + n = a + (n + 1) := by omega
    rw [e2]
    rfl

/-- The plain buffer from the nonce on: nonce, tag, payload, padding, the tag
being the HMAC of payload and padding keyed with the nonce. -/
theorem plainBuffer_layout {A : Type} (X : Externals A) (ebuff0 : Mem) (attrs : List Nat)
    (plen : Nat) (hlen : ∀ k d, (X.HMAC k d).length = SHA_DIGEST_LENGTH) (hp : plen ≤ 16) :
    (plainBuffer X ebuff0 attrs plen).bytes 0 4 = htonl_bytes X.time ∧
    (plainBuffer X ebuff0 attrs plen).bytes 4 (36 + attrs.length + plen)
      = temp_nonce ++ X.HMAC temp_nonce (attrs ++ List.replicate plen plen) ++ attrs
          ++ List.replicate plen plen := by
  have hhint : (plainBuffer X ebuff0 attrs plen).bytes 0 4 = htonl_bytes X.time := by
    have := Mem.bytes_eq_list (plainBuffer X ebuff0 attrs plen) 0 (htonl_bytes X.time) (by
      intro k hk
      rw [Nat.zero_add]
      exact plainBuffer_hint X ebuff0 attrs plen k (by simpa [htonl_bytes] using hk))
    simpa [htonl_bytes] using this
  have hnonce : (plainBuffer X ebuff0 attrs plen).bytes 4 16 = temp_nonce := by
    have := Mem.bytes_eq_list (plainBuffer X ebuff0 attrs plen) 4 temp_nonce (by
      intro k hk
      exact plainBuffer_nonce X ebuff0 attrs plen k (by simpa [temp_nonce] using hk))
    simpa [temp_nonce] using this
  have hattrs : (plainBuffer X ebuff0 attrs plen).bytes 40 attrs.length = attrs :=
    Mem.bytes_eq_list _ 40 attrs (fun k hk => plainBuffer_attrs X ebuff0 attrs plen k hlen hk)
  have hpad : (plainBuffer X ebuff0 attrs plen).bytes (40 + attrs.length) plen
      = List.replicate plen plen := by
    have := Mem.bytes_eq_list (plainBuffer X ebuff0 attrs plen) (40 + attrs.length)
      (List.replicate plen plen) (by
        intro k hk
        have hk2 : k < plen := by simpa using hk
        rw [plainBuffer_pad X ebuff0 attrs plen k hlen hk2]
        simp only [List.getD_eq_getElem?_getD, List.getElem?_replicate, hk2, if_true,
          Option.getD_some]
        omega)
    simpa using this
  have hdata : (plainBuffer X ebuff0 attrs plen).bytes 40 (attrs.length + plen)
      = attrs ++ List.replicate plen plen := by
    rw [Mem.bytes_append, hattrs, hpad]
  have htag := plainBuffer_tag X ebuff0 attrs plen hlen
  rw [hdata] at htag
  refine ⟨hhint, ?_⟩
  have e : 36 + attrs.length + plen = 16 + (20 + (attrs.length + plen)) := by omega
  rw [e, Mem.bytes_append, Mem.bytes_append, hnonce, htag, hdata]
  simp only [List.append_assoc]

/-- The buffer that `webauth_token_create` hands to the base64 encoder: the
four bytes of the creation time, then the CBC encryption of nonce, tag,
payload and padding. -/
theorem token_layout {A : Type} (X : Externals A) (key : WEBAUTH_KEY)
    (list : A) (attrs : List Nat) (ring : WEBAUTH_KEY_RING)
    (ebuff0 : Mem) (blen max_output_len : Nat)
    (hlen : ∀ k d, (X.HMAC k d).length = SHA_DIGEST_LENGTH)
    (hcbc : ∀ data,
      (X.AES_cbc_encrypt key.data (key.length * 8) aes_ivec true data).length = data.length)
    (hbest : X.webauth_key_ring_best_encryption_key ring = some key)
    (hset : X.AES_set_encrypt_key key.data (key.length * 8) = 0)
    (hmalloc : X.malloc (binary_encoded_length X list).1 = some ebuff0)
    (henc : X.webauth_attrs_encode list (X.webauth_attrs_encoded_length list) = .inr attrs)
    (hal : attrs.length = X.webauth_attrs_encoded_length list)
    (hblen : webauth_token_encoded_length X list = some blen)
    (hcap : blen ≤ max_output_len) :
    ∃ c, webauth_token_create X list max_output_len ring = some c ∧ c.ret = .len blen ∧
      c.ebuff = htonl_bytes X.time ++
        X.AES_cbc_encrypt key.data (key.length * 8) aes_ivec true
          (temp_nonce ++ X.HMAC temp_nonce
              (attrs ++ List.replicate (binary_encoded_length X list).2
                (binary_encoded_length X list).2)
            ++ attrs ++ List.replicate (binary_encoded_length X list).2
                (binary_encoded_length X list).2) := by
  obtain ⟨hp1, hp16, halign, hel, _, _⟩ := binary_encoded_length_spec X list
  obtain ⟨c, hc, hr, he⟩ := webauth_token_create_ret X key list attrs ring ebuff0 blen
    max_output_len hbest hset hmalloc henc hblen hcap
  obtain ⟨hhint, hbody⟩ := plainBuffer_layout X ebuff0 attrs (binary_encoded_length X list).2
    hlen hp16
  refine ⟨c, hc, hr, ?_⟩
  rw [he]
  have e36 : (binary_encoded_length X list).1 - 4
      = 36 + attrs.length + (binary_encoded_length X list).2 := by omega
  have hcl := hcbc ((plainBuffer X ebuff0 attrs (binary_encoded_length X list).2).bytes 4
    ((binary_encoded_length X list).1 - 4))
  rw [Mem.bytes_length] at hcl
  have hhead : (cipherBuffer X key (plainBuffer X ebuff0 attrs (binary_encoded_length X list).2)
      (binary_encoded_length X list).1).bytes 0 4 = htonl_bytes X.time := by
    unfold cipherBuffer
    rw [Mem.bytes_place_disjoint _ _ _ _ _ (Or.inl (by omega)), hhint]
  have htail : (cipherBuffer X key (plainBuffer X ebuff0 attrs (binary_encoded_length X list).2)
      (binary_encoded_length X list).1).bytes 4 ((binary_encoded_length X list).1 - 4)
      = X.AES_cbc_encrypt key.data (key.length * 8) aes_ivec true
          ((plainBuffer X ebuff0 attrs (binary_encoded_length X list).2).bytes 4
            ((binary_encoded_length X list).1 - 4)) := by
    unfold cipherBuffer
    have h2 := Mem.bytes_place (plainBuffer X ebuff0 attrs (binary_encoded_length X list).2) 4
      (X.AES_cbc_encrypt key.data (key.length * 8) aes_ivec true
        ((plainBuffer X ebuff0 attrs (binary_encoded_length X list).2).bytes 4
          ((binary_encoded_length X list).1 - 4)))
    rw [hcl] at h2
    exact h2
  have hsplit : ∀ (m : Mem) (n : Nat), 4 ≤ n → m.bytes 0 n = m.bytes 0 4 ++ m.bytes 4 (n - 4) := by
    intro m n h
    have := Mem.bytes_append m 4 0 (n - 4)
    rw [show 4 + (n - 4) = n by omega, Nat.zero_add] at this
    exact this
  rw [hsplit _ _ (by omega), hhead, htail, e36, hbody]


/-- C18. For a successful `webauth_token_create` at time `t` over a list whose
attribute encoding `attrs` has length `a`, with padding length `p`: the
binary token before base64 has length `40 + a + p`, its bytes 0..3 are the
big-endian 32-bit value of `t`, not encrypted, and the remaining bytes are the
AES-CBC encryption of the nonce, the tag (HMAC over payload and padding, 20
bytes), the payload and `p` bytes equal to `p`. -/
theorem envelope_layout {A : Type} (X : Externals A) (key : WEBAUTH_KEY)
    (list : A) (attrs : List Nat) (ring : WEBAUTH_KEY_RING)
    (ebuff0 : Mem) (blen max_output_len : Nat)
    (hlen : ∀ k d, (X.HMAC k d).length = SHA_DIGEST_LENGTH)
    (hcbc : ∀ data,
      (X.AES_cbc_encrypt key.data (key.length * 8) aes_ivec true data).length = data.length)
    (hbest : X.webauth_key_ring_best_encryption_key ring = some key)
    (hset : X.AES_set_encrypt_key key.data (key.length * 8) = 0)
    (hmalloc : X.malloc (binary_encoded_length X list).1 = some ebuff0)
    (henc : X.webauth_attrs_encode list (X.webauth_attrs_encoded_length list) = .inr attrs)
    (hal : attrs.length = X.webauth_attrs_encoded_length list)
    (hblen : webauth_token_encoded_length X list = some blen)
    (hcap : blen ≤ max_output_len) :
    ∃ c, webauth_token_create X list max_output_len ring = some c ∧ c.ret = .len blen ∧
      c.ebuff.length = 40 + attrs.length + (binary_encoded_length X list).2 ∧
      c.ebuff.take 4 = htonl_bytes X.time ∧
      (htonl_bytes X.time).length = 4 ∧
      c.ebuff.drop 4 =
        X.AES_cbc_encrypt key.data (key.length * 8) aes_ivec true
          (temp_nonce ++ X.HMAC temp_nonce
              (attrs ++ List.replicate (binary_encoded_length X list).2
                (binary_encoded_length X list).2)
            ++ attrs ++ List.replicate (binary_encoded_length X list).2
                (binary_encoded_length X list).2) ∧
      temp_nonce.length = 16 ∧
      (X.HMAC temp_nonce (attrs ++ List.replicate (binary_encoded_length X list).2
        (binary_encoded_length X list).2)).length = 20 := by
  obtain ⟨c, hc, hr, he⟩ := token_layout X key list attrs ring ebuff0 blen max_output_len
    hlen hcbc hbest hset hmalloc henc hal hblen hcap
  have h4 : (htonl_bytes X.time).length = 4 := by simp [htonl_bytes]
  refine ⟨c, hc, hr, ?_, ?_, h4, ?_, by simp [temp_nonce], hlen _ _⟩
  · rw [he, List.length_append, h4, hcbc]
    simp only [List.length_append, List.length_replicate, hlen, SHA_DIGEST_LENGTH, temp_nonce,
      List.length_cons, List.length_nil]
    omega
  · rw [he, List.take_left' h4]
  · rw [he, List.drop_left' h4]

/-- C19. Two `webauth_token_create` calls for the same attribute list and key,
made at two times (and with whatever blocks `malloc` returns), produce binary
tokens that are identical from offset 4 on; bytes 0..3 hold the two creation
times. -/
theorem deterministic_ciphertext {A : Type} (X : Externals A) (key : WEBAUTH_KEY)
    (list : A) (attrs : List Nat) (ring : WEBAUTH_KEY_RING)
    (t2 : Nat) (malloc2 : Nat → Option Mem) (ebuff1 ebuff2 : Mem) (blen max_output_len : Nat)
    (hlen : ∀ k d, (X.HMAC k d).length = SHA_DIGEST_LENGTH)
    (hcbc : ∀ data,
      (X.AES_cbc_encrypt key.data (key.length * 8) aes_ivec true data).length = data.length)
    (hbest : X.webauth_key_ring_best_encryption_key ring = some key)
    (hset : X.AES_set_encrypt_key key.data (key.length * 8) = 0)
    (hmalloc1 : X.malloc (binary_encoded_length X list).1 = some ebuff1)
    (hmalloc2 : malloc2 (binary_encoded_length X list).1 = some ebuff2)
    (henc : X.webauth_attrs_encode list (X.webauth_attrs_encoded_length list) = .inr attrs)
    (hal : attrs.length = X.webauth_attrs_encoded_length list)
    (hblen : webauth_token_encoded_length X list = some blen)
    (hcap : blen ≤ max_output_len) :
    ∃ c1 c2, webauth_token_create X list max_output_len ring = some c1 ∧
      webauth_token_create { X with time := t2, malloc := malloc2 } list max_output_len ring
        = some c2 ∧
      c1.ret = .len blen ∧ c2.ret = .len blen ∧
      c1.ebuff.drop 4 = c2.ebuff.drop 4 ∧
      c1.ebuff.take 4 = htonl_bytes X.time ∧ c2.ebuff.take 4 = htonl_bytes t2 := by
  obtain ⟨c1, hc1, hr1, he1⟩ := token_layout X key list attrs ring ebuff1 blen max_output_len
    hlen hcbc hbest hset hmalloc1 henc hal hblen hcap
  obtain ⟨c2, hc2, hr2, he2⟩ := token_layout { X with time := t2, malloc := malloc2 } key list
    attrs ring ebuff2 blen max_output_len hlen hcbc hbest hset hmalloc2 henc hal hblen hcap
  have h4 : ∀ t, (htonl_bytes t).length = 4 := by intro t; simp [htonl_bytes]
  refine ⟨c1, c2, hc1, hc2, hr1, hr2, ?_, ?_, ?_⟩
  · rw [he1, he2, List.drop_left' (h4 _), List.drop_left' (h4 _)]
    rfl
  · rw [he1, List.take_left' (h4 _)]
  · rw [he2, List.take_left' (h4 _)]

/-! ## Error classification in krb5.c -/

/-- In `open_keytab` a call other than a cleanup call that returns non-zero
makes the function return `WA_ERR_KRB5` with that code in `c->code`; the
function returns `WA_ERR_NONE` or `WA_ERR_KRB5`. -/
theorem open_keytab_failing (L : Krb5Lib) (ip out : Option String) :
    ((open_keytab L ip out).ret = .NONE ∨ (open_keytab L ip out).ret = .KRB5) ∧
    ∀ s ∈ (open_keytab L ip out).calls, s.cleanup = false → L.code s ≠ 0 →
      (open_keytab L ip out).ret = .KRB5 ∧ (open_keytab L ip out).code = L.code s := by
  cases ip with
  | some p =>
    simp only [open_keytab, open_keytab_end]
    split_ifs <;> simp_all [NativeCall.cleanup]
  | none =>
    simp only [open_keytab, open_keytab_end]
    split_ifs <;> simp_all [NativeCall.cleanup]

/-- In `mk_req_with_principal` the code of a call that returns non-zero is
the code returned. -/
theorem mk_req_with_principal_failing (L : Krb5Lib) :
    ∀ s ∈ (mk_req_with_principal L).2, L.code s ≠ 0 → (mk_req_with_principal L).1 = L.code s := by
  simp only [mk_req_with_principal]
  split_ifs <;> simp_all

/-- In `verify_tgt` a call other than a cleanup call that returns non-zero
makes the function return `WA_ERR_KRB5` with that code in `c->code`. -/
theorem verify_tgt_failing (L : Krb5Lib) (sp : Option String) :
    ∀ s ∈ (verify_tgt L sp).calls, s.cleanup = false → L.code s ≠ 0 →
      (verify_tgt L sp).ret = .KRB5 ∧ (verify_tgt L sp).code = L.code s := by
  obtain ⟨hk1, hk2⟩ := open_keytab_failing L sp none
  have hm := mk_req_with_principal_failing L
  intro s hs hc hn
  simp only [verify_tgt] at hs ⊢
  by_cases h1 : (open_keytab L sp none).ret ≠ .NONE
  · rw [if_pos h1] at hs ⊢
    exact hk2 s hs hc hn
  · rw [if_neg h1] at hs ⊢
    have hk0 : ∀ t ∈ (open_keytab L sp none).calls, t.cleanup = false → L.code t = 0 := by
      intro t ht htc
      by_contra hne
      have := (hk2 t ht htc hne).1
      simp only [ne_eq, not_not] at h1
      rw [h1] at this
      exact absurd this (by decide)
    by_cases h2 : (mk_req_with_principal L).1 ≠ 0
    · rw [if_pos h2] at hs ⊢
      simp only [List.mem_append] at hs
      rcases hs with hs | hs
      · exact absurd (hk0 s hs hc) hn
      · exact ⟨rfl, hm s hs hn⟩
    · rw [if_neg h2] at hs ⊢
      have hm0 : ∀ t ∈ (mk_req_with_principal L).2, L.code t = 0 := by
        intro t ht
        by_contra hne
        have := hm t ht hne
        simp only [ne_eq, not_not] at h2
        rw [h2] at this
        exact hne this.symm
      by_cases h3 : L.code .krb5_rd_req = 0
      · rw [if_pos h3] at hs ⊢
        simp only [List.mem_append, List.mem_cons, List.mem_singleton,
          List.not_mem_nil, or_false] at hs ⊢
        rcases hs with ((hs | hs) | hs | hs) | hs
        · exact absurd (hk0 s hs hc) hn
        · exact absurd (hm0 s hs) hn
        · subst hs; exact absurd h3 hn
        · subst hs; simp [NativeCall.cleanup] at hc
        · subst hs; simp only [hn, if_false, and_self]
      · rw [if_neg h3] at hs ⊢
        simp only [List.mem_append, List.mem_cons, List.mem_singleton,
          List.not_mem_nil, or_false] at hs
        rcases hs with (hs | hs) | hs | hs
        · exact absurd (hk0 s hs hc) hn
        · exact absurd (hm0 s hs) hn
        · subst hs; exact ⟨rfl, rfl⟩
        · subst hs; simp [NativeCall.cleanup] at hc

theorem classify_login (L : Krb5Lib) (c : Int) :
    (classify L c = .LOGIN_FAILED ↔
      (c = L.KRB5KRB_AP_ERR_BAD_INTEGRITY ∨ c = L.KRB5KDC_ERR_PREAUTH_FAILED
        ∨ c = L.KRB5KDC_ERR_C_PRINCIPAL_UNKNOWN)) ∧
    (¬ (c = L.KRB5KRB_AP_ERR_BAD_INTEGRITY ∨ c = L.KRB5KDC_ERR_PREAUTH_FAILED
        ∨ c = L.KRB5KDC_ERR_C_PRINCIPAL_UNKNOWN) → classify L c = .KRB5) := by
  unfold classify
  split_ifs with h
  · simp [h]
  · simp [h]

/-- The classification in `webauth_krb5_init_via_password`. -/
theorem init_via_password_failing (L : Krb5Lib) (sp out : Option String) :
    ∀ s ∈ (webauth_krb5_init_via_password L sp out).calls, s.cleanup = false →
      L.code s ≠ 0 →
      (webauth_krb5_init_via_password L sp out).code = L.code s ∧
      (s = .krb5_get_init_creds_password →
        (webauth_krb5_init_via_password L sp out).ret = classify L (L.code s)) ∧
      (s ≠ .krb5_get_init_creds_password →
        (webauth_krb5_init_via_password L sp out).ret = .KRB5) := by
  have hv := verify_tgt_failing L sp
  intro s hs hc hn
  simp only [webauth_krb5_init_via_password] at hs ⊢
  split_ifs at hs ⊢ with h1 h2 h3 h4 h5 h6
  all_goals simp only [List.mem_append, List.mem_cons, List.mem_singleton, List.not_mem_nil,
    or_false, ne_eq, not_not] at *
  · subst hs; simp
  · rcases hs with rfl | rfl
    · exact absurd h1 hn
    · simp
  · rcases hs with rfl | rfl | rfl
    · exact absurd h1 hn
    · exact absurd h2 hn
    · simp
  · rcases hs with rfl | rfl | rfl
    · exact absurd h1 hn
    · exact absurd h2 hn
    · exact absurd h3 hn
  · rcases hs with rfl | rfl | rfl | rfl
    · exact absurd h1 hn
    · exact absurd h2 hn
    · exact absurd h3 hn
    · simp
  · rcases hs with rfl | rfl | rfl | rfl | rfl
    · exact absurd h1 hn
    · exact absurd h2 hn
    · exact absurd h3 hn
    · exact absurd h5 hn
    · simp
  · rcases hs with (rfl | rfl | rfl | rfl | rfl) | hs
    · exact absurd h1 hn
    · exact absurd h2 hn
    · exact absurd h3 hn
    · exact absurd h5 hn
    · exact absurd h6 hn
    · have := hv s hs hc hn
      refine ⟨this.2, ?_, fun _ => this.1⟩
      intro e
      subst e
      exact absurd h5 hn

theorem open_keytab_calls (L : Krb5Lib) (ip out : Option String) :
    NativeCall.krb5_get_init_creds_keytab ∉ (open_keytab L ip out).calls := by
  cases ip <;> simp only [open_keytab, open_keytab_end] <;> split_ifs <;> simp

/-- The classification in `webauth_krb5_init_via_keytab`. -/
theorem init_via_keytab_failing (L : Krb5Lib) (sp : Option String) :
    ∀ s ∈ (webauth_krb5_init_via_keytab L sp).calls, s.cleanup = false →
      L.code s ≠ 0 →
      (webauth_krb5_init_via_keytab L sp).code = L.code s ∧
      (s = .krb5_get_init_creds_keytab →
        (webauth_krb5_init_via_keytab L sp).ret = classify L (L.code s)) ∧
      (s ≠ .krb5_get_init_creds_keytab →
        (webauth_krb5_init_via_keytab L sp).ret = .KRB5) := by
  obtain ⟨hk1, hk2⟩ := open_keytab_failing L sp none
  intro s hs hc hn
  simp only [webauth_krb5_init_via_keytab] at hs ⊢
  by_cases h0 : (open_keytab L sp none).ret ≠ .NONE
  · rw [if_pos h0] at hs ⊢
    refine ⟨(hk2 s hs hc hn).2, fun e => ?_, fun _ => rfl⟩
    subst e
    exact absurd hs (open_keytab_calls L sp none)
  · rw [if_neg h0] at hs ⊢
    have hk0 : ∀ t ∈ (open_keytab L sp none).calls, t.cleanup = false → L.code t = 0 := by
      intro t ht htc
      by_contra hne
      have := (hk2 t ht htc hne).1
      simp only [ne_eq, not_not] at h0
      rw [h0] at this
      exact absurd this (by decide)
    split_ifs at hs ⊢ with h2 h3 h5 h6
    all_goals simp only [List.mem_append, List.mem_cons, List.mem_singleton, List.not_mem_nil,
      or_false, ne_eq, not_not] at *
    all_goals rcases hs with hs | hs
    all_goals first
      | exact absurd (hk0 s hs hc) hn
      | skip
    all_goals repeat' rcases hs with hs | hs
    all_goals simp_all [NativeCall.cleanup]

/-! ## Key selection in webauth_token_parse -/

set_option maxRecDepth 1000000 in
/-- C15. The decryption key of `webauth_token_parse` is the key of ring entry
0 and no other: the entries after the first have no effect on the run, so a
token created under the second key of a two-key ring is refused with
`WA_ERR_BAD_HMAC` by that ring although the ring holds its key, while the ring
that holds that key alone accepts it. -/
theorem parse_uses_first_entry :
    (∀ {A : Type} (X : Externals A) (mem : Mem) (input input_len : Nat)
        (entry0 : WEBAUTH_KEY_RING_ENTRY) (rest : List WEBAUTH_KEY_RING_ENTRY),
      webauth_token_parse X mem input input_len ⟨entry0 :: rest⟩
        = webauth_token_parse X mem input input_len ⟨[entry0]⟩) ∧
    keyedExternals.webauth_key_ring_best_encryption_key twoKeyRing
      = some ⟨List.replicate 16 9, 16⟩ ∧
    parseCreated keyedExternals (List.replicate 5 0) 72 twoKeyRing twoKeyRing
      = some (.err .BAD_HMAC) ∧
    parseCreated keyedExternals (List.replicate 5 0) 72 twoKeyRing secondKeyRing
      = some (.len 5) := by
  refine ⟨?_, ?_, ?_, ?_⟩
  · intro A X mem input input_len entry0 rest
    rfl
  · decide
  · decide
  · decide

/-! ## Error classification of the two initialisations -/

/-- C20. In `webauth_krb5_init_via_password` and in
`webauth_krb5_init_via_keytab`, for every native call of the run, other than
the cleanup calls (closing the keytab, ending the keytab scan, freeing the
keytab entry), that returns a non-zero code: that code is the one left in the
context; if the call is the initial-credential request, the function returns
`WA_ERR_LOGIN_FAILED` exactly when the code is bad-integrity, preauth-failed
or client-principal-unknown, and `WA_ERR_KRB5` for every other code; if it is
another call, the function returns `WA_ERR_KRB5`. -/
theorem krb5_error_classification (L : Krb5Lib) (server_principal out : Option String) :
    (∀ s ∈ (webauth_krb5_init_via_password L server_principal out).calls,
      s.cleanup = false → L.code s ≠ 0 →
      (webauth_krb5_init_via_password L server_principal out).code = L.code s ∧
      (s = .krb5_get_init_creds_password →
        ((webauth_krb5_init_via_password L server_principal out).ret = .LOGIN_FAILED ↔
          (L.code s = L.KRB5KRB_AP_ERR_BAD_INTEGRITY ∨ L.code s = L.KRB5KDC_ERR_PREAUTH_FAILED
            ∨ L.code s = L.KRB5KDC_ERR_C_PRINCIPAL_UNKNOWN)) ∧
        (¬ (L.code s = L.KRB5KRB_AP_ERR_BAD_INTEGRITY ∨ L.code s = L.KRB5KDC_ERR_PREAUTH_FAILED
            ∨ L.code s = L.KRB5KDC_ERR_C_PRINCIPAL_UNKNOWN) →
          (webauth_krb5_init_via_password L server_principal out).ret = .KRB5)) ∧
      (s ≠ .krb5_get_init_creds_password →
        (webauth_krb5_init_via_password L server_principal out).ret = .KRB5)) ∧
    (∀ s ∈ (webauth_krb5_init_via_keytab L server_principal).calls,
      s.cleanup = false → L.code s ≠ 0 →
      (webauth_krb5_init_via_keytab L server_principal).code = L.code s ∧
      (s = .krb5_get_init_creds_keytab →
        ((webauth_krb5_init_via_keytab L server_principal).ret = .LOGIN_FAILED ↔
          (L.code s = L.KRB5KRB_AP_ERR_BAD_INTEGRITY ∨ L.code s = L.KRB5KDC_ERR_PREAUTH_FAILED
            ∨ L.code s = L.KRB5KDC_ERR_C_PRINCIPAL_UNKNOWN)) ∧
        (¬ (L.code s = L.KRB5KRB_AP_ERR_BAD_INTEGRITY ∨ L.code s = L.KRB5KDC_ERR_PREAUTH_FAILED
            ∨ L.code s = L.KRB5KDC_ERR_C_PRINCIPAL_UNKNOWN) →
          (webauth_krb5_init_via_keytab L server_principal).ret = .KRB5)) ∧
      (s ≠ .krb5_get_init_creds_keytab →
        (webauth_krb5_init_via_keytab L server_principal).ret = .KRB5)) := by
  refine ⟨?_, ?_⟩
  · intro s hs hc hn
    obtain ⟨h1, h2, h3⟩ := init_via_password_failing L server_principal out s hs hc hn
    refine ⟨h1, fun e => ?_, h3⟩
    rw [h2 e]
    exact classify_login L (L.code s)
  · intro s hs hc hn
    obtain ⟨h1, h2, h3⟩ := init_via_keytab_failing L server_principal s hs hc hn
    refine ⟨h1, fun e => ?_, h3⟩
    rw [h2 e]
    exact classify_login L (L.code s)

/-! ## The encoded length on 32-bit integers -/

theorem wrap32_id (x : Int) (h1 : -2147483648 ≤ x) (h2 : x ≤ 2147483647) : wrap32 x = x := by
  unfold wrap32
  omega

theorem ceil_div3 (n : Int) : ⌈(n : ℚ) / 3⌉ = (n + 2) / 3 := by
  rw [Int.ceil_eq_iff]
  have e1 : (n + 2) / 3 * 3 ≤ n + 2 := by omega
  have e2 : n ≤ (n + 2) / 3 * 3 := by omega
  have q1 : (((n + 2) / 3 : Int) : ℚ) * 3 ≤ (n : ℚ) + 2 := by exact_mod_cast e1
  have q2 : (n : ℚ) ≤ (((n + 2) / 3 : Int) : ℚ) * 3 := by exact_mod_cast e2
  constructor
  · linarith
  · linarith

/-- C22. For every `int` `n` with `0 < n <= 1610612733`,
`webauth_base64_encoded_length(n)` is `ceil(n/3)*4`; the bound is the largest
`n` for which that value fits an `int`.  In that range it is also the value
of the function on natural numbers used in the rest of this development. -/
theorem encoded_length_ceil (n : Int) (h0 : 0 < n) (h1 : n ≤ 1610612733) :
    webauth_base64_encoded_length_int n = some (⌈(n : ℚ) / 3⌉ * 4) ∧
    (webauth_base64_encoded_length n.toNat).map Int.ofNat = some (⌈(n : ℚ) / 3⌉ * 4) := by
  rw [ceil_div3]
  constructor
  · unfold webauth_base64_encoded_length_int
    rw [if_pos h0, wrap32_id (n + 2) (by omega) (by omega)]
    have : Int.tdiv (n + 2) 3 = (n + 2) / 3 :=
      Int.tdiv_eq_ediv (by omega) (by norm_num)
    rw [this, wrap32_id _ (by omega) (by omega)]
  · unfold webauth_base64_encoded_length
    have hp : n.toNat > 0 := by omega
    rw [if_pos hp]
    simp only [Option.map_some']
    congr 1
    have : ((n.toNat : Nat) : Int) = n := Int.toNat_of_nonneg (by omega)
    simp only [Int.ofNat_eq_coe]
    push_cast
    rw [this]

/-! ## Padding length and block alignment -/

theorem binary_encoded_length_int_eq {A : Type} (X : Externals A) (list : A)
    (ha : X.webauth_attrs_encoded_length list ≤ 2147483595) :
    binary_encoded_length_int X list
      = (((binary_encoded_length X list).1 : Int), ((binary_encoded_length X list).2 : Int)) := by
  obtain ⟨hp1, hp16, halign, hel, h0, hn0⟩ := binary_encoded_length_spec X list
  have hpd : (binary_encoded_length X list).2
      = (if (X.webauth_attrs_encoded_length list + 36) % 16 ≠ 0
          then 16 - (X.webauth_attrs_encoded_length list + 36) % 16 else 16) := by
    simp only [binary_encoded_length, T_NONCE_S, T_HMAC_S, SHA_DIGEST_LENGTH, AES_BLOCK_SIZE]
  have hm : Int.tmod ((X.webauth_attrs_encoded_length list : Int) + 36) 16
      = (((X.webauth_attrs_encoded_length list + 36) % 16 : Nat) : Int) := by
    rw [Int.tmod_eq_emod (by omega) (by norm_num)]
    push_cast
    rfl
  have hplen : (if Int.tmod ((X.webauth_attrs_encoded_length list : Int) + 36) 16 ≠ 0
        then (16 : Int) - Int.tmod ((X.webauth_attrs_encoded_length list : Int) + 36) 16
        else 16)
      = (((binary_encoded_length X list).2 : Nat) : Int) := by
    rw [hm, hpd]
    split_ifs with h1 h2 h2
    · omega
    · omega
    · omega
    · rfl
  have hbig : (X.webauth_attrs_encoded_length list + 36) % 16 = 0 →
      X.webauth_attrs_encoded_length list + 36 ≤ 2147483616 := by
    intro h; omega
  have hsum : (X.webauth_attrs_encoded_length list : Int) + 36
      + (((binary_encoded_length X list).2 : Nat) : Int) ≤ 2147483632 := by
    by_cases h : (X.webauth_attrs_encoded_length list + 36) % 16 = 0
    · have := h0 h
      have := hbig h
      omega
    · omega
  simp only [binary_encoded_length_int, T_NONCE_S, T_HMAC_S, SHA_DIGEST_LENGTH, AES_BLOCK_SIZE,
    Nat.cast_ofNat]
  rw [wrap32_id (X.webauth_attrs_encoded_length list : Int) (by omega) (by omega)]
  rw [show ((X.webauth_attrs_encoded_length list : Int) + (16 + 20))
      = (X.webauth_attrs_encoded_length list : Int) + 36 by ring]
  rw [wrap32_id ((X.webauth_attrs_encoded_length list : Int) + 36) (by omega) (by omega)]
  rw [hplen]
  rw [wrap32_id ((X.webauth_attrs_encoded_length list : Int) + 36
    + (((binary_encoded_length X list).2 : Nat) : Int)) (by omega) (by omega)]
  rw [wrap32_id ((X.webauth_attrs_encoded_length list : Int) + 36
    + (((binary_encoded_length X list).2 : Nat) : Int) + 4) (by omega) (by omega)]
  rw [hel]
  push_cast
  congr 1
  ring

/-- C16. For every attribute list with encoded length `0 <= a <= 2147483595`,
`binary_encoded_length`, on the `int`s of the source, sets the padding length
`p` to `16 - ((a + 36) mod 16)` when `(a + 36) mod 16` is not zero and to 16
otherwise, so `1 <= p <= 16`, and returns `a + 36 + p + 4`; the bound is the
largest `a` for which the sums fit an `int`.  In that range the value returned
and `p` are those of the function on natural numbers used in the rest of this
development. -/
theorem padding_never_zero {A : Type} (X : Externals A) (list : A)
    (ha : X.webauth_attrs_encoded_length list ≤ 2147483595) :
    (binary_encoded_length_int X list).2
      = (if ((X.webauth_attrs_encoded_length list : Int) + 36) % 16 ≠ 0
          then 16 - ((X.webauth_attrs_encoded_length list : Int) + 36) % 16 else 16) ∧
    1 ≤ (binary_encoded_length_int X list).2 ∧ (binary_encoded_length_int X list).2 ≤ 16 ∧
    (binary_encoded_length_int X list).1
      = (X.webauth_attrs_encoded_length list : Int) + 36
        + (binary_encoded_length_int X list).2 + 4 ∧
    binary_encoded_length_int X list
      = (((binary_encoded_length X list).1 : Int), ((binary_encoded_length X list).2 : Int)) := by
  have he := binary_encoded_length_int_eq X list ha
  obtain ⟨hp1, hp16, halign, hel, h0, hn0⟩ := binary_encoded_length_spec X list
  have hpd : (binary_encoded_length X list).2
      = (if (X.webauth_attrs_encoded_length list + 36) % 16 ≠ 0
          then 16 - (X.webauth_attrs_encoded_length list + 36) % 16 else 16) := by
    simp only [binary_encoded_length, T_NONCE_S, T_HMAC_S, SHA_DIGEST_LENGTH, AES_BLOCK_SIZE]
  rw [he]
  refine ⟨?_, ?_, ?_, ?_, rfl⟩
  · show (((binary_encoded_length X list).2 : Nat) : Int) = _
    rw [hpd]
    split_ifs with h1 h2 h2 <;> omega
  · show (1 : Int) ≤ (((binary_encoded_length X list).2 : Nat) : Int)
    omega
  · show (((binary_encoded_length X list).2 : Nat) : Int) ≤ 16
    omega
  · show (((binary_encoded_length X list).1 : Nat) : Int) = _ + (((binary_encoded_length X list).2 : Nat) : Int) + 4
    omega

/-- C17. In every run of `webauth_token_create` (`max_output_len` being an
`int`), the length handed to `AES_cbc_encrypt`, that of the encrypted region
of the token (nonce, tag, payload and padding), is
`binary_encoded_length(list) - 4` as the `int`s of the source give it, and is
a positive multiple of the AES block size 16; a run that returns a length has
made that call, on all of the buffer it hands to the base64 encoder but the
4-byte hint.  For every list with an encoded length up to 2147483595, the
largest for which the `int` sums do not overflow, `binary_encoded_length(list)
- 4` is a positive multiple of 16, whether or not the run gets to the
encryption. -/
theorem encrypted_region_aligned {A : Type} (X : Externals A) (list : A)
    (max_output_len : Nat) (ring : WEBAUTH_KEY_RING) (c : CreateRun)
    (hint : max_output_len ≤ 2147483647)
    (hc : webauth_token_create X list max_output_len ring = some c) :
    (∀ l, Call.AES_cbc_encrypt l ∈ c.calls →
      l = (binary_encoded_length_int X list).1 - T_HINT_S ∧
      0 < l ∧ l % AES_BLOCK_SIZE = 0) ∧
    (∀ n, c.ret = .len n →
      Call.AES_cbc_encrypt ((c.ebuff.length : Int) - T_HINT_S) ∈ c.calls) ∧
    (X.webauth_attrs_encoded_length list ≤ 2147483595 →
      0 < (binary_encoded_length_int X list).1 - T_HINT_S ∧
      ((binary_encoded_length_int X list).1 - T_HINT_S) % AES_BLOCK_SIZE = 0) := by
  obtain ⟨hp1, hp16, halign, hel, _, _⟩ := binary_encoded_length_spec X list
  have hint3 : X.webauth_attrs_encoded_length list ≤ 2147483595 →
      0 < (binary_encoded_length_int X list).1 - T_HINT_S ∧
      ((binary_encoded_length_int X list).1 - T_HINT_S) % AES_BLOCK_SIZE = 0 := by
    intro ha
    rw [binary_encoded_length_int_eq X list ha]
    constructor
    · simp only [T_offsets]; omega
    · simp only [T_offsets]; omega
  suffices h : (∀ l, Call.AES_cbc_encrypt l ∈ c.calls →
        l = (binary_encoded_length_int X list).1 - T_HINT_S ∧
        0 < l ∧ l % AES_BLOCK_SIZE = 0) ∧
      (∀ n, c.ret = .len n →
        Call.AES_cbc_encrypt ((c.ebuff.length : Int) - T_HINT_S) ∈ c.calls) from
    ⟨h.1, h.2, hint3⟩
  unfold webauth_token_create at hc
  split at hc
  · simp at hc
  split at hc
  · simp only [Option.some.injEq] at hc; subst hc; simp
  split at hc
  · simp only [Option.some.injEq] at hc; subst hc; simp
  simp only at hc
  split at hc
  · simp at hc
  rename_i blen hblen
  split at hc
  · simp only [Option.some.injEq] at hc; subst hc; simp
  rename_i hroom
  split at hc
  · simp only [Option.some.injEq] at hc; subst hc; simp
  split at hc
  · simp only [Option.some.injEq] at hc; subst hc; simp
  split at hc
  · simp at hc
  simp only [Option.some.injEq] at hc
  subst hc
  have hb : ((binary_encoded_length X list).1 + 2) / 3 * 4 = blen := by
    simp only [webauth_base64_encoded_length] at hblen
    split at hblen
    · exact Option.some.inj hblen
    · simp at hblen
  have ha : X.webauth_attrs_encoded_length list ≤ 2147483595 := by omega
  have he := binary_encoded_length_int_eq X list ha
  refine ⟨?_, ?_⟩
  · intro l hl
    simp only [List.mem_cons, List.mem_singleton, Call.AES_cbc_encrypt.injEq,
      List.not_mem_nil, or_false, false_or, reduceCtorEq] at hl
    subst hl
    rw [he]
    refine ⟨rfl, ?_, ?_⟩
    · simp only [T_offsets]; omega
    · simp only [T_offsets]; omega
  · intro n _
    rw [Mem.bytes_length]
    simp


/-! ## The decoder with a capacity equal to the input length -/

/-- With room for three bytes for each group still to be read, and one to
spare, the loop does not return `WA_ERR_NO_ROOM`, and a length it returns is
at least one more than `out_len` and at most three per group more. -/
theorem decodeGroups_bound (om : Nat) : ∀ (s : List Nat) (i o : Nat),
    0 < s.length → s.length % 4 = 0 → o + 3 * (s.length / 4) < om →
    (decodeGroups om s i o).1 ≠ .err .NO_ROOM ∧
    ∀ k, (decodeGroups om s i o).1 = .len k → o + 1 ≤ k ∧ k ≤ o + 3 * (s.length / 4)
  | [], _, _, h, _, _ => by simp at h
  | [_], _, _, _, h, _ => by simp at h
  | [_, _], _, _, _, h, _ => by simp at h
  | [_, _, _], _, _, _, h, _ => by simp at h
  | c1 :: c2 :: c3 :: c4 :: rest, i, o, _, h4, hom => by
    have hl : (c1 :: c2 :: c3 :: c4 :: rest).length = rest.length + 4 := by simp
    rw [hl] at h4 hom ⊢
    have hd : (rest.length + 4) / 4 = rest.length / 4 + 1 := by omega
    rw [hd] at hom ⊢
    by_cases a1 : CHAR64 c1 = XX
    · simp [decodeGroups, a1]
    by_cases a2 : CHAR64 c2 = XX
    · simp [decodeGroups, a1, a2]
    by_cases a3 : c3 ≠ EQ ∧ CHAR64 c3 = XX
    · simp [decodeGroups, a1, a2, a3]
    by_cases a4 : c4 ≠ EQ ∧ CHAR64 c4 = XX
    · simp [decodeGroups, a1, a2, a3, a4]
    have a5 : ¬ o = om := by omega
    have a6 : ¬ o + 1 = om := by omega
    have a7 : ¬ o + 2 = om := by omega
    simp only [decodeGroups, a1, a2, a3, a4, a5, if_false]
    by_cases b3 : c3 = EQ
    · by_cases b4 : c4 = EQ
      · simp [b3, b4]; omega
      · simp [b3, b4]
    by_cases b4 : c4 = EQ
    · simp [b3, a6, b4]; omega
    by_cases hr : rest = []
    · simp [b3, a6, b4, a7, hr]
    · simp only [b3, a6, b4, a7, hr, if_false]
      have hpos : 0 < rest.length := List.length_pos.mpr hr
      obtain ⟨r1, r2⟩ := decodeGroups_bound om rest (i + 4) (o + 3) hpos (by omega) (by omega)
      refine ⟨r1, ?_⟩
      intro k hk
      have := r2 k hk
      omega

/-- C27. For an input of length `n`, a positive multiple of 4,
`webauth_base64_decode` with `output_max = n`, in place as
`webauth_token_parse` calls it or into a separate buffer, returns; what it
returns is not `WA_ERR_NO_ROOM`, which is also what the `return` after the
loop would give, so that `return` is not reached; and a length `r` it returns
satisfies `1 <= r <= 3n/4`. -/
theorem decode_output_bound (mem : Mem) (input n output : Nat)
    (hlen : 0 < n ∧ n % 4 = 0)
    (hlay : output = input ∨ input + n ≤ output ∨ output + n ≤ input) :
    ∃ r, webauth_base64_decode mem input n output n = some r ∧
      r.ret ≠ .err .NO_ROOM ∧
      ∀ k, r.ret = .len k → 1 ≤ k ∧ k ≤ 3 * n / 4 := by
  have hd := webauth_base64_decode_eq mem input n output n hlen hlay
  have hl : (mem.bytes input n).length = n := Mem.bytes_length _ _ _
  obtain ⟨h1, h2⟩ := decodeGroups_bound n (mem.bytes input n) 0 0 (by omega) (by omega)
    (by rw [hl]; omega)
  refine ⟨_, hd, h1, ?_⟩
  intro k hk
  have := h2 k hk
  rw [hl] at this
  omega

/-! ## Verification of the password login -/

theorem open_keytab_out (L : Krb5Lib) (ip out : Option String) :
    (open_keytab L ip out).server_principal_out = out ∧
    NativeCall.krb5_unparse_name ∉ (open_keytab L ip out).calls := by
  cases ip <;> simp only [open_keytab, open_keytab_end] <;> split_ifs <;> simp

theorem mk_req_with_principal_ok (L : Krb5Lib) :
    NativeCall.krb5_unparse_name ∉ (mk_req_with_principal L).2 ∧
    ((mk_req_with_principal L).1 = 0 →
      (mk_req_with_principal L).2 = [.krb5_copy_principal_server, .krb5_cc_get_principal,
        .krb5_get_credentials, .krb5_mk_req_extended] ∧
      L.code .krb5_get_credentials = 0 ∧ L.code .krb5_mk_req_extended = 0) := by
  simp only [mk_req_with_principal]
  split_ifs <;> simp_all

/-- The function `verify_tgt` returns `WA_ERR_NONE` only after the
service-ticket request, `krb5_rd_req` and `krb5_unparse_name` returned 0, and
then `*server_principal_out` is what `krb5_unparse_name` stored; when it
returns something else, either `krb5_unparse_name` was not called and
`*server_principal_out` is `NULL`, or it was called and failed. -/
theorem verify_tgt_outcome (L : Krb5Lib) (sp : Option String) :
    ((verify_tgt L sp).ret = .NONE →
      (∀ s ∈ [NativeCall.krb5_get_credentials, .krb5_mk_req_extended, .krb5_rd_req,
          .krb5_unparse_name], s ∈ (verify_tgt L sp).calls ∧ L.code s = 0) ∧
      (verify_tgt L sp).server_principal_out = L.unparsed) ∧
    ((verify_tgt L sp).ret ≠ .NONE →
      (NativeCall.krb5_unparse_name ∉ (verify_tgt L sp).calls ∧
        (verify_tgt L sp).server_principal_out = none) ∨
      (NativeCall.krb5_unparse_name ∈ (verify_tgt L sp).calls ∧
        L.code .krb5_unparse_name ≠ 0 ∧
        (verify_tgt L sp).server_principal_out = L.unparsed)) := by
  obtain ⟨ho, hu⟩ := open_keytab_out L sp none
  obtain ⟨mu, mok⟩ := mk_req_with_principal_ok L
  simp only [verify_tgt]
  by_cases h1 : (open_keytab L sp none).ret ≠ .NONE
  · rw [if_pos h1]
    exact ⟨fun h => absurd h h1, fun _ => Or.inl ⟨hu, ho⟩⟩
  · rw [if_neg h1]
    by_cases h2 : (mk_req_with_principal L).1 ≠ 0
    · rw [if_pos h2]
      refine ⟨fun h => by simp at h, fun _ => Or.inl ⟨?_, rfl⟩⟩
      simp only [List.mem_append, not_or]
      exact ⟨hu, mu⟩
    · rw [if_neg h2]
      obtain ⟨m2, mc, me⟩ := mok (by simpa using h2)
      by_cases h3 : L.code .krb5_rd_req = 0
      · rw [if_pos h3]
        by_cases h4 : L.code .krb5_unparse_name = 0
        · simp [h4, m2, mc, me, h3]
        · simp [h4, m2]
      · rw [if_neg h3]
        refine ⟨fun h => by simp at h, fun _ => Or.inl ⟨?_, rfl⟩⟩
        simp only [List.mem_append, not_or]
        refine ⟨⟨hu, mu⟩, by simp⟩

/-- C21. The function `webauth_krb5_init_via_password` returns `WA_ERR_NONE`
only if the initial-credential request, the store into the credential cache,
the service-ticket request (`krb5_get_credentials`, `krb5_mk_req_extended`),
`krb5_rd_req` and `krb5_unparse_name` were all made and returned 0, and then
`*server_principal_out` is the name `krb5_unparse_name` stored.  When it
returns anything else, either `krb5_unparse_name` was not called and
`*server_principal_out` is as on entry or `NULL`, or `krb5_unparse_name` was
called and failed, and `*server_principal_out` is what that failed call left
(`NULL` if it leaves the pointer alone). -/
theorem password_login_verified (L : Krb5Lib) (server_principal out : Option String) :
    ((webauth_krb5_init_via_password L server_principal out).ret = .NONE →
      (∀ s ∈ [NativeCall.krb5_get_init_creds_password, .krb5_cc_store_cred,
          .krb5_get_credentials, .krb5_mk_req_extended, .krb5_rd_req, .krb5_unparse_name],
        s ∈ (webauth_krb5_init_via_password L server_principal out).calls ∧ L.code s = 0) ∧
      (webauth_krb5_init_via_password L server_principal out).server_principal_out
        = L.unparsed) ∧
    ((webauth_krb5_init_via_password L server_principal out).ret ≠ .NONE →
      (NativeCall.krb5_unparse_name
          ∉ (webauth_krb5_init_via_password L server_principal out).calls ∧
        ((webauth_krb5_init_via_password L server_principal out).server_principal_out = out ∨
          (webauth_krb5_init_via_password L server_principal out).server_principal_out
            = none)) ∨
      (NativeCall.krb5_unparse_name
          ∈ (webauth_krb5_init_via_password L server_principal out).calls ∧
        L.code .krb5_unparse_name ≠ 0 ∧
        (webauth_krb5_init_via_password L server_principal out).server_principal_out
          = L.unparsed)) ∧
    ((L.code .krb5_unparse_name ≠ 0 → L.unparsed = none) →
      (webauth_krb5_init_via_password L server_principal out).ret ≠ .NONE →
      (webauth_krb5_init_via_password L server_principal out).server_principal_out = out ∨
        (webauth_krb5_init_via_password L server_principal out).server_principal_out
          = none) := by
  obtain ⟨v1, v2⟩ := verify_tgt_outcome L server_principal
  have key : ((webauth_krb5_init_via_password L server_principal out).ret = .NONE →
      (∀ s ∈ [NativeCall.krb5_get_init_creds_password, .krb5_cc_store_cred,
          .krb5_get_credentials, .krb5_mk_req_extended, .krb5_rd_req, .krb5_unparse_name],
        s ∈ (webauth_krb5_init_via_password L server_principal out).calls ∧ L.code s = 0) ∧
      (webauth_krb5_init_via_password L server_principal out).server_principal_out
        = L.unparsed) ∧
    ((webauth_krb5_init_via_password L server_principal out).ret ≠ .NONE →
      (NativeCall.krb5_unparse_name
          ∉ (webauth_krb5_init_via_password L server_principal out).calls ∧
        ((webauth_krb5_init_via_password L server_principal out).server_principal_out = out ∨
          (webauth_krb5_init_via_password L server_principal out).server_principal_out
            = none)) ∨
      (NativeCall.krb5_unparse_name
          ∈ (webauth_krb5_init_via_password L server_principal out).calls ∧
        L.code .krb5_unparse_name ≠ 0 ∧
        (webauth_krb5_init_via_password L server_principal out).server_principal_out
          = L.unparsed)) := by
    simp only [webauth_krb5_init_via_password]
    split_ifs with h1 h2 h3 h4 h5 h6
    · simp
    · simp
    · simp
    · simp
    · refine ⟨fun h => ?_, fun _ => Or.inl (by simp)⟩
      exfalso
      simp only [classify] at h
      split_ifs at h
    · simp
    · simp only [ne_eq, not_not] at h5 h6
      refine ⟨fun h => ?_, fun h => ?_⟩
      · obtain ⟨a, b⟩ := v1 h
        refine ⟨?_, b⟩
        intro s hs
        simp only [List.mem_cons, List.mem_singleton, List.not_mem_nil, or_false] at hs
        rcases hs with rfl | rfl | hs
        · exact ⟨by simp, h5⟩
        · exact ⟨by simp, h6⟩
        · have := a s (by simpa using hs)
          exact ⟨List.mem_append_right _ this.1, this.2⟩
      · rcases v2 h with ⟨a, b⟩ | ⟨a, b, c⟩
        · refine Or.inl ⟨?_, Or.inr b⟩
          simp only [List.mem_append, not_or]
          exact ⟨by simp, a⟩
        · exact Or.inr ⟨List.mem_append_right _ a, b, c⟩
  refine ⟨key.1, key.2, ?_⟩
  intro hlib hne
  rcases key.2 hne with ⟨_, h⟩ | ⟨_, hc, h⟩
  · exact h
  · exact Or.inr (h.trans (hlib hc))

/-! ## The lengths webauth_token_parse hands on -/

theorem token_parse_verify_calls {A : Type} (X : Externals A) (mem : Mem) (input elen : Nat) :
    ∃ tail, (token_parse_verify X mem input elen).calls
      = .HMAC ((elen : Int) - T_ATTR_O) :: tail := by
  simp only [token_parse_verify]
  split_ifs <;> simp

/-- C25. The function `webauth_token_parse` has no test on the decoded length:
once past its opening assertion, with a key that sets up, and
whatever the number `elen` of bytes the base64 decoder returns, it goes on to
call `AES_cbc_encrypt` with the length `elen - 4` and `HMAC` with the length
`elen - 40`, and the buffer is overwritten by the decryption. -/
theorem parse_no_size_check {A : Type} (X : Externals A) (mem : Mem) (input input_len : Nat)
    (ring : WEBAUTH_KEY_RING) (entry0 : WEBAUTH_KEY_RING_ENTRY)
    (rest : List WEBAUTH_KEY_RING_ENTRY) (d : DecRun) (elen : Nat)
    (hassert : X.uninitialized_key_null = false)
    (hring : ring.entries = entry0 :: rest)
    (hkey : X.AES_set_decrypt_key entry0.key.data (entry0.key.length * 8) = 0)
    (hdec : webauth_base64_decode mem input input_len input input_len = some d)
    (hlen : d.ret = .len elen) :
    ∃ p tail, webauth_token_parse X mem input input_len ring = some p ∧
      p.calls = .AES_set_decrypt_key (entry0.key.length * 8) ::
        .AES_cbc_encrypt ((elen : Int) - T_HINT_S) :: .HMAC ((elen : Int) - T_ATTR_O) :: tail := by
  obtain ⟨tail, ht⟩ := token_parse_verify_calls X
    (token_parse_decrypt X entry0.key d.mem input elen) input elen
  have hp : webauth_token_parse X mem input input_len ring
      = some ⟨(token_parse_verify X (token_parse_decrypt X entry0.key d.mem input elen)
            input elen).ret,
          (token_parse_verify X (token_parse_decrypt X entry0.key d.mem input elen)
            input elen).list,
          .AES_set_decrypt_key (entry0.key.length * 8) ::
            .AES_cbc_encrypt ((elen : Int) - T_HINT_S) ::
            (token_parse_verify X (token_parse_decrypt X entry0.key d.mem input elen)
              input elen).calls,
          (token_parse_verify X (token_parse_decrypt X entry0.key d.mem input elen)
            input elen).mem⟩ := by
    simp only [webauth_token_parse, hassert, Bool.false_eq_true, hring, hkey, ne_eq,
      not_true_eq_false, if_false, hdec, hlen]
  refine ⟨_, tail, hp, ?_⟩
  simp only [ht]

/-! ## The hint is not read -/

theorem get_app_state_fields (E : ServiceEnv) (token : MWA_SERVICE_TOKEN) (curr : Int) :
    (get_app_state E token curr).expires = token.expires ∧
    (get_app_state E token curr).token = token.token ∧
    (get_app_state E token curr).last_renewal_attempt = token.last_renewal_attempt ∧
    (get_app_state E token curr).key_type = token.key_type ∧
    (get_app_state E token curr).key = token.key := by
  simp only [get_app_state]
  split_ifs <;> simp

/-- C24. The function `mwa_get_service_token` returns the in-memory token,
reading no cache file and making no request, exactly when that token is not
`NULL` and `expires - 3600 > curr`, the difference being the one computed in
`time_t`; for an `expires` from `-9223372036854775808 + 3600` on, that is the
comparison of the mathematical difference.  Otherwise it reads the cache file;
if that gives a token it returns it and makes it the in-memory token, making
no request; if not it requests one from the WebKDC, and on success writes the
cache, returns the token and makes it the in-memory token; if the request
fails it returns `NULL` and the in-memory token is as before.  The token
returned differs from the one read or received in `app_state` and
`app_state_len` only. -/
theorem service_token_lookup_order (E : ServiceEnv) (g : Option MWA_SERVICE_TOKEN) :
    ((∃ t, g = some t ∧ wrap64 (t.expires - 3600) > E.time) →
      (mwa_get_service_token E g).ret = g ∧
      (mwa_get_service_token E g).mwa_g_service_token = g ∧
      (mwa_get_service_token E g).events = []) ∧
    ((mwa_get_service_token E g).events = [] →
      ∃ t, g = some t ∧ wrap64 (t.expires - 3600) > E.time) ∧
    (¬ (∃ t, g = some t ∧ wrap64 (t.expires - 3600) > E.time) →
      (∀ token, E.read_service_token_cache = some token →
        (mwa_get_service_token E g).ret = some (get_app_state E token E.time) ∧
        (mwa_get_service_token E g).mwa_g_service_token
          = some (get_app_state E token E.time) ∧
        (mwa_get_service_token E g).events
          = [.read_service_token_cache, .get_app_state token]) ∧
      (E.read_service_token_cache = none →
        (∀ token, E.request_service_token = some token →
          (mwa_get_service_token E g).ret = some (get_app_state E token E.time) ∧
          (mwa_get_service_token E g).mwa_g_service_token
            = some (get_app_state E token E.time) ∧
          (mwa_get_service_token E g).events
            = [.read_service_token_cache, .request_service_token,
                .write_service_token_cache token, .get_app_state token]) ∧
        (E.request_service_token = none →
          (mwa_get_service_token E g).ret = none ∧
          (mwa_get_service_token E g).mwa_g_service_token = g ∧
          (mwa_get_service_token E g).events
            = [.read_service_token_cache, .request_service_token]))) ∧
    (∀ token curr,
      (get_app_state E token curr).expires = token.expires ∧
      (get_app_state E token curr).token = token.token ∧
      (get_app_state E token curr).key = token.key) ∧
    (∀ t : MWA_SERVICE_TOKEN, -9223372036854775808 + 3600 ≤ t.expires →
      t.expires ≤ 9223372036854775807 →
      (wrap64 (t.expires - 3600) > E.time ↔ t.expires - 3600 > E.time)) := by
  have hfresh : serviceTokenFresh g E.time = true ↔
      ∃ t, g = some t ∧ wrap64 (t.expires - 3600) > E.time := by
    cases g with
    | none => simp [serviceTokenFresh]
    | some t => simp [serviceTokenFresh]
  refine ⟨?_, ?_, ?_, ?_, ?_⟩
  · intro h
    have := hfresh.mpr h
    simp only [mwa_get_service_token, this, if_true, and_self]
  · intro h
    by_contra hn
    have hf : ¬ (serviceTokenFresh g E.time = true) := fun e => hn (hfresh.mp e)
    simp only [mwa_get_service_token, if_neg hf] at h
    cases hr : E.read_service_token_cache with
    | some token => simp [hr] at h
    | none =>
      cases hq : E.request_service_token with
      | some token => simp [hr, hq] at h
      | none => simp [hr, hq] at h
  · intro hn
    have hf : ¬ (serviceTokenFresh g E.time = true) := fun e => hn (hfresh.mp e)
    refine ⟨?_, ?_⟩
    · intro token ht
      simp only [mwa_get_service_token, if_neg hf, ht, and_self]
    · intro hnone
      refine ⟨?_, ?_⟩
      · intro token ht
        simp only [mwa_get_service_token, if_neg hf, hnone, ht, and_self]
      · intro hr
        simp only [mwa_get_service_token, if_neg hf, hnone, hr, and_self]
  · intro token curr
    obtain ⟨a, b, _, _, c⟩ := get_app_state_fields E token curr
    exact ⟨a, b, c⟩
  · intro t h1 h2
    rw [show wrap64 (t.expires - 3600) = t.expires - 3600 by unfold wrap64; omega]

/-! ## The string buffer -/

theorem growCapacity_spec : ∀ (fuel capacity needed_size : Nat),
    0 < fuel → needed_size + 2 ≤ fuel + capacity →
    ∃ c, growCapacity fuel capacity needed_size = some c ∧ needed_size + 1 ≤ c ∧
      capacity ≤ c ∧ (needed_size + 1 ≤ capacity → c = capacity)
  | 0, _, _, h0, _ => by omega
  | fuel + 1, capacity, needed_size, _, h => by
    by_cases hc : capacity < needed_size + 1
    · obtain ⟨c, h1, h2, h3, _⟩ := growCapacity_spec fuel (capacity + CHUNK_SIZE) needed_size
        (by omega) (by simp only [CHUNK_SIZE]; omega)
      refine ⟨c, ?_, h2, by simp only [CHUNK_SIZE] at h3; omega, fun h => by omega⟩
      simp only [growCapacity, if_pos hc, h1]
    · exact ⟨capacity, by simp only [growCapacity, if_neg hc], by omega, le_refl _, fun _ => rfl⟩

/-- A call `append_string(string, in_data, in_size)` with `in_size > 0`
returns with `size = size + in_size` and stores the terminating NUL at offset
`size`; when the string has a block and `size + in_size` equals its
`capacity`, no new block is taken, so at return `size = capacity`; in every
other case `size < capacity` at return. -/
theorem append_string_step (apr_palloc : Nat → Mem) (string : MWA_STRING)
    (in_data : List Nat) (in_size : Nat) (hpos : 0 < in_size) :
    ∃ r, append_string apr_palloc string in_data in_size = some r ∧
      r.string.size = string.size + in_size ∧
      (⟨r.string.size, 0⟩ : Store) ∈ r.stores ∧
      (string.data ≠ none → string.size + in_size = string.capacity →
        r.string.capacity = string.capacity ∧ r.string.size = r.string.capacity) ∧
      ((string.data = none ∨ string.size + in_size ≠ string.capacity) →
        r.string.size < r.string.capacity) := by
  have hne : ¬ in_size = 0 := by omega
  obtain ⟨c, hc, hc1, hc2, _⟩ := growCapacity_spec (string.size + in_size + 2) string.capacity
    (string.size + in_size) (by omega) (by omega)
  cases hd : string.data with
  | none =>
    refine ⟨⟨⟨some (((apr_palloc c).place string.size
        ((List.range in_size).map (fun k => in_data.getD k 0))).store
          (string.size + in_size) 0), string.size + in_size, c⟩,
        storesOf string.size ((List.range in_size).map (fun k => in_data.getD k 0))
          ++ [⟨string.size + in_size, 0⟩]⟩, ?_, ?_, ?_, ?_, ?_⟩
    · simp only [append_string, if_neg hne, hd, hc, Option.map_some']
    · rfl
    · simp
    · intro h; exact absurd rfl h
    · intro _; simp only; omega
  | some data =>
    by_cases hg : string.size + in_size > string.capacity
    · refine ⟨⟨⟨some ((((apr_palloc c).place 0 (data.bytes 0 string.size)).place string.size
          ((List.range in_size).map (fun k => in_data.getD k 0))).store
            (string.size + in_size) 0), string.size + in_size, c⟩,
          storesOf string.size ((List.range in_size).map (fun k => in_data.getD k 0))
            ++ [⟨string.size + in_size, 0⟩]⟩, ?_, ?_, ?_, ?_, ?_⟩
      · simp only [append_string, if_neg hne, hd, if_pos hg, hc, Option.map_some']
      · rfl
      · simp
      · intro _ he; omega
      · intro _; simp only; omega
    · refine ⟨⟨⟨some ((data.place string.size
          ((List.range in_size).map (fun k => in_data.getD k 0))).store
            (string.size + in_size) 0), string.size + in_size, string.capacity⟩,
          storesOf string.size ((List.range in_size).map (fun k => in_data.getD k 0))
            ++ [⟨string.size + in_size, 0⟩]⟩, ?_, ?_, ?_, ?_, ?_⟩
      · simp only [append_string, if_neg hne, hd, if_neg hg]
      · rfl
      · simp
      · intro _ he; exact ⟨rfl, he⟩
      · intro h
        rcases h with h | h
        · simp at h
        · simp only; omega

/-- C26. After a call of `append_string` with `in_size > 0` the terminating
NUL is stored at offset `size`, and `size < capacity` unless the string had a
block and `size + in_size` was equal to its `capacity`: then no new block is
taken and `size = capacity` at return, so the NUL is stored one past the end
of the block.  From `init_string`, appending 4095 bytes and then 1 byte gives
`size = capacity = 4096`. -/
theorem append_string_size :
    (∀ (apr_palloc : Nat → Mem) (string : MWA_STRING) (in_data : List Nat) (in_size : Nat),
      0 < in_size →
      ∃ r, append_string apr_palloc string in_data in_size = some r ∧
        r.string.size = string.size + in_size ∧
        (⟨r.string.size, 0⟩ : Store) ∈ r.stores ∧
        (string.data ≠ none → string.size + in_size = string.capacity →
          r.string.capacity = string.capacity ∧ r.string.size = r.string.capacity) ∧
        ((string.data = none ∨ string.size + in_size ≠ string.capacity) →
          r.string.size < r.string.capacity)) ∧
    (∀ (apr_palloc : Nat → Mem),
      (appendAll apr_palloc init_string [(List.replicate 4095 65, 4095), ([65], 1)]).map
        (fun s => (s.size, s.capacity)) = some (4096, 4096)) := by
  refine ⟨append_string_step, ?_⟩
  intro apr_palloc
  rfl

/-! ## Tampering with the encrypted region -/

set_option maxRecDepth 1000000 in
/-- Whether a flipped bit of the encrypted region is caught rests on the
digest and the cipher, which are outside `token.c`: with the stand-ins of
`toyExternals` a flip in the payload gives `WA_ERR_BAD_HMAC`; with a digest
that ignores its input the same flip goes through and a changed attribute
list is returned. -/
theorem tamper_detection_rests_on_mac :
    parseTampered toyExternals (List.replicate 5 0) 72 toyRing 40 1
      = some (.err .BAD_HMAC, none) ∧
    parseTampered constMacExternals (List.replicate 5 0) 72 toyRing 40 1
      = some (.len 5, some [2, 0, 0, 0, 0]) := by
  decide

/-! ## Concrete runs -/

/-- The stand-ins meet what is asked of the external routines. -/
theorem toyLawful (key : WEBAUTH_KEY) : Lawful toyExternals key where
  key_nonnull := rfl
  set_encrypt := rfl
  set_decrypt := rfl
  cbc_length := by
    intro enc data
    cases enc <;> simp [toyExternals]
  cbc_bytes := by
    intro data b hb
    simp only [toyExternals, if_true, List.mem_map] at hb
    obtain ⟨x, _, rfl⟩ := hb
    omega
  cbc_inverse := by
    intro data _ hb
    simp only [toyExternals, if_true, Bool.false_eq_true, if_false, List.map_map]
    conv_rhs => rw [← List.map_id data]
    apply List.map_congr_left
    intro x hx
    have := hb x hx
    simp only [Function.comp, id]
    omega
  hmac_length := by
    intro k d
    simp [toyExternals, SHA_DIGEST_LENGTH]
  hmac_bytes := by
    intro k d b hb
    simp only [toyExternals] at hb
    have := List.eq_of_mem_replicate hb
    omega
  attrs_length := by
    intro list cap attrs h
    simp only [toyExternals, Sum.inr.injEq] at h
    subst h
    refine ⟨by simp [toyExternals], ?_⟩
    intro b hb
    simp only [List.mem_map] at hb
    obtain ⟨x, _, rfl⟩ := hb
    exact x.isLt
  attrs_inverse := by
    intro list cap attrs h
    simp only [toyExternals, Sum.inr.injEq] at h
    subst h
    simp only [toyExternals, List.length_map, List.map_map, Prod.mk.injEq, true_and,
      Option.some.injEq]
    conv_rhs => rw [← List.map_id list]
    apply List.map_congr_left
    intro x _
    apply Fin.ext
    simp only [Function.comp, id]
    exact Nat.mod_eq_of_lt x.isLt

theorem base64_roundtrip_witness :
    ∃ e d, webauth_base64_encode [77, 97, 110, 1, 2] 8 = some e ∧ e.ret = .len 8 ∧
      webauth_base64_decode (writeStores 0 (fun _ => 0) e.stores) 0 8 0 5 = some d ∧
      d.ret = .len 5 ∧ d.mem.bytes 0 5 = [77, 97, 110, 1, 2] :=
  base64_roundtrip [77, 97, 110, 1, 2] 8 (fun _ => 0) 0 0 (by decide) (by decide) (by decide)

theorem decode_capacity_witness :
    ∃ r, webauth_base64_decode (Mem.place (fun _ => 0) 0 [84, 87, 70, 117, 65, 81, 73, 61])
        0 8 100 4 = some r ∧
      (4 < decodedLength
          (Mem.bytes (Mem.place (fun _ => 0) 0 [84, 87, 70, 117, 65, 81, 73, 61]) 0 8) →
        r.ret = .err .NO_ROOM) ∧
      (decodedLength
          (Mem.bytes (Mem.place (fun _ => 0) 0 [84, 87, 70, 117, 65, 81, 73, 61]) 0 8) ≤ 4 →
        r.ret = .len (decodedLength
          (Mem.bytes (Mem.place (fun _ => 0) 0 [84, 87, 70, 117, 65, 81, 73, 61]) 0 8))) ∧
      (∀ st ∈ r.stores, st.idx < 4) :=
  decode_capacity (Mem.place (fun _ => 0) 0 [84, 87, 70, 117, 65, 81, 73, 61]) 0 8 100 4
    (by decide) (by decide) (by decide)

theorem decode_in_place_witness :
    ∃ a s : DecRun,
      webauth_base64_decode (Mem.place (fun _ => 0) 0 [84, 87, 70, 117, 65, 81, 73, 61])
        0 8 0 8 = some a ∧
      webauth_base64_decode (Mem.place (fun _ => 0) 0 [84, 87, 70, 117, 65, 81, 73, 61])
        0 8 100 8 = some s ∧
      a.ret = s.ret ∧ a.stores = s.stores ∧
      a.mem.bytes 0 a.stores.length = s.mem.bytes 100 s.stores.length ∧
      (∀ n, a.ret = .len n → n = a.stores.length) ∧
      (∀ st ∈ a.stores, st.idx < st.rd ∧ st.rd ≤ 8) :=
  decode_in_place (Mem.place (fun _ => 0) 0 [84, 87, 70, 117, 65, 81, 73, 61]) 0 8 100 8
    (by decide) (by decide)

/-- C6, as stated, fails: the input `AA==AAAA` has `=` in its first group,
which is not the final one, and `webauth_base64_decode` returns 1. -/
theorem decode_accepts_inner_padding :
    Mem.place (fun _ => 0) 0 [65, 65, 61, 61, 65, 65, 65, 65] (0 + 2) = EQ ∧
    (webauth_base64_decode (Mem.place (fun _ => 0) 0 [65, 65, 61, 61, 65, 65, 65, 65])
      0 8 100 8).map (·.ret) = some (.len 1) := by
  decide

theorem decode_rejects_misplaced_padding_witness :
    ∃ r, webauth_base64_decode (Mem.place (fun _ => 0) 0 [65, 65, 65, 65, 65, 65, 61, 65])
        0 8 100 8 = some r ∧ r.ret = .err .CORRUPT :=
  decode_rejects_misplaced_padding (Mem.place (fun _ => 0) 0 [65, 65, 65, 65, 65, 65, 61, 65])
    0 8 100 8 6 (by decide) (by decide) (by decide) (by decide) (by decide) (by decide)
    (by decide)

/-- C7, as stated, fails: the input `AAA=!!!!` holds the byte `!`, which is
neither in the alphabet nor `=`, and `webauth_base64_decode` returns 2. -/
theorem decode_misses_invalid_char :
    Mem.place (fun _ => 0) 0 [65, 65, 65, 61, 33, 33, 33, 33] (0 + 4) = 33 ∧
    33 ∉ basis_64 ∧ 33 ≠ EQ ∧
    (webauth_base64_decode (Mem.place (fun _ => 0) 0 [65, 65, 65, 61, 33, 33, 33, 33])
      0 8 100 8).map (·.ret) = some (.len 2) := by
  decide

theorem decode_rejects_invalid_char_witness :
    ∃ r, webauth_base64_decode (Mem.place (fun _ => 0) 0 [65, 65, 65, 65, 65, 65, 65, 33])
        0 8 100 8 = some r ∧ r.ret = .err .CORRUPT :=
  decode_rejects_invalid_char (Mem.place (fun _ => 0) 0 [65, 65, 65, 65, 65, 65, 65, 33])
    0 8 100 8 7 (by decide) (by decide) (by decide) (by decide) (by decide) (by decide)
    (by decide)

theorem full_block_padding_rejected_witness :
    (token_parse_verify toyExternals fullBlockBuffer 0 68).ret = .err .CORRUPT ∧
    (token_parse_verify toyExternals fullBlockBuffer 0 68).list = none ∧
    (token_parse_verify toyExternals fullBlockBuffer 0 68).calls
      = [.HMAC ((68 : Int) - T_ATTR_O)] :=
  full_block_padding_rejected toyExternals fullBlockBuffer 0 68 (by decide) (by decide)

theorem token_roundtrip_fails_on_full_block_witness :
    ∃ (c : CreateRun) (p : ParseRun (List (Fin 256))),
      webauth_token_create toyExternals (List.replicate 12 0) 92 toyRing = some c ∧
      c.ret = .len 92 ∧
      webauth_token_parse toyExternals (writeStores 0 (fun _ => 0) c.stores) 0 92 toyRing
        = some p ∧
      p.ret = .err .CORRUPT ∧ p.list = none :=
  token_roundtrip_fails_on_full_block toyExternals ⟨List.replicate 16 7, 16⟩ (toyLawful _)
    (List.replicate 12 0) (List.replicate 12 0) toyRing ⟨⟨List.replicate 16 7, 16⟩, 0, none, 0⟩
    [] (fun _ => 0) 92 92 (fun _ => 0) 0 rfl rfl rfl rfl rfl (by decide) (by decide)
    (by decide)

theorem token_roundtrip_short_padding_witness :
    ∃ (c : CreateRun) (p : ParseRun (List (Fin 256))),
      webauth_token_create toyExternals (List.replicate 5 0) 72 toyRing = some c ∧
      c.ret = .len 72 ∧
      webauth_token_parse toyExternals (writeStores 0 (fun _ => 0) c.stores) 0 72 toyRing
        = some p ∧
      p.ret = .len 5 ∧ p.list = some (List.replicate 5 0) :=
  token_roundtrip_short_padding toyExternals ⟨List.replicate 16 7, 16⟩ (toyLawful _)
    (List.replicate 5 0) (List.replicate 5 0) toyRing ⟨⟨List.replicate 16 7, 16⟩, 0, none, 0⟩
    [] (fun _ => 0) 72 72 (fun _ => 0) 0 rfl rfl rfl rfl rfl (by decide) (by decide)
    (by decide)

/-! ## Concrete runs: padding checks, token creation, krb5.c -/

/-- The claim C20 as stated fails for the cleanup calls: with every call
succeeding except `krb5_kt_close`, which returns 1,
`webauth_krb5_init_via_keytab` makes that call and returns `WA_ERR_NONE`,
with 0 in the context. -/
theorem cleanup_failure_ignored :
    NativeCall.krb5_kt_close ∈ (webauth_krb5_init_via_keytab closeFails none).calls ∧
    closeFails.code .krb5_kt_close = 1 ∧
    (webauth_krb5_init_via_keytab closeFails none).ret = .NONE ∧
    (webauth_krb5_init_via_keytab closeFails none).code = 0 := by
  decide

theorem krb5_error_classification_witness :
    (webauth_krb5_init_via_password preauthFails none none).ret = .LOGIN_FAILED ∧
    (webauth_krb5_init_via_password preauthFails none none).code = -1765328360 :=
  have h := (krb5_error_classification preauthFails none none).1
    .krb5_get_init_creds_password (by decide) (by decide) (by decide)
  ⟨(h.2.1 rfl).1.2 (by decide), h.1⟩

theorem padding_length_check_witness :
    zeroPadBuffer (0 + (52 - 1)) = 0 ∧
    (token_parse_verify toyExternals zeroPadBuffer 0 52).ret = .len 12 :=
  ⟨by decide,
    ((padding_length_check toyExternals zeroPadBuffer 0 52 (by decide)).2.2
      (by decide)).1.trans (by decide)⟩

theorem padding_content_check_witness :
    (token_parse_verify toyExternals shortPadBuffer 0 52).ret = .len 8 ∧
    (token_parse_verify toyExternals badPadBuffer 0 52).ret = .err .CORRUPT :=
  ⟨((((padding_content_check toyExternals shortPadBuffer 0 52 (by decide)).1
      (by decide) (by decide) (by decide)).2 (by decide)).1).trans (by decide),
    (((padding_content_check toyExternals badPadBuffer 0 52 (by decide)).1
      (by decide) (by decide) (by decide)).1 ⟨2, by decide, by decide⟩).1⟩

theorem create_capacity_boundary_witness :
    webauth_token_create toyExternals (List.replicate 5 0) 71 toyRing
      = some ⟨.err .NO_ROOM, [], [], []⟩ ∧
    ∃ c, webauth_token_create toyExternals (List.replicate 5 0) 72 toyRing = some c ∧
      c.ret = .len 72 :=
  have h := create_capacity_boundary toyExternals ⟨List.replicate 16 7, 16⟩
    (List.replicate 5 0) toyRing 72 rfl rfl (by decide)
  ⟨h.1, h.2 (fun _ => 0) (List.replicate 5 0) rfl rfl⟩

theorem key_ring_exhaustion_witness :
    (∃ p, webauth_token_parse toyExternals (fun _ => 0) 0 4 ⟨[]⟩ = some p ∧
      p.ret = .err .BAD_KEY ∧ p.list = none ∧ p.calls = []) ∧
    webauth_token_parse { toyExternals with uninitialized_key_null := true } (fun _ => 0) 0 4
      ⟨[]⟩ = none ∧
    webauth_token_create toyExternals (List.replicate 5 0) 72 ⟨[]⟩
      = some ⟨.err .BAD_KEY, [], [], []⟩ :=
  ⟨(((key_ring_exhaustion toyExternals).1 (fun _ => 0) 0 4 ⟨[]⟩ rfl).1 rfl).imp
      (fun _ h => ⟨h.1, h.2.1, h.2.2.1, h.2.2.2.1⟩),
    ((key_ring_exhaustion { toyExternals with uninitialized_key_null := true }).1
      (fun _ => 0) 0 4 ⟨[]⟩ rfl).2 rfl,
    (key_ring_exhaustion toyExternals).2 (List.replicate 5 0) 72 ⟨[]⟩ (by decide) (by decide)
      (Or.inl rfl)⟩

theorem envelope_layout_witness :
    ∃ c, webauth_token_create toyExternals (List.replicate 5 0) 72 toyRing = some c ∧
      c.ret = .len 72 ∧ c.ebuff.length = 52 ∧ c.ebuff.take 4 = [59, 154, 202, 0] := by
  obtain ⟨c, hc, hr, hl, ht, _⟩ := envelope_layout toyExternals ⟨List.replicate 16 7, 16⟩
    (List.replicate 5 0) (List.replicate 5 0) toyRing (fun _ => 0) 72 72
    (toyLawful ⟨List.replicate 16 7, 16⟩).hmac_length
    ((toyLawful ⟨List.replicate 16 7, 16⟩).cbc_length true) rfl rfl rfl rfl (by decide)
    (by decide) (le_refl _)
  exact ⟨c, hc, hr, hl, ht⟩

theorem deterministic_ciphertext_witness :
    ∃ c1 c2, webauth_token_create toyExternals (List.replicate 5 0) 72 toyRing = some c1 ∧
      webauth_token_create
        { toyExternals with time := 1000000007, malloc := fun _ => some (fun _ => 255) }
        (List.replicate 5 0) 72 toyRing = some c2 ∧
      c1.ebuff.drop 4 = c2.ebuff.drop 4 := by
  obtain ⟨c1, c2, h1, h2, _, _, h, _⟩ := deterministic_ciphertext toyExternals
    ⟨List.replicate 16 7, 16⟩ (List.replicate 5 0) (List.replicate 5 0) toyRing 1000000007
    (fun _ => some (fun _ => 255)) (fun _ => 0) (fun _ => 255) 72 72
    (toyLawful ⟨List.replicate 16 7, 16⟩).hmac_length
    ((toyLawful ⟨List.replicate 16 7, 16⟩).cbc_length true) rfl rfl rfl rfl rfl (by decide)
    (by decide) (le_refl _)
  exact ⟨c1, c2, h1, h2, h⟩

/-! ## Concrete runs: lengths, login, lookup order -/

/-- C22, as stated for every `int n > 0`, fails: at `n = 1610612734` the value
`ceil(n/3)*4` is `2^31`, which no `int` holds, and the product overflows (to
`-2^31` in two's complement). -/
theorem encoded_length_overflow :
    webauth_base64_encoded_length_int 1610612734 = some (-2147483648) ∧
    ⌈((1610612734 : Int) : ℚ) / 3⌉ * 4 = 2147483648 ∧
    ∀ r : Int, r ≤ 2147483647 →
      r ≠ ⌈((1610612734 : Int) : ℚ) / 3⌉ * 4 := by
  have hc : ⌈((1610612734 : Int) : ℚ) / 3⌉ * 4 = 2147483648 := by
    rw [ceil_div3]; norm_num
  refine ⟨by decide, hc, ?_⟩
  intro r hr
  rw [hc]
  omega

/-- The claim C24 as stated fails where `expires - 3600` leaves the range of
`time_t`: with an in-memory token that expires 100 seconds after the least
`time_t`, at time 9000, `mwa_get_service_token` returns that token and neither
reads the cache nor makes a request, although `expires - 3600 > 9000` is
false. -/
theorem service_token_wrapped_expiry :
    (mwa_get_service_token cacheEnv (some wrappedToken)).ret = some wrappedToken ∧
    (mwa_get_service_token cacheEnv (some wrappedToken)).events = [] ∧
    ¬ (wrappedToken.expires - 3600 > cacheEnv.time) := by
  decide

theorem encoded_length_ceil_witness :
    webauth_base64_encoded_length_int 5 = some (⌈((5 : Int) : ℚ) / 3⌉ * 4) :=
  (encoded_length_ceil 5 (by decide) (by decide)).1

theorem decode_output_bound_witness :
    ∃ r, webauth_base64_decode (Mem.place (fun _ => 0) 0 [84, 87, 70, 117, 65, 81, 73, 61])
        0 8 0 8 = some r ∧
      r.ret ≠ .err .NO_ROOM ∧
      ∀ k, r.ret = .len k → 1 ≤ k ∧ k ≤ 3 * 8 / 4 :=
  decode_output_bound (Mem.place (fun _ => 0) 0 [84, 87, 70, 117, 65, 81, 73, 61]) 0 8 0
    (by decide) (by decide)

set_option maxRecDepth 1000000 in
theorem parse_no_size_check_witness :
    ∃ p tail, webauth_token_parse toyExternals
        (Mem.place (fun _ => 0) 0 [65, 65, 65, 65]) 0 4 toyRing = some p ∧
      p.calls = .AES_set_decrypt_key 128 :: .AES_cbc_encrypt (-1) :: .HMAC (-37) :: tail :=
  parse_no_size_check toyExternals (Mem.place (fun _ => 0) 0 [65, 65, 65, 65])
    0 4 toyRing ⟨⟨List.replicate 16 7, 16⟩, 0, none, 0⟩ []
    (runOf 0 (Mem.place (fun _ => 0) 0 [65, 65, 65, 65])
      (decodeGroups 4 (Mem.bytes (Mem.place (fun _ => 0) 0 [65, 65, 65, 65]) 0 4) 0 0))
    3 rfl rfl rfl
    (webauth_base64_decode_eq _ 0 4 0 4 (by decide) (Or.inl rfl))
    (by decide)

theorem service_token_lookup_order_witness :
    (mwa_get_service_token cacheEnv (some sampleToken)).ret
      = some { sampleToken with app_state := some [65, 65, 65, 65], app_state_len := 4 } ∧
    (mwa_get_service_token cacheEnv (some sampleToken)).events
      = [.read_service_token_cache, .get_app_state sampleToken] :=
  have h := ((service_token_lookup_order cacheEnv (some sampleToken)).2.2.1 (by decide)).1
    sampleToken rfl
  ⟨h.1.trans (by decide), h.2.2⟩

theorem password_login_verified_witness :
    (webauth_krb5_init_via_password allSucceed none none).server_principal_out
      = some ("host/www@EXAMPLE.ORG") :=
  ((password_login_verified allSucceed none none).1 (by decide)).2

/-! ## Concrete runs: 32-bit lengths, block alignment, the hint -/

/-- The claim C16 as stated fails from `a = 2147483596` on: there `a + 36` is
a multiple of 16, `p` is 16, and `a + 36 + p` is `2147483648`, which no `int`
holds; the function returns `-2147483644`. -/
theorem padding_length_overflow :
    hugeExternals.webauth_attrs_encoded_length [] = 2147483596 ∧
    binary_encoded_length_int hugeExternals [] = (-2147483644, 16) ∧
    ∀ r : Int, r ≤ 2147483647 →
      r ≠ (hugeExternals.webauth_attrs_encoded_length [] : Int) + 36 + 16 + 4 := by
  refine ⟨rfl, by decide, ?_⟩
  intro r hr
  have : hugeExternals.webauth_attrs_encoded_length [] = 2147483596 := rfl
  rw [this]
  omega

theorem padding_never_zero_witness :
    (binary_encoded_length_int toyExternals (List.replicate 12 0)).2 = 16 ∧
    (binary_encoded_length_int toyExternals (List.replicate 12 0)).1 = 68 := by
  have h := padding_never_zero toyExternals (List.replicate 12 0) (by decide)
  exact ⟨h.1.trans (by decide), h.2.2.2.1.trans (by decide)⟩

set_option maxRecDepth 1000000 in
theorem encrypted_region_aligned_witness :
    ∃ c, webauth_token_create toyExternals (List.replicate 5 0) 72 toyRing = some c ∧
      c.ret = .len 72 ∧
      Call.AES_cbc_encrypt ((c.ebuff.length : Int) - T_HINT_S) ∈ c.calls ∧
      (c.ebuff.length : Int) - T_HINT_S = 48 := by
  obtain ⟨c, hc, hr, _⟩ := webauth_token_create_ret toyExternals ⟨List.replicate 16 7, 16⟩
    (List.replicate 5 0) (List.replicate 5 0) toyRing (fun _ => 0) 72 72 rfl rfl rfl rfl
    (by decide) (le_refl _)
  have h := encrypted_region_aligned toyExternals (List.replicate 5 0) 72 toyRing c
    (by decide) hc
  exact ⟨c, hc, hr, h.2.1 72 hr, (h.1 _ (h.2.1 72 hr)).1.trans (by decide)⟩

set_option maxRecDepth 1000000 in
/-- Below 40 decoded bytes the hint is read: on two inputs that decode to four
bytes and differ in the last of them, with a digest that does not depend on
its input, `webauth_token_parse` takes that byte for the padding length and
gives different results (`HMAC` is handed the length -36). -/
theorem hint_read_on_short_input :
    (webauth_token_parse constMacExternals
        (Mem.place (fun _ => 0) 0 [65, 65, 65, 65, 65, 65, 61, 61]) 0 8 toyRing).map
        (fun p => (p.ret, p.calls))
      = some (.len 0, [.AES_set_decrypt_key 128, .AES_cbc_encrypt 0, .HMAC (-36),
          .webauth_attrs_decode (-36)]) ∧
    (webauth_token_parse constMacExternals
        (Mem.place (fun _ => 0) 0 [65, 65, 65, 65, 65, 103, 61, 61]) 0 8 toyRing).map
        (fun p => (p.ret, p.calls))
      = some (.err .CORRUPT, [.AES_set_decrypt_key 128, .AES_cbc_encrypt 0, .HMAC (-36)]) := by
  decide

end WebAuth
